import Mathlib

/-!
# NFC Forum Type 4 Tag emulation (`src/qmlplugin/ndefapp.cpp`)

A shallow embedding of the tag-emulation engine `NdefApp::Private` and of
its helper classes `NdefApp::Response` and `NdefApp::File`.

Conventions of the embedding:

* a `uchar` or `uint` value is a natural number (below `2 ^ 8`, below
  `2 ^ 32`); arithmetic that can wrap is written with an explicit `%`;
* an `int` value is an integer; the conversion of a `uint` to `int` is
  `toInt`;
* a `QByteArray` is the list of its bytes, a `QBitArray` the list of its
  bits; the storage of a `QBitArray` is made of whole bytes, and the bits
  of its last byte that lie past the end of the array (which
  `QBitArray::count` counts) are kept beside the array, in the field
  `iBytesReadPadding` of a `File`;
* a pointer into `iFiles` (`iNdefFile`, `iSelectedFile`) is the key of the
  entry it points to, a null pointer is `none`;
* member functions that change the object return the new object; signals
  emitted, D-Bus calls issued and the reply sent are returned in an
  `Output` record;
* the function-local `static uint lastId` of `Response::nextId` is the
  field `lastId` of the engine state.
-/

namespace NdefApp

/-! ## Machine integers -/

/-- The number of values of a `uint`. -/
def UINT_RANGE : Nat := 2 ^ 32

/-- Conversion of a `uint` (any natural is first reduced) to `int`. -/
def toInt (n : Nat) : Int :=
  if n % UINT_RANGE < 2 ^ 31 then ((n % UINT_RANGE : Nat) : Int)
  else ((n % UINT_RANGE : Nat) : Int) - (UINT_RANGE : Int)

/-- Conversion of an `int` to `uint`. -/
def toUInt (i : Int) : Nat :=
  (i % (UINT_RANGE : Int)).toNat

/-- Conversion of an `int` to `uchar`. -/
def toUChar (i : Int) : Nat :=
  (i % 256).toNat

/-! ## Qt containers -/

/-- The bytes of a `QByteArray`. -/
abbrev QByteArray := List Nat

/-- The bits of a `QBitArray`. -/
abbrev QBitArray := List Bool

/-- The function `QByteArray::mid(int pos, int len)`, after
`QContainerImplHelper::mid`: a position past the end gives a null array, a
length that is negative or reaches past the end is cut at the end. -/
def QByteArray.mid (d : QByteArray) (pos len : Int) : QByteArray :=
  let size : Int := d.length
  if pos > size then []
  else if pos < 0 then
    if len < 0 ∨ len + pos ≥ size then d
    else if len + pos ≤ 0 then []
    else d.take (len + pos).toNat
  else
    let len1 : Int := if toUInt len > toUInt (size - pos) then size - pos else len
    (d.drop pos.toNat).take len1.toNat

/-- Worker of `QBitArray.fill`: the bits from index `i` on. -/
def QBitArray.fillFrom (value : Bool) (b e : Int) : Nat → QBitArray → QBitArray
  | _, [] => []
  | i, x :: xs =>
    (if b ≤ (i : Int) ∧ (i : Int) < e then value else x) :: QBitArray.fillFrom value b e (i + 1) xs

/-- The number of bits of the storage of a `QBitArray` of `size` bits that
lie past the end of the array: the storage is `(size + 7) / 8` bytes. -/
def QBitArray.padding (size : Nat) : Nat := 8 * ((size + 7) / 8) - size

/-- The function `QBitArray::fill(bool value, int begin, int end)`, its
effect on the bits of the array: the bits at the positions `begin ≤ i < end`
are set to `value`. Qt requires `0 ≤ begin` and `end ≤ size()` and checks
neither (`setBit` has a `Q_ASSERT` only, a no-op in a release build): the
range is written to the storage as it is. Its effect on the storage past the
end of the array is `QBitArray.fillPadding`. -/
def QBitArray.fill (bits : QBitArray) (value : Bool) (b e : Int) : QBitArray :=
  QBitArray.fillFrom value b e 0 bits

/-- The function `QBitArray::fill(bool value, int begin, int end)`, its
effect on the padding bits of an array of `size` bits: the positions
`size ≤ i` of the last storage byte that are in the range are set as well.
A range that reaches past the storage (`QBitArray.fillInStorage` fails)
makes `fill` write outside the object, which is undefined behaviour in C++;
no definition here gives such a write an effect. -/
def QBitArray.fillPadding (size : Nat) (pad : QBitArray) (value : Bool) (b e : Int) :
    QBitArray :=
  QBitArray.fillFrom value b e size pad

/-- The range `begin ≤ i < end` of a `fill` is empty or lies within the
storage of an array of `size` bits with the padding bits `pad`. -/
def QBitArray.fillInStorage (size : Nat) (pad : QBitArray) (b e : Int) : Bool :=
  decide (e ≤ b) || (decide (0 ≤ b) && decide (e ≤ ((size + pad.length : Nat) : Int)))

/-- The function `QBitArray::count(true)`: the number of set bits of the
storage, the padding bits included (Qt counts whole bytes). -/
def QBitArray.countStorage (bits pad : QBitArray) : Nat :=
  bits.count true + (pad.take (QBitArray.padding bits.length)).count true

/-- The function `QBitArray::fill(bool value)` with the default size:
every bit is set to `value`. -/
def QBitArray.fillAll (bits : QBitArray) (value : Bool) : QBitArray :=
  bits.map (fun _ => value)

/-! ## NdefApp::Response -/

/-- Class `NdefApp::Response`. -/
structure Response where
  iSw : Nat × Nat
  iData : QByteArray
  iResponseId : Nat
deriving DecidableEq, Repr

/-- The loop `while (!++lastId);` of `Response::nextId`, with fuel: the
value of `lastId` when the loop ends. -/
def Response.nextIdLoop : Nat → Nat → Option Nat
  | 0, _ => none
  | fuel + 1, lastId =>
    let lastId1 := (lastId + 1) % UINT_RANGE
    if lastId1 = 0 then Response.nextIdLoop fuel lastId1 else some lastId1

/-- The function `Response::nextId` on the value of its static counter:
the new value of the counter, which is also the value returned. Two runs
of the loop body always suffice (`nextIdLoop_two`). -/
def Response.nextId (lastId : Nat) : Nat :=
  (Response.nextIdLoop 2 lastId).getD 0

/-- The constructor `Response(uchar aSw1, uchar aSw2, const QByteArray&)`:
it draws an id from the counter `lastId`; the new counter is returned
with the response. -/
def Response.mk3 (lastId : Nat) (aSw1 aSw2 : Nat) (aData : QByteArray) : Response × Nat :=
  ({ iSw := (aSw1, aSw2), iData := aData, iResponseId := Response.nextId lastId },
   Response.nextId lastId)

/-- The default constructor `Response()`: 6F00, no data, id 0. -/
def Response.failure : Response :=
  { iSw := (0x6f, 0x00), iData := [], iResponseId := 0 }

/-- The method `Response::id`. -/
def Response.id (r : Response) : Nat := r.iResponseId

/-! ## NdefApp::File -/

/-- Class `NdefApp::File`. The member `iBytesRead` of the class is the pair
of `iBytesRead`, the bits of the array (one per byte of `iData`), and
`iBytesReadPadding`, the bits of the last byte of its storage that lie past
the end of the array. -/
structure File where
  iName : String
  iFid : QByteArray
  iData : QByteArray
  iBytesRead : QBitArray
  iBytesReadPadding : QBitArray
  iLastReadStart : Int
  iLastReadEnd : Int
deriving DecidableEq, Repr

/-- The constructor `File(QString, const QByteArray&, const QByteArray&)`;
`QBitArray(int size)` clears the whole storage. -/
def File.mk3 (aName : String) (aFid aData : QByteArray) : File :=
  { iName := aName, iFid := aFid, iData := aData,
    iBytesRead := List.replicate aData.length false,
    iBytesReadPadding := List.replicate (QBitArray.padding aData.length) false,
    iLastReadStart := 0, iLastReadEnd := 0 }

/-- The default constructor `File()`. -/
def File.empty : File :=
  { iName := "", iFid := [], iData := [], iBytesRead := [], iBytesReadPadding := [],
    iLastReadStart := 0, iLastReadEnd := 0 }

/-- The method `File::isValid`. -/
def File.isValid (f : File) : Bool := !f.iFid.isEmpty

/-- The method `File::size`. -/
def File.size (f : File) : Nat := f.iData.length % UINT_RANGE

/-- The method `File::bytesRead`. -/
def File.bytesRead (f : File) : Nat :=
  (QBitArray.countStorage f.iBytesRead f.iBytesReadPadding) % UINT_RANGE

/-- The method `File::isFullyRead`. -/
def File.isFullyRead (f : File) : Bool := f.bytesRead == f.size

/-- The method `File::reset`; `fill(false)` assigns a new array of the same
size, whose storage is all clear. -/
def File.reset (f : File) : File :=
  { f with iBytesRead := f.iBytesRead.fillAll false,
           iBytesReadPadding := f.iBytesReadPadding.fillAll false,
           iLastReadStart := 0, iLastReadEnd := 0 }

/-- The method `File::confirmRead`. -/
def File.confirmRead (f : File) : File :=
  { f with iBytesRead := f.iBytesRead.fill true f.iLastReadStart f.iLastReadEnd,
           iBytesReadPadding :=
             QBitArray.fillPadding f.iBytesRead.length f.iBytesReadPadding true
               f.iLastReadStart f.iLastReadEnd,
           iLastReadStart := 0, iLastReadEnd := 0 }

/-- The call of `fill` in `File::confirmRead` stays within the storage of
`iBytesRead`. -/
def File.confirmInStorage (f : File) : Bool :=
  QBitArray.fillInStorage f.iBytesRead.length f.iBytesReadPadding
    f.iLastReadStart f.iLastReadEnd

/-- The method `File::read`: the file with the new pending range, and the
bytes returned. -/
def File.read (f : File) (aOffset aExpected : Nat) : File × QByteArray :=
  let off := min (f.iData.length % UINT_RANGE) aOffset
  let len := if aExpected ≠ 0 then aExpected else (f.iData.length % UINT_RANGE + UINT_RANGE - off) % UINT_RANGE
  ({ f with iLastReadStart := toInt off,
            iLastReadEnd := toInt ((toUInt (toInt off) + len) % UINT_RANGE) },
   f.iData.mid (toInt off) (toInt len))

/-! ## Constants -/

/-- The application identifier `aid`. -/
def aid : QByteArray := [0xd2, 0x76, 0x00, 0x00, 0x85, 0x01, 0x01]

/-- The file id `cc_ef` of the Capability Container. -/
def cc_ef : QByteArray := [0xe1, 0x03]

/-- The template `cc_data_template` of the Capability Container. -/
def cc_data_template : QByteArray :=
  [0x00, 0x0f, 0x20, 0xff, 0xff, 0xff, 0xff,
   0x04, 0x06, 0xe1, 0x04, 0x00, 0x00, 0x00, 0xff]

def CC_NDEF_TLV_OFFSET : Nat := 7
def CC_NDEF_FID_OFFSET : Nat := CC_NDEF_TLV_OFFSET + 2
def CC_NDEF_SIZE_OFFSET : Nat := CC_NDEF_TLV_OFFSET + 4
def CC_NDEF_FID_SIZE : Nat := 2

def ISO_CLA : Nat := 0x00
def ISO_INS_SELECT : Nat := 0xa4
def ISO_INS_READ_BINARY : Nat := 0xb0
def ISO_P1_SELECT_BY_ID : Nat := 0x00
def ISO_P2_SELECT_FILE_FIRST : Nat := 0x00
def ISO_P2_RESPONSE_NONE : Nat := 0x0c

def MAX_NDEF_FILE_SIZE : Nat := 0xfffe
def MAX_NDEF_MESSAGE_SIZE : Nat := MAX_NDEF_FILE_SIZE - 2

/-- The constant `APP_PATH`. -/
def APP_PATH : String := "/ndefshare"

/-! ## NdefApp::Private -/

/-- The signals of `NdefApp` that the engine emits. -/
inductive Signal where
  | readyChanged
  | doneChanged
  | done
  | bytesTransferredChanged
deriving DecidableEq, Repr

/-- The calls to the NFC daemon that the engine issues. -/
inductive DBusCall where
  | RegisterLocalHostApp (path name : String) (aid : QByteArray) (flags : Nat)
  | RequestMode (enable disable : Nat)
  | RequestTechs (allow disallow : Nat)
  | ReleaseTechs (id : Nat)
  | ReleaseMode (id : Nat)
  | UnregisterLocalHostApp (path : String)
deriving DecidableEq, Repr

/-- The slot a `QDBusPendingCallWatcher` child of the engine is connected
to. -/
inductive Watcher where
  | onRegisterLocalHostAppFinished
  | onRequestModeFinished
  | onRequestTechsFinished
deriving DecidableEq, Repr

/-- What a member function lets out of the engine: the reply sent by
`Process`, the signals emitted and the D-Bus calls issued, in order. -/
structure Output where
  response : Option Response
  signals : List Signal
  calls : List DBusCall
deriving DecidableEq, Repr

/-- An output with nothing in it. -/
def Output.none : Output := { response := Option.none, signals := [], calls := [] }

/-- An output of signals only. -/
def Output.ofSignals (l : List Signal) : Output :=
  { response := Option.none, signals := l, calls := [] }

/-- The type `QMap<QByteArray,File>`, as the list of its entries. -/
abbrev FileMap := List (QByteArray × File)

/-- The method `QMap::contains`. -/
def FileMap.contains (m : FileMap) (k : QByteArray) : Bool :=
  m.any (fun e => e.1 == k)

/-- The value of a key that the map contains (a default-constructed value
otherwise, as with `QMap::operator[]`): what a pointer to the entry of `k`
points to. -/
def FileMap.value : FileMap → QByteArray → File
  | [], _ => File.empty
  | e :: m, k => if e.1 == k then e.2 else FileMap.value m k

/-- A write through a pointer to the entry of `k`. -/
def FileMap.modify (m : FileMap) (k : QByteArray) (g : File → File) : FileMap :=
  m.map (fun e => if e.1 == k then (e.1, g e.2) else e)

/-- The method `QMap::insert` (the entries are kept in insertion order; the
order plays no role in the engine). -/
def FileMap.insert (m : FileMap) (k : QByteArray) (f : File) : FileMap :=
  if m.contains k then m.map (fun e => if e.1 == k then (e.1, f) else e)
  else m ++ [(k, f)]

/-- Class `NdefApp::Private`, with the static counter of `Response::nextId`
(`lastId`) and the pending-call watchers that are children of the object
(`watchers`). -/
structure Private where
  iFiles : FileMap
  iNdefFile : QByteArray
  iSelectedFile : Option QByteArray
  iLastReadId : Nat
  iDone : Bool
  iRegisteredApp : Bool
  iRegisteredModeId : Nat
  iRegisteredTechsId : Nat
  iReady : Bool
  iRegisteredObject : Bool
  lastId : Nat
  watchers : List Watcher
deriving DecidableEq, Repr

/-- The file `iNdefFile` points to. -/
def Private.ndefFile (s : Private) : File := s.iFiles.value s.iNdefFile

/-- The file `iSelectedFile` points to, if it is not null. -/
def Private.selectedFile (s : Private) : Option File :=
  s.iSelectedFile.map (fun k => s.iFiles.value k)

/-- The static method `Private::ccFileData`; the shift `ndefFileLen >> 8` of
an `int` is the division by 256 that rounds down. -/
def ccFileData (aNdefSize : Nat) : QByteArray :=
  let data := cc_data_template
  let ndefFileLen : Int := toInt ((aNdefSize + 2) % UINT_RANGE)
  if ndefFileLen ≤ (MAX_NDEF_FILE_SIZE : Int) then
    (data.set (CC_NDEF_SIZE_OFFSET + 0) (toUChar (ndefFileLen / 256))).set
      (CC_NDEF_SIZE_OFFSET + 1) (toUChar ndefFileLen)
  else data

/-- The static method `Private::ndefFileData`; `aNdefData` is the memory
the pointer refers to. -/
def ndefFileData (aNdefData : QByteArray) (aNdefSize : Nat) : QByteArray :=
  if aNdefSize ≤ MAX_NDEF_MESSAGE_SIZE then
    [(aNdefSize / 256) % 256, aNdefSize % 256] ++ aNdefData.take aNdefSize
  else []

/-- The method `Private::isTooMuchData`. -/
def Private.isTooMuchData (s : Private) : Bool := s.ndefFile.size == 0

/-- The method `Private::select`. -/
def Private.select (s : Private) (aP1 aP2 : Nat) (aFid : QByteArray) : Private × Response :=
  if aP1 = ISO_P1_SELECT_BY_ID ∧
      aP2 = (ISO_P2_SELECT_FILE_FIRST ||| ISO_P2_RESPONSE_NONE) ∧
      s.iFiles.contains aFid = true then
    let r := Response.mk3 s.lastId 0x90 0x00 []
    ({ s with iSelectedFile := some aFid, lastId := r.2 }, r.1)
  else
    (s, Response.failure)

/-- The method `Private::readBinary`. -/
def Private.readBinary (s : Private) (aP1 aP2 aLe : Nat) : Private × Response :=
  match decide (aP1 &&& 0x80 = 0), s.iSelectedFile with
  | true, some k =>
    let off := ((aP1 <<< 8) % UINT_RANGE) ||| aP2
    let rd := (s.iFiles.value k).read off aLe
    let r := Response.mk3 s.lastId 0x90 0x00 rd.2
    ({ s with iFiles := s.iFiles.modify k (fun _ => rd.1), lastId := r.2 }, r.1)
  | _, _ => (s, Response.failure)

/-- The method `Private::mayBeReset`. -/
def Private.mayBeReset (s : Private) : Private × List Signal :=
  if s.iDone = false ∧ s.ndefFile.isFullyRead = false ∧ s.ndefFile.bytesRead ≠ 0 then
    ({ s with iFiles := s.iFiles.modify s.iNdefFile File.reset },
     [Signal.bytesTransferredChanged])
  else (s, [])

/-- The method `Private::mayBeDone`. -/
def Private.mayBeDone (s : Private) : Private × List Signal :=
  if s.ndefFile.isFullyRead = true then
    if s.iDone = false then
      ({ s with iDone := true }, [Signal.doneChanged, Signal.done])
    else (s, [Signal.done])
  else (s, [])

/-- The slot `Private::Start`. -/
def Private.Start (s : Private) : Private × Output :=
  let r := s.mayBeReset
  (r.1, Output.ofSignals r.2)

/-- The slot `Private::Restart`. -/
def Private.Restart (s : Private) : Private × Output :=
  let d := s.mayBeDone
  let r := d.1.mayBeReset
  (r.1, Output.ofSignals (d.2 ++ r.2))

/-- The slot `Private::Stop`. -/
def Private.Stop (s : Private) : Private × Output :=
  let d := s.mayBeDone
  let r := d.1.mayBeReset
  (r.1, Output.ofSignals (d.2 ++ r.2))

/-- The slot `Private::Process`. -/
def Private.Process (s : Private) (aCla aIns aP1 aP2 : Nat) (aData : QByteArray)
    (aLe : Nat) : Private × Output :=
  let response := Response.failure
  let r : Private × Response :=
    if aCla = ISO_CLA then
      if aIns = ISO_INS_SELECT then
        s.select aP1 aP2 aData
      else if aIns = ISO_INS_READ_BINARY then
        let rb := s.readBinary aP1 aP2 aLe
        ({ rb.1 with iLastReadId := rb.2.id }, rb.2)
      else (s, response)
    else (s, response)
  (r.1, { response := some r.2, signals := [], calls := [] })

/-- The slot `Private::ResponseStatus`. -/
def Private.ResponseStatus (s : Private) (aResponseId : Nat) (aOk : Bool) :
    Private × Output :=
  match aOk && decide (s.iLastReadId = aResponseId), s.iSelectedFile with
  | true, some k =>
    let prev := s.ndefFile.bytesRead
    let s1 := { s with iFiles := s.iFiles.modify k File.confirmRead }
    (s1, Output.ofSignals
      (if s1.ndefFile.bytesRead > prev then [Signal.bytesTransferredChanged] else []))
  | _, _ => (s, Output.none)

/-- The slot `Private::onRegisterLocalHostAppFinished`; `valid` is
`reply.isValid()`. -/
def Private.onRegisterLocalHostAppFinished (s : Private) (valid : Bool) : Private × Output :=
  let s0 := { s with watchers := s.watchers.erase Watcher.onRegisterLocalHostAppFinished }
  if valid = true then
    ({ s0 with iRegisteredApp := true,
               watchers := s0.watchers ++ [Watcher.onRequestModeFinished] },
     { response := Option.none, signals := [], calls := [DBusCall.RequestMode 0x08 0x02] })
  else (s0, Output.none)

/-- The slot `Private::onRequestModeFinished`; `reply` is `reply.value()`
when the reply is valid. -/
def Private.onRequestModeFinished (s : Private) (reply : Option Nat) : Private × Output :=
  let s0 := { s with watchers := s.watchers.erase Watcher.onRequestModeFinished }
  match reply with
  | some v =>
    ({ s0 with iRegisteredModeId := v,
               watchers := s0.watchers ++ [Watcher.onRequestTechsFinished] },
     { response := Option.none, signals := [],
       calls := [DBusCall.RequestTechs 0x01 0xfffffffe] })
  | Option.none => (s0, Output.none)

/-- The slot `Private::onRequestTechsFinished`. -/
def Private.onRequestTechsFinished (s : Private) (reply : Option Nat) : Private × Output :=
  let s0 := { s with watchers := s.watchers.erase Watcher.onRequestTechsFinished }
  match reply with
  | some v =>
    ({ s0 with iRegisteredTechsId := v, iReady := true },
     Output.ofSignals [Signal.readyChanged])
  | Option.none => (s0, Output.none)

/-- The constructor `Private::Private`; `lastId` is the value of the static
id counter at that time, `registered` the result of
`iBus.registerObject`. -/
def Private.construct (aNdefData : QByteArray) (aNdefSize : Nat) (lastId : Nat)
    (registered : Bool) : Private × Output :=
  let idCc : QByteArray := cc_ef
  let idNdef : QByteArray := (cc_data_template.drop CC_NDEF_FID_OFFSET).take CC_NDEF_FID_SIZE
  let files0 : FileMap := []
  let files1 := files0.insert idCc (File.mk3 "CC" idCc (ccFileData aNdefSize))
  let files2 := files1.insert idNdef (File.mk3 "NDEF" idCc (ndefFileData aNdefData aNdefSize))
  let s : Private :=
    { iFiles := files2, iNdefFile := idNdef, iSelectedFile := Option.none,
      iLastReadId := 0, iDone := false, iRegisteredApp := false,
      iRegisteredModeId := 0, iRegisteredTechsId := 0, iReady := false,
      iRegisteredObject := registered, lastId := lastId, watchers := [] }
  if s.isTooMuchData = false then
    ({ s with watchers := [Watcher.onRegisterLocalHostAppFinished] },
     { response := Option.none, signals := [],
       calls := [DBusCall.RegisterLocalHostApp APP_PATH "NfcShare" aid 0x01] })
  else (s, Output.none)

/-- The destructor `Private::~Private`: the D-Bus calls it issues. -/
def Private.destruct (s : Private) : List DBusCall :=
  (if s.iRegisteredTechsId ≠ 0 then [DBusCall.ReleaseTechs s.iRegisteredTechsId] else []) ++
  (if s.iRegisteredModeId ≠ 0 then [DBusCall.ReleaseMode s.iRegisteredModeId] else []) ++
  (if s.iRegisteredApp = true then [DBusCall.UnregisterLocalHostApp APP_PATH] else [])

/-! ## The engine as a machine -/

/-- What reaches the engine from outside: the D-Bus slots of the adaptor
and the completion of the pending calls. -/
inductive Event where
  | Process (aCla aIns aP1 aP2 : Nat) (aData : QByteArray) (aLe : Nat)
  | ResponseStatus (aResponseId : Nat) (aOk : Bool)
  | Start
  | Restart
  | Stop
  | ImplicitSelect
  | Select
  | Deselect
  | RegisterLocalHostAppFinished (valid : Bool)
  | RequestModeFinished (reply : Option Nat)
  | RequestTechsFinished (reply : Option Nat)
deriving DecidableEq, Repr

/-- The engine on one event. -/
def Private.step (s : Private) : Event → Private × Output
  | Event.Process aCla aIns aP1 aP2 aData aLe => s.Process aCla aIns aP1 aP2 aData aLe
  | Event.ResponseStatus aResponseId aOk => s.ResponseStatus aResponseId aOk
  | Event.Start => s.Start
  | Event.Restart => s.Restart
  | Event.Stop => s.Stop
  | Event.ImplicitSelect => (s, Output.none)
  | Event.Select => (s, Output.none)
  | Event.Deselect => (s, Output.none)
  | Event.RegisterLocalHostAppFinished valid => s.onRegisterLocalHostAppFinished valid
  | Event.RequestModeFinished reply => s.onRequestModeFinished reply
  | Event.RequestTechsFinished reply => s.onRequestTechsFinished reply

/-- A list of bytes. -/
def IsBytes (d : QByteArray) : Prop := ∀ b ∈ d, b < 256

/-- An event the engine can receive in state `s`: the arguments have the
types of the D-Bus signature (`y` a byte, `u` a `uint`), and a pending call
completes only if its watcher exists. -/
def Event.Ok (s : Private) : Event → Prop
  | Event.Process aCla aIns aP1 aP2 aData aLe =>
    aCla < 256 ∧ aIns < 256 ∧ aP1 < 256 ∧ aP2 < 256 ∧ IsBytes aData ∧ aLe < UINT_RANGE
  | Event.ResponseStatus aResponseId _ => aResponseId < UINT_RANGE
  | Event.RegisterLocalHostAppFinished _ => Watcher.onRegisterLocalHostAppFinished ∈ s.watchers
  | Event.RequestModeFinished reply =>
    Watcher.onRequestModeFinished ∈ s.watchers ∧ ∀ v, reply = some v → v < UINT_RANGE
  | Event.RequestTechsFinished reply =>
    Watcher.onRequestTechsFinished ∈ s.watchers ∧ ∀ v, reply = some v → v < UINT_RANGE
  | _ => True

/-- The states of the engine: a state after construction from a message
of `aNdefSize` bytes, and every state an event leads to. -/
inductive Reachable : Private → Prop where
  | construct (aNdefData : QByteArray) (aNdefSize lastId : Nat) (registered : Bool) :
      IsBytes aNdefData → aNdefSize = aNdefData.length → aNdefSize < UINT_RANGE →
      lastId < UINT_RANGE →
      Reachable (Private.construct aNdefData aNdefSize lastId registered).1
  | step (s : Private) (e : Event) :
      Reachable s → e.Ok s → Reachable (s.step e).1

/-- The state after a list of events. -/
def Private.run (s : Private) : List Event → Private
  | [] => s
  | e :: es => (s.step e).1.run es

/-- One entry of the history of a run: the state an event met, the event
and what the engine let out. -/
structure Record where
  before : Private
  event : Event
  output : Output
deriving DecidableEq, Repr

/-- The history of a run. -/
def Private.history (s : Private) : List Event → List Record
  | [] => []
  | e :: es => { before := s, event := e, output := (s.step e).2 } :: (s.step e).1.history es

/-! ## Invariants of the engine -/

/-- A file as its constructor builds it: one bit of `iBytesRead` per byte of
`iData`, the padding bits of its storage, and not more bytes than an NDEF
file can have. -/
def File.WF (f : File) : Prop :=
  f.iBytesRead.length = f.iData.length ∧ f.iData.length ≤ MAX_NDEF_FILE_SIZE ∧
  f.iBytesReadPadding.length = QBitArray.padding f.iData.length

/-- What holds of the engine in every state it can reach: `iFiles` has the
two entries of the constructor, `iNdefFile` points to the second one,
`iSelectedFile` points into `iFiles` when it is not null, the files are as
their constructor built them, and the id counter is a `uint`. -/
structure Private.Inv (s : Private) : Prop where
  keys : s.iFiles.map Prod.fst = [cc_ef, [0xe1, 0x04]]
  ndef : s.iNdefFile = [0xe1, 0x04]
  selected : ∀ k, s.iSelectedFile = some k → FileMap.contains s.iFiles k = true
  files : ∀ e ∈ s.iFiles, e.2.WF
  lastId : s.lastId < UINT_RANGE

/-! ## Example states -/

/-- A message of ten bytes. -/
def exampleMessage : QByteArray := [1, 2, 3, 4, 5, 6, 7, 8, 9, 10]

/-- The engine constructed for `exampleMessage`. -/
def exampleApp : Private := (Private.construct exampleMessage 10 0 true).1

/-- The command SELECT of the NDEF file. -/
def selectNdef : Event := Event.Process 0x00 0xa4 0x00 0x0c [0xe1, 0x04] 0

/-- The command SELECT of the Capability Container. -/
def selectCc : Event := Event.Process 0x00 0xa4 0x00 0x0c [0xe1, 0x03] 0

/-- The command READ BINARY. -/
def readBinaryAt (p1 p2 le : Nat) : Event := Event.Process 0x00 0xb0 p1 p2 [] le

/-- The engine after SELECT of the NDEF file and a read of its first two
bytes that is not acknowledged yet. -/
def exampleReading : Private := exampleApp.run [selectNdef, readBinaryAt 0 0 2]

/-! ## The delivery guarantee -/

/-- The id of the reply the event of the record was answered with, 0 if
there was no reply. -/
def Record.responseId (r : Record) : Nat :=
  match r.output.response with
  | some resp => resp.iResponseId
  | Option.none => 0

/-- The reply to the record's event carried byte `i` of the file keyed `k`:
the event is a READ BINARY command that met the file `k` selected and was
answered with status 9000, and `i` is one of the positions of the payload,
which starts at the clamped offset. -/
def Record.carried (r : Record) (k : QByteArray) (i : Nat) : Bool :=
  match r.event, r.output.response with
  | Event.Process aCla aIns aP1 aP2 _ _, some resp =>
    decide (aCla = ISO_CLA) && decide (aIns = ISO_INS_READ_BINARY) &&
    decide (r.before.iSelectedFile = some k) && decide (resp.iSw = (0x90, 0x00)) &&
    decide (min (((aP1 <<< 8) % UINT_RANGE) ||| aP2) (FileMap.value r.before.iFiles k).size ≤ i) &&
    decide (i < min (((aP1 <<< 8) % UINT_RANGE) ||| aP2) (FileMap.value r.before.iFiles k).size
      + resp.iData.length)
  | _, _ => false

/-- The delivery guarantee on the run of the events `es` from the state `s`:
every byte of every file that is marked confirmed at the end was carried by
the reply to a READ BINARY command of the run, and a later event of the run
is the acknowledgement `ResponseStatus(id, true)` of the id of that reply. -/
def DeliveryGuarantee (s : Private) (es : List Event) : Prop :=
  ∀ (k : QByteArray) (i : Nat),
    (FileMap.value (s.run es).iFiles k).iBytesRead[i]? = some true →
    ∃ (j1 j2 : Nat) (r : Record), j1 < j2 ∧ (s.history es)[j1]? = some r ∧
      r.carried k i = true ∧ es[j2]? = some (Event.ResponseStatus r.responseId true)

/-- The events of a run can all be received. -/
def Private.runOk (s : Private) : List Event → Prop
  | [] => True
  | e :: es => e.Ok s ∧ (s.step e).1.runOk es

/-- A run in which the acknowledgement of a read of the Capability Container
arrives when the NDEF file is selected again: the first read of the NDEF
file (id 2) fails in transmission, the read of the Capability Container has
id 4. -/
def staleConfirmRun : List Event :=
  [selectNdef, readBinaryAt 0 0 2, Event.ResponseStatus 2 false,
   selectCc, readBinaryAt 0 0 15, selectNdef, Event.ResponseStatus 4 true]

/-- A run in which a failed READ BINARY (bit 8 of P1 set) follows a read of
the NDEF file that is never acknowledged, and the id 0 of the failure
response is acknowledged. -/
def failureIdRun : List Event :=
  [selectNdef, readBinaryAt 0 0 2, readBinaryAt 0x80 0 2, Event.ResponseStatus 0 true]

/-! ## NdefApp: what the engine shows upward -/

/-- The method `NdefApp::isTooMuchData`. -/
def isTooMuchData (s : Private) : Bool := s.isTooMuchData

/-- The method `NdefApp::isReady`. -/
def isReady (s : Private) : Bool := s.iReady

/-- The method `NdefApp::isDone`. -/
def isDone (s : Private) : Bool := s.iDone

/-- The method `NdefApp::getBytesTotal`. -/
def getBytesTotal (s : Private) : Nat := s.ndefFile.size

/-- The method `NdefApp::getBytesTransferred`. -/
def getBytesTransferred (s : Private) : Nat := s.ndefFile.bytesRead

/-- The event of the record was answered with a response. -/
def Record.hasResponse (r : Record) : Bool := r.output.response.isSome

/-- The engine after SELECT of the NDEF file, a read of the whole file
(`Le = 0`) and the successful acknowledgement of the reply (id 2): the NDEF
file is fully read and `done` is not set yet. -/
def exampleFullyRead : Private :=
  exampleApp.run [selectNdef, readBinaryAt 0 0 0, Event.ResponseStatus 2 true]

/-- The engine of `exampleFullyRead` after the session was restarted: `done`
is set. -/
def exampleDone : Private := exampleFullyRead.run [Event.Restart]

/-- The event is the completion of a pending call to the NFC daemon. -/
def Event.isReply : Event → Bool
  | Event.RegisterLocalHostAppFinished _ => true
  | Event.RequestModeFinished _ => true
  | Event.RequestTechsFinished _ => true
  | _ => false

/-- The engine of `exampleApp` after the three calls of the handshake were
answered successfully, with the mode id 7 and the technology id 9. -/
def exampleRegistered : Private :=
  exampleApp.run [Event.RegisterLocalHostAppFinished true, Event.RequestModeFinished (some 7),
    Event.RequestTechsFinished (some 9)]

/-- The engine of `exampleApp` after the three calls of the handshake were
answered successfully, where the daemon granted the mode with the id 0. -/
def exampleModeIdZero : Private :=
  exampleApp.run [Event.RegisterLocalHostAppFinished true, Event.RequestModeFinished (some 0),
    Event.RequestTechsFinished (some 5)]

/-- The call of `fill` that an acknowledgement makes `confirmRead()` issue
on the file selected at the time of the record stays within the storage of
the bit array of that file. -/
def Record.confirmInStorage (r : Record) : Bool :=
  match r.event with
  | Event.ResponseStatus _ _ => (r.before.selectedFile.map File.confirmInStorage).getD true
  | _ => true

/-- A run in which a read that reaches past the end of the NDEF file is
acknowledged after `done` was set: SELECT of the NDEF file, a read of the
whole file (id 2) and its acknowledgement, Stop, a read of 13 bytes of the
12-byte file (id 3) and its acknowledgement. -/
def overshootRun : List Event :=
  [selectNdef, readBinaryAt 0 0 0, Event.ResponseStatus 2 true, Event.Stop,
   readBinaryAt 0 0 13, Event.ResponseStatus 3 true]

/-- The engine of `exampleApp` after `overshootRun`. -/
def exampleOvershoot : Private := exampleApp.run overshootRun

/-- A run in which byte 10 of the NDEF file is never read: SELECT of the
NDEF file, a read of the bytes 0 to 9 (id 2) and its acknowledgement, a read
of 2 bytes at offset 11 of the 12-byte file (id 3) and its acknowledgement,
Stop. -/
def skippedByteRun : List Event :=
  [selectNdef, readBinaryAt 0 0 10, Event.ResponseStatus 2 true,
   readBinaryAt 0 11 2, Event.ResponseStatus 3 true, Event.Stop]

/-- The engine of `exampleApp` after `skippedByteRun`. -/
def exampleSkippedByte : Private := exampleApp.run skippedByteRun

/-! ## Machine integers and Qt containers: lemmas -/

theorem toInt_of_lt {n : Nat} (h : n < 2 ^ 31) : toInt n = (n : Int) := by
  unfold toInt UINT_RANGE
  have h1 : n % 2 ^ 32 = n := Nat.mod_eq_of_lt (by omega)
  rw [h1, if_pos h]

theorem toUInt_toInt {n : Nat} (h : n < UINT_RANGE) : toUInt (toInt n) = n := by
  unfold toUInt toInt
  unfold UINT_RANGE at *
  have h1 : n % 2 ^ 32 = n := Nat.mod_eq_of_lt h
  rw [h1]
  split <;> omega

theorem toUInt_ofNat {n : Nat} (h : n < UINT_RANGE) : toUInt (n : Int) = n := by
  unfold toUInt
  unfold UINT_RANGE at *
  omega

theorem mid_eq (d : QByteArray) (off len : Nat) (hoff : off ≤ d.length)
    (hd : d.length < 2 ^ 31) (hlen : len < UINT_RANGE) :
    d.mid (toInt off) (toInt len) = (d.drop off).take len := by
  have hoff1 : toInt off = (off : Int) := toInt_of_lt (by omega)
  unfold QByteArray.mid
  simp only [hoff1]
  have h1 : ¬ ((off : Int) > (d.length : Int)) := by omega
  have h2 : ¬ ((off : Int) < 0) := by omega
  rw [if_neg h1, if_neg h2]
  have h3 : toUInt ((d.length : Int) - (off : Int)) = d.length - off := by
    have : ((d.length : Int) - (off : Int)) = ((d.length - off : Nat) : Int) := by omega
    rw [this]
    exact toUInt_ofNat (by unfold UINT_RANGE; omega)
  rw [toUInt_toInt hlen, h3]
  by_cases hc : len > d.length - off
  · simp only [hc, if_true]
    have : ((d.length : Int) - (off : Int)).toNat = d.length - off := by omega
    simp only [Int.toNat_ofNat, this]
    rw [List.take_of_length_le (by simp), List.take_of_length_le (by simp; omega)]
  · simp only [hc, if_false]
    have : toInt len = (len : Int) := toInt_of_lt (by omega)
    simp [this]

theorem fillFrom_length (v : Bool) (b e : Int) (i : Nat) (xs : QBitArray) :
    (QBitArray.fillFrom v b e i xs).length = xs.length := by
  induction xs generalizing i with
  | nil => rfl
  | cons x xs ih => simp [QBitArray.fillFrom, ih]

theorem fillFrom_getElem? (v : Bool) (b e : Int) (i j : Nat) (xs : QBitArray) :
    (QBitArray.fillFrom v b e i xs)[j]? =
      (xs[j]?).map (fun x => if b ≤ ((i + j : Nat) : Int) ∧ ((i + j : Nat) : Int) < e then v else x) := by
  induction xs generalizing i j with
  | nil => simp [QBitArray.fillFrom]
  | cons x xs ih =>
    cases j with
    | zero => simp [QBitArray.fillFrom]
    | succ j =>
      simp only [QBitArray.fillFrom, List.getElem?_cons_succ]
      rw [ih]
      have : i + 1 + j = i + (j + 1) := by omega
      rw [this]

theorem fill_length (bits : QBitArray) (v : Bool) (b e : Int) :
    (bits.fill v b e).length = bits.length :=
  fillFrom_length v b e 0 bits

theorem fill_getElem? (bits : QBitArray) (v : Bool) (b e : Int) (j : Nat) :
    (bits.fill v b e)[j]? =
      (bits[j]?).map (fun x => if b ≤ (j : Int) ∧ (j : Int) < e then v else x) := by
  unfold QBitArray.fill
  rw [fillFrom_getElem?]
  simp

theorem fill_of_le (bits : QBitArray) (v : Bool) {b e : Int} (h : e ≤ b) :
    bits.fill v b e = bits := by
  apply List.ext_getElem?
  intro j
  rw [fill_getElem?]
  have : ¬ (b ≤ (j : Int) ∧ (j : Int) < e) := by omega
  simp [this]

theorem fillFrom_of_le (v : Bool) {b e : Int} (h : e ≤ b) (i : Nat) (xs : QBitArray) :
    QBitArray.fillFrom v b e i xs = xs := by
  apply List.ext_getElem?
  intro j
  rw [fillFrom_getElem?]
  have : ¬ (b ≤ ((i + j : Nat) : Int) ∧ ((i + j : Nat) : Int) < e) := by omega
  simp only [this, if_false]
  cases xs[j]? <;> rfl

theorem fillFrom_of_end_le (v : Bool) (b : Int) {e : Int} (i : Nat) (h : e ≤ (i : Int))
    (xs : QBitArray) : QBitArray.fillFrom v b e i xs = xs := by
  apply List.ext_getElem?
  intro j
  rw [fillFrom_getElem?]
  have : ¬ (b ≤ ((i + j : Nat) : Int) ∧ ((i + j : Nat) : Int) < e) := by omega
  simp only [this, if_false]
  cases xs[j]? <;> rfl

theorem padding_le (n : Nat) : QBitArray.padding n ≤ 7 := by
  unfold QBitArray.padding
  omega

theorem countStorage_le (bits pad : QBitArray) :
    QBitArray.countStorage bits pad ≤ bits.length + 7 := by
  unfold QBitArray.countStorage
  have h1 : bits.count true ≤ bits.length := List.count_le_length _ _
  have h2 : (pad.take (QBitArray.padding bits.length)).count true
      ≤ (pad.take (QBitArray.padding bits.length)).length := List.count_le_length _ _
  have h3 : (pad.take (QBitArray.padding bits.length)).length ≤ QBitArray.padding bits.length := by
    rw [List.length_take]
    exact Nat.min_le_left _ _
  have h4 := padding_le bits.length
  omega

theorem confirmRead_padding_of_le (f : File) (h : f.iLastReadEnd ≤ f.iLastReadStart) :
    f.confirmRead.iBytesReadPadding = f.iBytesReadPadding :=
  fillFrom_of_le true h _ _

theorem confirmRead_padding_of_end_le (f : File)
    (h : f.iLastReadEnd ≤ (f.iBytesRead.length : Int)) :
    f.confirmRead.iBytesReadPadding = f.iBytesReadPadding :=
  fillFrom_of_end_le true _ _ h _

theorem fillAll_count (bits : QBitArray) : (bits.fillAll false).count true = 0 := by
  rw [List.count_eq_zero]
  intro hmem
  simp only [QBitArray.fillAll, List.mem_map] at hmem
  obtain ⟨_, _, h⟩ := hmem
  cases h

theorem fillAll_take (bits : QBitArray) (n : Nat) :
    (bits.fillAll false).take n = QBitArray.fillAll (bits.take n) false := by
  unfold QBitArray.fillAll
  rw [List.map_take]

theorem reset_bytesRead_zero (f : File) : f.reset.bytesRead = 0 := by
  unfold File.bytesRead QBitArray.countStorage
  show ((f.iBytesRead.fillAll false).count true +
    ((f.iBytesReadPadding.fillAll false).take
      (QBitArray.padding (f.iBytesRead.fillAll false).length)).count true) % UINT_RANGE = 0
  rw [fillAll_count, fillAll_take, fillAll_count]
  rfl

theorem nextIdLoop_two (lastId : Nat) :
    Response.nextIdLoop 2 lastId =
      some (if (lastId + 1) % UINT_RANGE = 0 then 1 else (lastId + 1) % UINT_RANGE) := by
  by_cases h : (lastId + 1) % UINT_RANGE = 0
  · have h1 : (0 + 1) % UINT_RANGE ≠ 0 := by decide
    have h2 : (0 + 1) % UINT_RANGE = 1 := by decide
    simp only [Response.nextIdLoop, h, h1, h2, if_true, if_false]
    rfl
  · simp only [Response.nextIdLoop, h, if_false]

theorem nextId_eq (lastId : Nat) :
    Response.nextId lastId =
      if (lastId + 1) % UINT_RANGE = 0 then 1 else (lastId + 1) % UINT_RANGE := by
  simp [Response.nextId, nextIdLoop_two]

theorem nextId_ne_zero (lastId : Nat) : Response.nextId lastId ≠ 0 := by
  rw [nextId_eq]; split <;> omega

theorem nextId_lt (lastId : Nat) : Response.nextId lastId < UINT_RANGE := by
  rw [nextId_eq]; unfold UINT_RANGE; split <;> omega

theorem nextId_ne_self {lastId : Nat} (h : lastId < UINT_RANGE) :
    Response.nextId lastId ≠ lastId := by
  rw [nextId_eq]; unfold UINT_RANGE at *; split <;> omega

/-! ## The file map: lemmas -/

theorem value_cons (e : QByteArray × File) (m : FileMap) (k : QByteArray) :
    FileMap.value (e :: m) k = if e.1 = k then e.2 else FileMap.value m k := by
  simp [FileMap.value]

theorem modify_cons (e : QByteArray × File) (m : FileMap) (k : QByteArray) (g : File → File) :
    FileMap.modify (e :: m) k g =
      (if e.1 = k then (e.1, g e.2) else e) :: FileMap.modify m k g := by
  simp [FileMap.modify]

theorem contains_cons (e : QByteArray × File) (m : FileMap) (k : QByteArray) :
    FileMap.contains (e :: m) k = true ↔ e.1 = k ∨ FileMap.contains m k = true := by
  simp [FileMap.contains]

theorem modify_keys (m : FileMap) (k : QByteArray) (g : File → File) :
    (FileMap.modify m k g).map Prod.fst = m.map Prod.fst := by
  induction m with
  | nil => rfl
  | cons e m ih =>
    rw [modify_cons, List.map_cons, List.map_cons, ih]
    by_cases h : e.1 = k <;> simp [h]

theorem contains_iff_mem_keys (m : FileMap) (k : QByteArray) :
    FileMap.contains m k = true ↔ k ∈ m.map Prod.fst := by
  induction m with
  | nil => simp [FileMap.contains]
  | cons e m ih =>
    rw [contains_cons, ih, List.map_cons, List.mem_cons]
    constructor
    · rintro (h | h)
      · exact Or.inl h.symm
      · exact Or.inr h
    · rintro (h | h)
      · exact Or.inl h.symm
      · exact Or.inr h

theorem contains_modify (m : FileMap) (k k1 : QByteArray) (g : File → File) :
    FileMap.contains (FileMap.modify m k g) k1 = FileMap.contains m k1 := by
  rw [Bool.eq_iff_iff, contains_iff_mem_keys, contains_iff_mem_keys, modify_keys]

theorem value_modify_of_ne (m : FileMap) {k k1 : QByteArray} (g : File → File) (h : k1 ≠ k) :
    FileMap.value (FileMap.modify m k g) k1 = FileMap.value m k1 := by
  induction m with
  | nil => rfl
  | cons e m ih =>
    rw [modify_cons, value_cons, value_cons, ih]
    by_cases hk : e.1 = k
    · have hk2 : ¬ (e.1 = k1) := fun hh => h (hh ▸ hk)
      have hk3 : ¬ (k = k1) := fun hh => h hh.symm
      simp [hk, hk3]
    · simp [hk]

theorem value_modify_self (m : FileMap) {k : QByteArray} (g : File → File)
    (h : FileMap.contains m k = true) :
    FileMap.value (FileMap.modify m k g) k = g (FileMap.value m k) := by
  induction m with
  | nil => simp [FileMap.contains] at h
  | cons e m ih =>
    rw [modify_cons, value_cons, value_cons]
    by_cases hk : e.1 = k
    · simp [hk]
    · rw [contains_cons] at h
      have h1 : FileMap.contains m k = true := h.resolve_left hk
      simp [hk, ih h1]

theorem value_mem (m : FileMap) {k : QByteArray} (h : FileMap.contains m k = true) :
    (k, FileMap.value m k) ∈ m := by
  induction m with
  | nil => simp [FileMap.contains] at h
  | cons e m ih =>
    rw [value_cons]
    by_cases hk : e.1 = k
    · simp only [hk, if_true]
      rw [← hk]
      exact List.mem_cons_self _ _
    · rw [contains_cons] at h
      simp only [hk, if_false]
      exact List.mem_cons_of_mem _ (ih (h.resolve_left hk))

theorem mem_modify (m : FileMap) (k : QByteArray) (g : File → File) (e : QByteArray × File)
    (h : e ∈ FileMap.modify m k g) : ∃ e0 ∈ m, e.1 = e0.1 ∧ (e.2 = e0.2 ∨ e.2 = g e0.2) := by
  simp only [FileMap.modify, List.mem_map] at h
  obtain ⟨e0, h0, h1⟩ := h
  refine ⟨e0, h0, ?_⟩
  by_cases hk : (e0.1 == k) = true
  · simp only [hk, if_true] at h1
    subst h1
    exact ⟨rfl, Or.inr rfl⟩
  · simp only [hk] at h1
    subst h1
    exact ⟨rfl, Or.inl rfl⟩

/-! ## The invariant holds in every reachable state -/

theorem ccFileData_length (n : Nat) : (ccFileData n).length = 15 := by
  unfold ccFileData
  simp only []
  split <;> simp [cc_data_template]

theorem ndefFileData_length_le (d : QByteArray) (n : Nat) :
    (ndefFileData d n).length ≤ MAX_NDEF_FILE_SIZE := by
  unfold ndefFileData
  split
  · rename_i h
    simp only [List.length_append, List.length_cons, List.length_nil, List.length_take]
    unfold MAX_NDEF_MESSAGE_SIZE MAX_NDEF_FILE_SIZE at *
    omega
  · simp

theorem mk3_WF (name : String) (fid d : QByteArray) (h : d.length ≤ MAX_NDEF_FILE_SIZE) :
    (File.mk3 name fid d).WF := by
  simp [File.WF, File.mk3, h]

theorem read_WF {f : File} (h : f.WF) (o l : Nat) : (f.read o l).1.WF := h

theorem confirmRead_WF {f : File} (h : f.WF) : f.confirmRead.WF := by
  unfold File.WF File.confirmRead at *
  refine ⟨?_, h.2.1, ?_⟩
  · show (f.iBytesRead.fill true f.iLastReadStart f.iLastReadEnd).length = f.iData.length
    rw [fill_length]
    exact h.1
  · show (QBitArray.fillPadding f.iBytesRead.length f.iBytesReadPadding true
        f.iLastReadStart f.iLastReadEnd).length = _
    unfold QBitArray.fillPadding
    rw [fillFrom_length]
    exact h.2.2

theorem reset_WF {f : File} (h : f.WF) : f.reset.WF := by
  unfold File.WF File.reset QBitArray.fillAll at *
  simpa using h

theorem construct_iFiles (d : QByteArray) (n l : Nat) (r : Bool) :
    (Private.construct d n l r).1.iFiles =
      [(cc_ef, File.mk3 "CC" cc_ef (ccFileData n)),
       ([0xe1, 0x04], File.mk3 "NDEF" cc_ef (ndefFileData d n))] := by
  unfold Private.construct
  simp only []
  split <;> rfl

theorem construct_fields (d : QByteArray) (n l : Nat) (r : Bool) :
    (Private.construct d n l r).1.iNdefFile = [0xe1, 0x04] ∧
    (Private.construct d n l r).1.iSelectedFile = none ∧
    (Private.construct d n l r).1.lastId = l ∧
    (Private.construct d n l r).1.iLastReadId = 0 ∧
    (Private.construct d n l r).1.iDone = false := by
  unfold Private.construct
  simp only []
  split <;> exact ⟨rfl, rfl, rfl, rfl, rfl⟩

theorem construct_inv (d : QByteArray) (n l : Nat) (r : Bool) (hl : l < UINT_RANGE) :
    (Private.construct d n l r).1.Inv := by
  obtain ⟨h1, h2, h3, _, _⟩ := construct_fields d n l r
  refine ⟨?_, h1, ?_, ?_, ?_⟩
  · rw [construct_iFiles]; rfl
  · intro k hk; rw [h2] at hk; cases hk
  · intro e he
    rw [construct_iFiles] at he
    simp only [List.mem_cons, List.mem_singleton, List.not_mem_nil, or_false] at he
    rcases he with he | he
    · subst he
      exact mk3_WF _ _ _ (by rw [ccFileData_length]; decide)
    · subst he
      exact mk3_WF _ _ _ (ndefFileData_length_le d n)
  · rw [h3]; exact hl

theorem modify_inv {s : Private} (h : s.Inv) (k : QByteArray) (g : File → File)
    (hg : ∀ f : File, f.WF → (g f).WF) :
    ({ s with iFiles := FileMap.modify s.iFiles k g } : Private).Inv := by
  refine ⟨?_, h.ndef, ?_, ?_, h.lastId⟩
  · show (FileMap.modify s.iFiles k g).map Prod.fst = _
    rw [modify_keys]; exact h.keys
  · intro k1 hk1
    show FileMap.contains (FileMap.modify s.iFiles k g) k1 = true
    rw [contains_modify]; exact h.selected k1 hk1
  · intro e he
    obtain ⟨e0, h0, _, h2⟩ := mem_modify s.iFiles k g e he
    rcases h2 with h2 | h2
    · rw [h2]; exact h.files e0 h0
    · rw [h2]; exact hg _ (h.files e0 h0)

theorem select_inv {s : Private} (h : s.Inv) (p1 p2 : Nat) (fid : QByteArray) :
    (s.select p1 p2 fid).1.Inv := by
  unfold Private.select
  split
  · rename_i hc
    refine ⟨h.keys, h.ndef, ?_, h.files, ?_⟩
    · intro k hk
      have : fid = k := by simpa using hk
      rw [← this]; exact hc.2.2
    · exact nextId_lt _
  · exact h

theorem readBinary_inv {s : Private} (h : s.Inv) (p1 p2 le : Nat) :
    (s.readBinary p1 p2 le).1.Inv := by
  unfold Private.readBinary
  split
  · rename_i k _ _
    have h1 := modify_inv h k (fun _ => ((FileMap.value s.iFiles k).read
      (((p1 <<< 8) % UINT_RANGE) ||| p2) le).1) (fun f _ => by
        have hk : (FileMap.value s.iFiles k).WF :=
          h.files (k, FileMap.value s.iFiles k) (value_mem _ (h.selected k (by assumption)))
        exact read_WF hk _ _)
    exact ⟨h1.keys, h1.ndef, h1.selected, h1.files, nextId_lt _⟩
  · exact h

theorem mayBeReset_inv {s : Private} (h : s.Inv) : s.mayBeReset.1.Inv := by
  unfold Private.mayBeReset
  split
  · exact modify_inv h _ _ (fun f hf => reset_WF hf)
  · exact h

theorem mayBeDone_inv {s : Private} (h : s.Inv) : s.mayBeDone.1.Inv := by
  unfold Private.mayBeDone
  split
  · split
    · exact ⟨h.keys, h.ndef, h.selected, h.files, h.lastId⟩
    · exact h
  · exact h

theorem ResponseStatus_inv {s : Private} (h : s.Inv) (id : Nat) (ok : Bool) :
    (s.ResponseStatus id ok).1.Inv := by
  unfold Private.ResponseStatus
  split
  · exact modify_inv h _ _ (fun f hf => confirmRead_WF hf)
  · exact h

theorem Process_inv {s : Private} (h : s.Inv) (cla ins p1 p2 : Nat) (d : QByteArray)
    (le : Nat) : (s.Process cla ins p1 p2 d le).1.Inv := by
  unfold Private.Process
  simp only []
  split
  · split
    · exact select_inv h _ _ _
    · split
      · have h1 := readBinary_inv h p1 p2 le
        exact ⟨h1.keys, h1.ndef, h1.selected, h1.files, h1.lastId⟩
      · exact h
  · exact h

theorem step_inv {s : Private} (h : s.Inv) (e : Event) : (s.step e).1.Inv := by
  cases e with
  | Process cla ins p1 p2 d le => exact Process_inv h _ _ _ _ _ _
  | ResponseStatus id ok => exact ResponseStatus_inv h _ _
  | Start => exact mayBeReset_inv h
  | Restart => exact mayBeReset_inv (mayBeDone_inv h)
  | Stop => exact mayBeReset_inv (mayBeDone_inv h)
  | ImplicitSelect => exact h
  | Select => exact h
  | Deselect => exact h
  | RegisterLocalHostAppFinished valid =>
    simp only [Private.step, Private.onRegisterLocalHostAppFinished]
    split <;> exact ⟨h.keys, h.ndef, h.selected, h.files, h.lastId⟩
  | RequestModeFinished reply =>
    simp only [Private.step, Private.onRequestModeFinished]
    split <;> exact ⟨h.keys, h.ndef, h.selected, h.files, h.lastId⟩
  | RequestTechsFinished reply =>
    simp only [Private.step, Private.onRequestTechsFinished]
    split <;> exact ⟨h.keys, h.ndef, h.selected, h.files, h.lastId⟩

theorem Reachable.inv {s : Private} (h : Reachable s) : s.Inv := by
  induction h with
  | construct d n l r _ _ _ hl => exact construct_inv d n l r hl
  | step s e _ _ ih => exact step_inv ih e

set_option maxRecDepth 4000 in
theorem land_0x80_eq_zero {p : Nat} (h : p < 0x80) : p &&& 0x80 = 0 := by
  revert p
  decide

set_option maxRecDepth 4000 in
theorem land_0x80_ne_zero {p : Nat} (h1 : 0x80 ≤ p) (h2 : p < 256) : p &&& 0x80 ≠ 0 := by
  revert p
  decide

theorem exampleApp_reachable : Reachable exampleApp :=
  Reachable.construct exampleMessage 10 0 true (by unfold IsBytes exampleMessage; decide) rfl
    (by decide) (by decide)

theorem exampleReading_reachable : Reachable exampleReading := by
  have h1 : Reachable (exampleApp.step selectNdef).1 :=
    Reachable.step _ _ exampleApp_reachable (by unfold selectNdef Event.Ok IsBytes; decide)
  exact Reachable.step _ _ h1 (by unfold readBinaryAt Event.Ok IsBytes; decide)

/-! ## SELECT and READ BINARY -/

theorem contains_iff_known {s : Private} (h : s.Inv) (fid : QByteArray) :
    FileMap.contains s.iFiles fid = true ↔ (fid = [0xE1, 0x03] ∨ fid = [0xE1, 0x04]) := by
  rw [contains_iff_mem_keys, h.keys]
  simp [cc_ef]

/-- C2: in every state of the engine and for every byte string `fid`,
`select(p1, p2, fid)` returns status 9000 and makes `selectedFile` the file
keyed `fid` exactly when `p1 = 0x00`, `p2 = 0x0C` and `fid` is `E1 03` or
`E1 04`; in every other case it returns status 6F00 and leaves
`selectedFile` as it was. -/
theorem C2_select_known_file_ids (s : Private) (hs : Reachable s) (p1 p2 : Nat)
    (fid : QByteArray) :
    ((p1 = 0x00 ∧ p2 = 0x0C ∧ (fid = [0xE1, 0x03] ∨ fid = [0xE1, 0x04])) →
      (s.select p1 p2 fid).2.iSw = (0x90, 0x00) ∧
      (s.select p1 p2 fid).1.iSelectedFile = some fid ∧
      (s.select p1 p2 fid).1.selectedFile = some (FileMap.value s.iFiles fid)) ∧
    (¬ (p1 = 0x00 ∧ p2 = 0x0C ∧ (fid = [0xE1, 0x03] ∨ fid = [0xE1, 0x04])) →
      (s.select p1 p2 fid).2.iSw = (0x6F, 0x00) ∧
      (s.select p1 p2 fid).1.iSelectedFile = s.iSelectedFile) ∧
    ((s.select p1 p2 fid).2.iSw = (0x90, 0x00) ↔
      (p1 = 0x00 ∧ p2 = 0x0C ∧ (fid = [0xE1, 0x03] ∨ fid = [0xE1, 0x04]))) := by
  have hk := contains_iff_known hs.inv fid
  have hp2 : (ISO_P2_SELECT_FILE_FIRST ||| ISO_P2_RESPONSE_NONE) = 0x0C := by decide
  by_cases hc : p1 = 0x00 ∧ p2 = 0x0C ∧ (fid = [0xE1, 0x03] ∨ fid = [0xE1, 0x04])
  · have hc1 : p1 = ISO_P1_SELECT_BY_ID ∧
        p2 = (ISO_P2_SELECT_FILE_FIRST ||| ISO_P2_RESPONSE_NONE) ∧
        FileMap.contains s.iFiles fid = true := ⟨hc.1, hp2 ▸ hc.2.1, hk.2 hc.2.2⟩
    have hsel : s.select p1 p2 fid =
        ({ s with iSelectedFile := some fid, lastId := (Response.mk3 s.lastId 0x90 0x00 []).2 },
          (Response.mk3 s.lastId 0x90 0x00 []).1) := by
      unfold Private.select
      rw [if_pos hc1]
    rw [hsel]
    refine ⟨fun _ => ⟨rfl, rfl, rfl⟩, fun hn => absurd hc hn, fun _ => hc, fun _ => rfl⟩
  · have hc1 : ¬ (p1 = ISO_P1_SELECT_BY_ID ∧
        p2 = (ISO_P2_SELECT_FILE_FIRST ||| ISO_P2_RESPONSE_NONE) ∧
        FileMap.contains s.iFiles fid = true) := by
      rintro ⟨h1, h2, h3⟩
      exact hc ⟨h1, hp2 ▸ h2, hk.1 h3⟩
    have hsel : s.select p1 p2 fid = (s, Response.failure) := by
      unfold Private.select
      rw [if_neg hc1]
    rw [hsel]
    refine ⟨fun h => absurd h hc, fun _ => ⟨rfl, rfl⟩, fun h => ?_, fun h => absurd h hc⟩
    simp [Response.failure] at h

theorem C2_select_known_file_ids_witness :
    Reachable exampleApp ∧
    (exampleApp.select 0x00 0x0C [0xE1, 0x04]).2.iSw = (0x90, 0x00) ∧
    (exampleApp.select 0x00 0x0C [0xE1, 0x04]).1.iSelectedFile = some [0xE1, 0x04] ∧
    (exampleApp.select 0x00 0x0C [0xE1, 0x05]).2.iSw = (0x6F, 0x00) :=
  ⟨exampleApp_reachable,
   ((C2_select_known_file_ids exampleApp exampleApp_reachable 0x00 0x0C [0xE1, 0x04]).1
      ⟨rfl, rfl, Or.inr rfl⟩).1,
   ((C2_select_known_file_ids exampleApp exampleApp_reachable 0x00 0x0C [0xE1, 0x04]).1
      ⟨rfl, rfl, Or.inr rfl⟩).2.1,
   ((C2_select_known_file_ids exampleApp exampleApp_reachable 0x00 0x0C [0xE1, 0x05]).2.1
      (by decide)).1⟩

theorem readBinary_ok (s : Private) (k : QByteArray) (hk : s.iSelectedFile = some k)
    (p1 p2 le : Nat) (hp1 : p1 < 0x80) :
    s.readBinary p1 p2 le =
      ({ s with
          iFiles := FileMap.modify s.iFiles k (fun _ =>
            ((FileMap.value s.iFiles k).read (((p1 <<< 8) % UINT_RANGE) ||| p2) le).1),
          lastId := Response.nextId s.lastId },
        { iSw := (0x90, 0x00),
          iData := ((FileMap.value s.iFiles k).read (((p1 <<< 8) % UINT_RANGE) ||| p2) le).2,
          iResponseId := Response.nextId s.lastId }) := by
  unfold Private.readBinary
  have h1 : decide (p1 &&& 0x80 = 0) = true := by simp [land_0x80_eq_zero hp1]
  rw [h1, hk]
  rfl

theorem readBinary_failure (s : Private) (p1 p2 le : Nat) (hp1 : p1 < 256)
    (h : s.iSelectedFile = none ∨ 0x80 ≤ p1) :
    s.readBinary p1 p2 le = (s, Response.failure) := by
  unfold Private.readBinary
  rcases h with h | h
  · rw [h]
    rcases hd : decide (p1 &&& 0x80 = 0) <;> rfl
  · have h1 : decide (p1 &&& 0x80 = 0) = false := by
      simp [land_0x80_ne_zero h hp1]
    rw [h1]

theorem read_payload (f : File) (hf : f.WF) (o l : Nat) (hl : l < UINT_RANGE) :
    (f.read o l).2 =
      (f.iData.take (if l = 0 then f.size else min (min o f.size + l) f.size)).drop
        (min o f.size) := by
  have hlen : f.iData.length < 2 ^ 31 := by
    have := hf.2; unfold MAX_NDEF_FILE_SIZE at this; omega
  have hsz : f.size = f.iData.length := by
    unfold File.size UINT_RANGE; omega
  have hmod : f.iData.length % UINT_RANGE = f.iData.length := by
    unfold UINT_RANGE; omega
  unfold File.read
  simp only [hmod, hsz]
  have hcomm : min o f.iData.length = min f.iData.length o := Nat.min_comm _ _
  rw [hcomm]
  have hoff : min f.iData.length o ≤ f.iData.length := Nat.min_le_left _ _
  generalize min f.iData.length o = off at hoff ⊢
  rw [List.drop_take]
  by_cases h0 : l = 0
  · have hl0 : (f.iData.length + UINT_RANGE - off) % UINT_RANGE = f.iData.length - off := by
      unfold UINT_RANGE; omega
    simp only [h0, ne_eq, not_true_eq_false, if_false, if_true, hl0]
    rw [mid_eq _ _ _ hoff hlen (by unfold UINT_RANGE; omega)]
  · simp only [h0, ne_eq, not_false_eq_true, if_true, if_false]
    rw [mid_eq _ _ _ hoff hlen hl]
    by_cases hle : off + l ≤ f.iData.length
    · rw [Nat.min_eq_left hle]
      congr 1
      omega
    · rw [Nat.min_eq_right (by omega)]
      have hd : (List.drop off f.iData).length = f.iData.length - off := List.length_drop _ _
      rw [List.take_of_length_le (by omega), List.take_of_length_le (by omega)]

theorem Process_readBinary (s : Private) (p1 p2 : Nat) (d : QByteArray) (le : Nat) :
    s.Process 0x00 0xB0 p1 p2 d le =
      ({ (s.readBinary p1 p2 le).1 with iLastReadId := (s.readBinary p1 p2 le).2.id },
       { response := some (s.readBinary p1 p2 le).2, signals := [], calls := [] }) := by
  unfold Private.Process
  have h1 : (0x00 : Nat) = ISO_CLA := rfl
  have h2 : ¬ ((0xB0 : Nat) = ISO_INS_SELECT) := by decide
  have h3 : (0xB0 : Nat) = ISO_INS_READ_BINARY := rfl
  simp only [if_pos h1, if_neg h2, if_pos h3]

/-- C3: in every state of the engine with a selected file of size `n`, for
every `p1 < 0x80`, every `p2` and every expected length `Le`, READ BINARY
answers with status 9000 and, as payload, the bytes of the selected file
from `off = min((p1 << 8) | p2, n)` up to `min(off + Le, n)` (up to `n` when
`Le = 0`); the id of the response is not zero and is newly drawn from the id
counter (it is the successor value of the counter and differs from the id
drawn last), and `lastReadResponseId` is that id afterwards. -/
theorem C3_read_binary_success (s : Private) (hs : Reachable s) (k : QByteArray)
    (hk : s.iSelectedFile = some k) (p1 p2 le : Nat) (d : QByteArray)
    (hp1 : p1 < 0x80) (hle : le < UINT_RANGE) :
    ∃ resp : Response,
      (s.Process 0x00 0xB0 p1 p2 d le).2.response = some resp ∧
      resp.iSw = (0x90, 0x00) ∧
      resp.iData =
        ((FileMap.value s.iFiles k).iData.take
          (if le = 0 then (FileMap.value s.iFiles k).size
           else min (min ((p1 <<< 8) ||| p2) (FileMap.value s.iFiles k).size + le)
             (FileMap.value s.iFiles k).size)).drop
          (min ((p1 <<< 8) ||| p2) (FileMap.value s.iFiles k).size) ∧
      resp.iResponseId ≠ 0 ∧
      resp.iResponseId = Response.nextId s.lastId ∧
      resp.iResponseId ≠ s.lastId ∧
      (s.Process 0x00 0xB0 p1 p2 d le).1.lastId = resp.iResponseId ∧
      (s.Process 0x00 0xB0 p1 p2 d le).1.iLastReadId = resp.iResponseId := by
  have hinv := hs.inv
  have hwf : (FileMap.value s.iFiles k).WF :=
    hinv.files (k, FileMap.value s.iFiles k) (value_mem _ (hinv.selected k hk))
  have hshift : (p1 <<< 8) % UINT_RANGE = p1 <<< 8 := by
    rw [Nat.shiftLeft_eq]
    unfold UINT_RANGE
    omega
  rw [Process_readBinary, readBinary_ok s k hk p1 p2 le hp1, hshift]
  refine ⟨_, rfl, rfl, ?_, nextId_ne_zero _, rfl, nextId_ne_self hinv.lastId, rfl, rfl⟩
  exact read_payload _ hwf _ _ hle

theorem C3_read_binary_success_witness :
    Reachable exampleReading ∧ exampleReading.iSelectedFile = some [0xE1, 0x04] ∧
    ∃ resp : Response,
      (exampleReading.Process 0x00 0xB0 0 2 [] 4).2.response = some resp ∧
      resp.iSw = (0x90, 0x00) ∧
      resp.iData =
        ((FileMap.value exampleReading.iFiles [0xE1, 0x04]).iData.take
          (if 4 = 0 then (FileMap.value exampleReading.iFiles [0xE1, 0x04]).size
           else min (min ((0 <<< 8) ||| 2)
               (FileMap.value exampleReading.iFiles [0xE1, 0x04]).size + 4)
             (FileMap.value exampleReading.iFiles [0xE1, 0x04]).size)).drop
          (min ((0 <<< 8) ||| 2) (FileMap.value exampleReading.iFiles [0xE1, 0x04]).size) ∧
      resp.iResponseId ≠ 0 ∧
      resp.iResponseId = Response.nextId exampleReading.lastId ∧
      resp.iResponseId ≠ exampleReading.lastId ∧
      (exampleReading.Process 0x00 0xB0 0 2 [] 4).1.lastId = resp.iResponseId ∧
      (exampleReading.Process 0x00 0xB0 0 2 [] 4).1.iLastReadId = resp.iResponseId :=
  ⟨exampleReading_reachable, by decide,
   C3_read_binary_success exampleReading exampleReading_reachable [0xE1, 0x04] (by decide)
     0 2 4 [] (by decide) (by decide)⟩

/-- C4: in every state, if no file is selected or bit 8 of `p1` is set
(`p1 ≥ 0x80`), `readBinary` returns the default failure response (status
6F00, no payload) and changes nothing: the confirmed flags and the pending
range of every file are as before, also after the dispatch through
`Process`. -/
theorem C4_read_binary_failure (s : Private) (p1 p2 le : Nat) (hp1 : p1 < 256)
    (h : s.iSelectedFile = none ∨ 0x80 ≤ p1) :
    (s.readBinary p1 p2 le).2 = Response.failure ∧
    (s.readBinary p1 p2 le).2.iSw = (0x6F, 0x00) ∧
    (s.readBinary p1 p2 le).2.iData = [] ∧
    (s.readBinary p1 p2 le).1 = s ∧
    (∀ k : QByteArray,
      (FileMap.value (s.readBinary p1 p2 le).1.iFiles k).iBytesRead
        = (FileMap.value s.iFiles k).iBytesRead ∧
      (FileMap.value (s.readBinary p1 p2 le).1.iFiles k).iLastReadStart
        = (FileMap.value s.iFiles k).iLastReadStart ∧
      (FileMap.value (s.readBinary p1 p2 le).1.iFiles k).iLastReadEnd
        = (FileMap.value s.iFiles k).iLastReadEnd) ∧
    (∀ d : QByteArray, (s.Process 0x00 0xB0 p1 p2 d le).1.iFiles = s.iFiles) := by
  have hr := readBinary_failure s p1 p2 le hp1 h
  refine ⟨by rw [hr], by rw [hr]; rfl, by rw [hr]; rfl, by rw [hr], ?_, ?_⟩
  · intro k
    rw [hr]
    exact ⟨rfl, rfl, rfl⟩
  · intro d
    rw [Process_readBinary, hr]

theorem C4_read_binary_failure_witness :
    (0x80 : Nat) < 256 ∧ (exampleReading.iSelectedFile = none ∨ 0x80 ≤ 0x80) ∧
    (exampleReading.readBinary 0x80 0 2).2 = Response.failure ∧
    (exampleReading.readBinary 0x80 0 2).1 = exampleReading :=
  ⟨by decide, Or.inr (Nat.le_refl _),
   (C4_read_binary_failure exampleReading 0x80 0 2 (by decide) (Or.inr (Nat.le_refl _))).1,
   (C4_read_binary_failure exampleReading 0x80 0 2 (by decide)
     (Or.inr (Nat.le_refl _))).2.2.2.1⟩

/-- C5: for every command with `cla ≠ 0x00`, or with `ins` neither 0xA4 nor
0xB0, `Process` answers with the default failure response (status 6F00, no
payload, id 0) and leaves the whole engine state as it was. -/
theorem C5_process_unsupported_command (s : Private) (cla ins p1 p2 : Nat) (d : QByteArray)
    (le : Nat) (h : cla ≠ 0x00 ∨ (ins ≠ 0xA4 ∧ ins ≠ 0xB0)) :
    (s.Process cla ins p1 p2 d le).2.response = some Response.failure ∧
    Response.failure.iSw = (0x6F, 0x00) ∧ Response.failure.iData = [] ∧
    (s.Process cla ins p1 p2 d le).2.signals = [] ∧
    (s.Process cla ins p1 p2 d le).1 = s := by
  have hP : s.Process cla ins p1 p2 d le =
      (s, { response := some Response.failure, signals := [], calls := [] }) := by
    unfold Private.Process
    rcases h with h | h
    · have h1 : ¬ (cla = ISO_CLA) := h
      simp only [if_neg h1]
    · have h2 : ¬ (ins = ISO_INS_SELECT) := h.1
      have h3 : ¬ (ins = ISO_INS_READ_BINARY) := h.2
      simp only [if_neg h2, if_neg h3, ite_self]
  rw [hP]
  exact ⟨rfl, rfl, rfl, rfl, rfl⟩

theorem C5_process_unsupported_command_witness :
    ((0x00 : Nat) ≠ 0x00 ∨ ((0xD6 : Nat) ≠ 0xA4 ∧ (0xD6 : Nat) ≠ 0xB0)) ∧
    (exampleReading.Process 0x00 0xD6 0 0 [1, 2] 0).2.response = some Response.failure ∧
    (exampleReading.Process 0x00 0xD6 0 0 [1, 2] 0).1 = exampleReading :=
  ⟨Or.inr (by decide),
   (C5_process_unsupported_command exampleReading 0x00 0xD6 0 0 [1, 2] 0
     (Or.inr (by decide))).1,
   (C5_process_unsupported_command exampleReading 0x00 0xD6 0 0 [1, 2] 0
     (Or.inr (by decide))).2.2.2.2⟩

/-! ## Delivery acknowledgements -/

theorem ResponseStatus_confirm (s : Private) (k : QByteArray) (hk : s.iSelectedFile = some k) :
    s.ResponseStatus s.iLastReadId true =
      ({ s with iFiles := FileMap.modify s.iFiles k File.confirmRead },
       Output.ofSignals
        (if ({ s with iFiles := FileMap.modify s.iFiles k File.confirmRead } : Private).ndefFile.bytesRead
            > s.ndefFile.bytesRead then [Signal.bytesTransferredChanged] else [])) := by
  unfold Private.ResponseStatus
  have h1 : (true && decide (s.iLastReadId = s.iLastReadId)) = true := by simp
  rw [h1, hk]

theorem ResponseStatus_ignore (s : Private) (id : Nat) (ok : Bool)
    (h : ok = false ∨ id ≠ s.iLastReadId) :
    s.ResponseStatus id ok = (s, Output.none) := by
  unfold Private.ResponseStatus
  have h1 : (ok && decide (s.iLastReadId = id)) = false := by
    rcases h with h | h
    · simp [h]
    · have : ¬ (s.iLastReadId = id) := fun hh => h hh.symm
      simp [this]
  rw [h1]

/-- C6: in every state of the engine with a selected file, for every id equal
to `lastReadResponseId`, `ResponseStatus(id, true)` performs `confirmRead()`
on the selected file (every flag of its pending range is set, the others
keep their value, and the pending range is cleared), changes no other file,
and emits `bytesTransferredChanged`, and nothing else, if and only if the
confirmed-byte count of the NDEF file is strictly larger afterwards. -/
theorem C6_response_status_confirms (s : Private) (hs : Reachable s) (k : QByteArray)
    (hk : s.iSelectedFile = some k) (id : Nat) (hid : id = s.iLastReadId) :
    FileMap.value (s.ResponseStatus id true).1.iFiles k
      = (FileMap.value s.iFiles k).confirmRead ∧
    (∀ i : Nat,
      (FileMap.value (s.ResponseStatus id true).1.iFiles k).iBytesRead[i]? =
        ((FileMap.value s.iFiles k).iBytesRead[i]?).map (fun b =>
          b || decide ((FileMap.value s.iFiles k).iLastReadStart ≤ (i : Int) ∧
                       (i : Int) < (FileMap.value s.iFiles k).iLastReadEnd))) ∧
    (FileMap.value (s.ResponseStatus id true).1.iFiles k).iLastReadStart = 0 ∧
    (FileMap.value (s.ResponseStatus id true).1.iFiles k).iLastReadEnd = 0 ∧
    (∀ k1 : QByteArray, k1 ≠ k →
      FileMap.value (s.ResponseStatus id true).1.iFiles k1 = FileMap.value s.iFiles k1) ∧
    (Signal.bytesTransferredChanged ∈ (s.ResponseStatus id true).2.signals ↔
      (s.ResponseStatus id true).1.ndefFile.bytesRead > s.ndefFile.bytesRead) ∧
    (∀ sig ∈ (s.ResponseStatus id true).2.signals, sig = Signal.bytesTransferredChanged) := by
  subst hid
  have hc := hs.inv.selected k hk
  rw [ResponseStatus_confirm s k hk]
  have hv : FileMap.value (FileMap.modify s.iFiles k File.confirmRead) k
      = (FileMap.value s.iFiles k).confirmRead := value_modify_self _ _ hc
  refine ⟨hv, ?_, ?_, ?_, ?_, ?_, ?_⟩
  · intro i
    show (FileMap.value (FileMap.modify s.iFiles k File.confirmRead) k).iBytesRead[i]? = _
    rw [hv]
    show ((FileMap.value s.iFiles k).iBytesRead.fill true _ _)[i]? = _
    rw [fill_getElem?]
    cases (FileMap.value s.iFiles k).iBytesRead[i]? with
    | none => rfl
    | some b =>
      simp only [Option.map_some']
      by_cases hr : (FileMap.value s.iFiles k).iLastReadStart ≤ (i : Int) ∧
          (i : Int) < (FileMap.value s.iFiles k).iLastReadEnd
      · simp [hr]
      · simp [hr]
  · show (FileMap.value (FileMap.modify s.iFiles k File.confirmRead) k).iLastReadStart = 0
    rw [hv]; rfl
  · show (FileMap.value (FileMap.modify s.iFiles k File.confirmRead) k).iLastReadEnd = 0
    rw [hv]; rfl
  · intro k1 hk1
    exact value_modify_of_ne _ _ hk1
  · simp only [Output.ofSignals, Private.ndefFile]
    split
    · rename_i hgt
      simp only [List.mem_singleton, true_iff]
      exact hgt
    · rename_i hgt
      simp only [List.not_mem_nil, false_iff]
      exact hgt
  · intro sig hsig
    simp only [Output.ofSignals] at hsig
    split at hsig <;> simp at hsig
    exact hsig

theorem C6_response_status_confirms_witness :
    Reachable exampleReading ∧ exampleReading.iSelectedFile = some [0xE1, 0x04] ∧
    (2 : Nat) = exampleReading.iLastReadId ∧
    FileMap.value (exampleReading.ResponseStatus 2 true).1.iFiles [0xE1, 0x04]
      = (FileMap.value exampleReading.iFiles [0xE1, 0x04]).confirmRead ∧
    (Signal.bytesTransferredChanged ∈ (exampleReading.ResponseStatus 2 true).2.signals ↔
      (exampleReading.ResponseStatus 2 true).1.ndefFile.bytesRead
        > exampleReading.ndefFile.bytesRead) :=
  ⟨exampleReading_reachable, by decide, by decide,
   (C6_response_status_confirms exampleReading exampleReading_reachable [0xE1, 0x04]
     (by decide) 2 (by decide)).1,
   (C6_response_status_confirms exampleReading exampleReading_reachable [0xE1, 0x04]
     (by decide) 2 (by decide)).2.2.2.2.2.1⟩

/-- C7: in every state and for every id, `ResponseStatus(id, ok)` with
`ok = false`, or with an id other than `lastReadResponseId`, leaves the whole
engine state as it was (no byte is confirmed, no pending range is cleared)
and emits no signal. -/
theorem C7_response_status_ignored (s : Private) (id : Nat) (ok : Bool)
    (h : ok = false ∨ id ≠ s.iLastReadId) :
    (s.ResponseStatus id ok).1 = s ∧
    (s.ResponseStatus id ok).2.signals = [] ∧
    (s.ResponseStatus id ok).2 = Output.none := by
  rw [ResponseStatus_ignore s id ok h]
  exact ⟨rfl, rfl, rfl⟩

theorem C7_response_status_ignored_witness :
    ((true = false ∨ (7 : Nat) ≠ exampleReading.iLastReadId) ∧
      (exampleReading.ResponseStatus 7 true).1 = exampleReading) ∧
    ((false = false ∨ (2 : Nat) ≠ exampleReading.iLastReadId) ∧
      (exampleReading.ResponseStatus 2 false).1 = exampleReading) :=
  ⟨⟨Or.inr (by decide),
    (C7_response_status_ignored exampleReading 7 true (Or.inr (by decide))).1⟩,
   ⟨Or.inl rfl,
    (C7_response_status_ignored exampleReading 2 false (Or.inl rfl)).1⟩⟩

/-! ## The confirmed flags of a file -/

theorem fill_true_eq (bits : QBitArray) (b e : Nat) (hbe : b ≤ e) (he : e ≤ bits.length) :
    bits.fill true (b : Int) (e : Int) =
      bits.take b ++ (List.replicate (e - b) true ++ bits.drop e) := by
  apply List.ext_getElem?
  intro j
  rw [fill_getElem?]
  by_cases h1 : j < b
  · rw [List.getElem?_append_left (by rw [List.length_take]; omega),
      List.getElem?_take_of_lt h1]
    have : ¬ ((b : Int) ≤ (j : Int) ∧ (j : Int) < (e : Int)) := by omega
    simp only [this, if_false]
    cases bits[j]? <;> rfl
  · have hlt : (bits.take b).length = b := by rw [List.length_take]; omega
    rw [List.getElem?_append_right (by omega), hlt]
    by_cases h2 : j < e
    · rw [List.getElem?_append_left (by rw [List.length_replicate]; omega),
        List.getElem?_replicate_of_lt (by omega)]
      have hj : j < bits.length := by omega
      have : ((b : Int) ≤ (j : Int) ∧ (j : Int) < (e : Int)) := by omega
      simp only [this, and_self, if_true]
      rw [List.getElem?_eq_getElem hj]
      rfl
    · rw [List.getElem?_append_right (by rw [List.length_replicate]; omega),
        List.length_replicate, List.getElem?_drop]
      have : ¬ ((b : Int) ≤ (j : Int) ∧ (j : Int) < (e : Int)) := by omega
      simp only [this, if_false]
      have hidx : e + (j - b - (e - b)) = j := by omega
      rw [hidx]
      cases bits[j]? <;> rfl

theorem count_fill_true (bits : QBitArray) (b e : Nat) (hbe : b ≤ e) (he : e ≤ bits.length) :
    (bits.fill true (b : Int) (e : Int)).count true =
      bits.count true + ((bits.drop b).take (e - b)).count false := by
  rw [fill_true_eq bits b e hbe he]
  have hsplit : bits = bits.take b ++ ((bits.drop b).take (e - b) ++ bits.drop e) := by
    have h1 : (bits.drop b).drop (e - b) = bits.drop e := by
      rw [List.drop_drop]
      congr 1
      omega
    rw [← h1, List.take_append_drop, List.take_append_drop]
  have hlen : ((bits.drop b).take (e - b)).length = e - b := by
    rw [List.length_take, List.length_drop]
    omega
  have hcnt := List.count_true_add_count_false ((bits.drop b).take (e - b))
  rw [hlen] at hcnt
  have hc : bits.count true =
      (bits.take b).count true + (((bits.drop b).take (e - b)).count true
        + (bits.drop e).count true) := by
    conv_lhs => rw [hsplit]
    simp only [List.count_append]
  rw [hc]
  simp only [List.count_append, List.count_replicate_self]
  omega

/-- C8 (code bug): the pending range leaves the file. `File::read` clamps
the offset to the size of the file but not the length: on the 15-byte
Capability Container, `read(0, 16)` (READ BINARY with `Le = 16` after SELECT
`E1 03`) leaves the pending range `[0, 16)`, whose end is past the 15 flags
of the file, and `read(1, 0xFFFFFFFF)` leaves start 1 and end 0. -/
theorem C8_pending_range_not_within_file :
    (FileMap.value exampleApp.iFiles cc_ef).size = 15 ∧
    (FileMap.value exampleApp.iFiles cc_ef).iBytesRead.length = 15 ∧
    ((FileMap.value exampleApp.iFiles cc_ef).read 0 16).1.iLastReadStart = 0 ∧
    ((FileMap.value exampleApp.iFiles cc_ef).read 0 16).1.iLastReadEnd = 16 ∧
    (FileMap.value (exampleApp.run [selectCc, readBinaryAt 0 0 16]).iFiles cc_ef).iLastReadEnd
      = 16 ∧
    ¬ (((FileMap.value exampleApp.iFiles cc_ef).read 0 16).1.iLastReadEnd
        ≤ (((FileMap.value exampleApp.iFiles cc_ef).read 0 16).1.size : Int)) ∧
    ((FileMap.value exampleApp.iFiles cc_ef).read 1 0xFFFFFFFF).1.iLastReadStart = 1 ∧
    ((FileMap.value exampleApp.iFiles cc_ef).read 1 0xFFFFFFFF).1.iLastReadEnd = 0 := by
  decide

/-- C9, the claim as stated fails: on the fresh 12-byte NDEF file,
`read(0, 0)` followed by `confirmRead()` raises `bytesRead()` by 12, not by
`l = 0`; and once bytes 0 and 1 are confirmed, `read(0, 2)` followed by
`confirmRead()` raises `bytesRead()` by 0, not by `l = 2`. -/
theorem C9_read_confirm_not_exactly_l :
    ¬ ((exampleApp.ndefFile.read 0 0).1.confirmRead.bytesRead
        = exampleApp.ndefFile.bytesRead + 0) ∧
    ¬ (((exampleApp.ndefFile.read 0 2).1.confirmRead.read 0 2).1.confirmRead.bytesRead
        = (exampleApp.ndefFile.read 0 2).1.confirmRead.bytesRead + 2) := by
  decide

/-- C9, amended: for every file with one confirmed flag per byte, every
offset `o` and every length `l`, with `off = min(o, size)` and `len = l`, or
`len = size - off` when `l = 0`: if `off + len ≤ size`, then after
`read(o, l)` immediately followed by `confirmRead()`, `bytesRead()` is larger
than before the read by exactly the number of bytes of `[off, off + len)`
that were not confirmed before; that number is at most `len`, and it is
`len` when none of these bytes was confirmed before. -/
theorem C9_read_confirm_counts_unconfirmed (f : File)
    (hbits : f.iBytesRead.length = f.iData.length) (hsize : f.iData.length < 2 ^ 31)
    (o l : Nat)
    (hfit : min o f.size + (if l = 0 then f.size - min o f.size else l) ≤ f.size) :
    (f.read o l).1.confirmRead.bytesRead =
      f.bytesRead + ((f.iBytesRead.drop (min o f.size)).take
        (if l = 0 then f.size - min o f.size else l)).count false ∧
    ((f.iBytesRead.drop (min o f.size)).take
        (if l = 0 then f.size - min o f.size else l)).count false
      ≤ (if l = 0 then f.size - min o f.size else l) ∧
    ((∀ b ∈ (f.iBytesRead.drop (min o f.size)).take
        (if l = 0 then f.size - min o f.size else l), b = false) →
      (f.read o l).1.confirmRead.bytesRead =
        f.bytesRead + (if l = 0 then f.size - min o f.size else l)) := by
  have hsz : f.size = f.iData.length := by
    unfold File.size UINT_RANGE; omega
  have hmod : f.iData.length % UINT_RANGE = f.iData.length := by
    unfold UINT_RANGE; omega
  rw [hsz] at hfit ⊢
  have hcomm : min o f.iData.length = min f.iData.length o := Nat.min_comm _ _
  rw [hcomm] at hfit ⊢
  have hoff : min f.iData.length o ≤ f.iData.length := Nat.min_le_left _ _
  have hmain : (f.read o l).1.confirmRead.iBytesRead =
      f.iBytesRead.fill true ((min f.iData.length o : Nat) : Int)
        ((min f.iData.length o + (if l = 0 then f.iData.length - min f.iData.length o else l)
          : Nat) : Int) := by
    unfold File.read File.confirmRead
    simp only [hmod]
    generalize min f.iData.length o = off at hoff hfit ⊢
    have h1 : toInt off = (off : Int) := toInt_of_lt (by omega)
    have h2 : toUInt (off : Int) = off := toUInt_ofNat (by unfold UINT_RANGE; omega)
    rw [h1, h2]
    by_cases h0 : l = 0
    · simp only [h0, if_true, ne_eq, not_true_eq_false, if_false] at hfit ⊢
      have h3 : (f.iData.length + UINT_RANGE - off) % UINT_RANGE = f.iData.length - off := by
        unfold UINT_RANGE; omega
      rw [h3]
      have h4 : (off + (f.iData.length - off)) % UINT_RANGE = off + (f.iData.length - off) := by
        unfold UINT_RANGE; omega
      rw [h4, toInt_of_lt (by omega)]
    · simp only [h0, if_false, ne_eq, not_false_eq_true, if_true] at hfit ⊢
      have h4 : (off + l) % UINT_RANGE = off + l := by
        unfold UINT_RANGE; omega
      rw [h4, toInt_of_lt (by omega)]
  have hcount := count_fill_true f.iBytesRead (min f.iData.length o)
    (min f.iData.length o + (if l = 0 then f.iData.length - min f.iData.length o else l))
    (Nat.le_add_right _ _) (by rw [hbits]; exact hfit)
  rw [Nat.add_sub_cancel_left] at hcount
  have hlen2 : (f.read o l).1.confirmRead.iBytesRead.length = f.iBytesRead.length := by
    rw [hmain, fill_length]
  have hpad : (f.read o l).1.confirmRead.iBytesReadPadding = f.iBytesReadPadding := by
    apply confirmRead_padding_of_end_le
    have hend : (f.read o l).1.iLastReadEnd =
        ((min f.iData.length o + (if l = 0 then f.iData.length - min f.iData.length o else l)
          : Nat) : Int) := by
      unfold File.read
      simp only [hmod]
      generalize min f.iData.length o = off at hoff hfit ⊢
      have h1 : toInt off = (off : Int) := toInt_of_lt (by omega)
      have h2 : toUInt (off : Int) = off := toUInt_ofNat (by unfold UINT_RANGE; omega)
      rw [h1, h2]
      by_cases h0 : l = 0
      · simp only [h0, if_true, ne_eq, not_true_eq_false, if_false] at hfit ⊢
        have h3 : (f.iData.length + UINT_RANGE - off) % UINT_RANGE = f.iData.length - off := by
          unfold UINT_RANGE; omega
        rw [h3]
        have h4 : (off + (f.iData.length - off)) % UINT_RANGE = off + (f.iData.length - off) := by
          unfold UINT_RANGE; omega
        rw [h4, toInt_of_lt (by omega)]
      · simp only [h0, if_false, ne_eq, not_false_eq_true, if_true] at hfit ⊢
        have h4 : (off + l) % UINT_RANGE = off + l := by
          unfold UINT_RANGE; omega
        rw [h4, toInt_of_lt (by omega)]
    rw [hend]
    have hbl : (f.read o l).1.iBytesRead.length = f.iData.length := hbits
    rw [hbl]
    exact_mod_cast hfit
  have hle1 := countStorage_le f.iBytesRead f.iBytesReadPadding
  have hle2 := countStorage_le (f.read o l).1.confirmRead.iBytesRead
    (f.read o l).1.confirmRead.iBytesReadPadding
  rw [hlen2] at hle2
  have hb1 : f.bytesRead = f.iBytesRead.count true +
      (f.iBytesReadPadding.take (QBitArray.padding f.iBytesRead.length)).count true := by
    unfold File.bytesRead
    unfold QBitArray.countStorage at hle1 ⊢
    unfold UINT_RANGE; omega
  have hb2 : (f.read o l).1.confirmRead.bytesRead
      = (f.read o l).1.confirmRead.iBytesRead.count true +
        (f.iBytesReadPadding.take (QBitArray.padding f.iBytesRead.length)).count true := by
    unfold File.bytesRead
    unfold QBitArray.countStorage at hle2 ⊢
    rw [hpad, hlen2] at hle2 ⊢
    unfold UINT_RANGE; omega
  have hcl : ((f.iBytesRead.drop (min f.iData.length o)).take
      (if l = 0 then f.iData.length - min f.iData.length o else l)).count false
      ≤ (if l = 0 then f.iData.length - min f.iData.length o else l) :=
    (List.count_le_length _ _).trans (by rw [List.length_take]; exact Nat.min_le_left _ _)
  have hA : (f.read o l).1.confirmRead.bytesRead =
      f.bytesRead + ((f.iBytesRead.drop (min f.iData.length o)).take
        (if l = 0 then f.iData.length - min f.iData.length o else l)).count false := by
    rw [hb2, hb1, hmain, hcount]
    omega
  refine ⟨hA, hcl, ?_⟩
  intro hall
  rw [hA]
  congr 1
  have hlen : ((f.iBytesRead.drop (min f.iData.length o)).take
      (if l = 0 then f.iData.length - min f.iData.length o else l)).length
      = (if l = 0 then f.iData.length - min f.iData.length o else l) := by
    rw [List.length_take, List.length_drop, hbits]
    omega
  rw [List.count_eq_length.2 (fun b hb => (hall b hb).symm), hlen]

theorem C9_read_confirm_counts_unconfirmed_witness :
    exampleApp.ndefFile.iBytesRead.length = exampleApp.ndefFile.iData.length ∧
    exampleApp.ndefFile.iData.length < 2 ^ 31 ∧
    min 2 exampleApp.ndefFile.size
      + (if 4 = 0 then exampleApp.ndefFile.size - min 2 exampleApp.ndefFile.size else 4)
      ≤ exampleApp.ndefFile.size ∧
    (exampleApp.ndefFile.read 2 4).1.confirmRead.bytesRead
      = exampleApp.ndefFile.bytesRead + 4 :=
  ⟨by decide, by decide, by decide,
   (C9_read_confirm_counts_unconfirmed exampleApp.ndefFile (by decide) (by decide) 2 4
     (by decide)).2.2 (by decide)⟩

/-- C10: `confirmRead()` is idempotent: on every file, calling it twice in a
row gives the same file as calling it once; and on a file whose pending
range is empty it changes nothing: name, id, data and every confirmed flag
are as before and the pending range is empty as before (its two bounds are
set to 0, so that a file whose bounds are 0 stays the same in every
field). -/
theorem C10_confirm_read_idempotent (f : File) :
    f.confirmRead.confirmRead = f.confirmRead ∧
    (f.iLastReadEnd ≤ f.iLastReadStart →
      f.confirmRead.iName = f.iName ∧ f.confirmRead.iFid = f.iFid ∧
      f.confirmRead.iData = f.iData ∧ f.confirmRead.iBytesRead = f.iBytesRead ∧
      f.confirmRead.bytesRead = f.bytesRead ∧
      f.confirmRead.iLastReadEnd ≤ f.confirmRead.iLastReadStart ∧
      ∀ i : Int,
        (f.confirmRead.iLastReadStart ≤ i ∧ i < f.confirmRead.iLastReadEnd) ↔
          (f.iLastReadStart ≤ i ∧ i < f.iLastReadEnd)) ∧
    (f.iLastReadStart = 0 ∧ f.iLastReadEnd = 0 → f.confirmRead = f) := by
  refine ⟨?_, ?_, ?_⟩
  · unfold File.confirmRead QBitArray.fillPadding
    simp only [fill_of_le _ _ (Int.le_refl 0), fillFrom_of_le _ (Int.le_refl 0)]
  · intro h
    have hb : f.confirmRead.iBytesRead = f.iBytesRead := fill_of_le _ _ h
    refine ⟨rfl, rfl, rfl, hb, ?_, Int.le_refl 0, ?_⟩
    · unfold File.bytesRead
      rw [hb, confirmRead_padding_of_le f h]
    · intro i
      show ((0 : Int) ≤ i ∧ i < 0) ↔ _
      constructor
      · intro hi; omega
      · intro hi; omega
  · rintro ⟨h1, h2⟩
    cases f with
    | mk n fid d bits st en =>
      simp only at h1 h2
      subst h1 h2
      unfold File.confirmRead QBitArray.fillPadding
      simp only [fill_of_le _ _ (Int.le_refl 0), fillFrom_of_le _ (Int.le_refl 0)]

/-! ## The delivery guarantee on a run -/

theorem Reachable.run {s : Private} (h : Reachable s) (es : List Event) (hok : s.runOk es) :
    Reachable (s.run es) := by
  induction es generalizing s with
  | nil => exact h
  | cons e es ih => exact ih (Reachable.step s e h hok.1) hok.2

theorem staleConfirmRun_unacknowledged :
    ∀ j1 < 7, ∀ j2 < 7,
      ((exampleApp.history staleConfirmRun)[j1]?).all (fun r =>
        !(decide (j1 < j2) && r.carried [0xE1, 0x04] 0 &&
          decide (staleConfirmRun[j2]? = some (Event.ResponseStatus r.responseId true)))) = true := by
  decide

theorem failureIdRun_unacknowledged :
    ∀ j1 < 4, ∀ j2 < 4,
      ((exampleApp.history failureIdRun)[j1]?).all (fun r =>
        !(decide (j1 < j2) && r.carried [0xE1, 0x04] 0 &&
          decide (failureIdRun[j2]? = some (Event.ResponseStatus r.responseId true)))) = true := by
  decide

/-- C1 (code bug): the delivery guarantee fails on a run of seven events from
a freshly constructed engine. The replies have the ids 1, 2, 3, 4, 5; bytes
0 and 1 of the NDEF file were carried by the reply with id 2 only, which is
acknowledged with `ok = false` only; the acknowledgement
`ResponseStatus(4, true)` of the read of the Capability Container marks them
confirmed, because it meets the NDEF file selected with the pending range of
its earlier read. It fails as well on a run of four events in which the
acknowledgement of the id 0 of a failure response confirms these bytes. -/
theorem C1_delivery_guarantee_fails :
    Reachable (exampleApp.run staleConfirmRun) ∧
    (exampleApp.history staleConfirmRun).map (fun r => r.output.response.map Response.id)
      = [some 1, some 2, none, some 3, some 4, some 5, none] ∧
    (FileMap.value (exampleApp.run staleConfirmRun).iFiles [0xE1, 0x04]).iBytesRead.take 2
      = [true, true] ∧
    ¬ DeliveryGuarantee exampleApp staleConfirmRun ∧
    Reachable (exampleApp.run failureIdRun) ∧
    (exampleApp.history failureIdRun).map (fun r => r.output.response.map Response.id)
      = [some 1, some 2, some 0, none] ∧
    (FileMap.value (exampleApp.run failureIdRun).iFiles [0xE1, 0x04]).iBytesRead.take 2
      = [true, true] ∧
    ¬ DeliveryGuarantee exampleApp failureIdRun := by
  refine ⟨?_, by decide, by decide, ?_, ?_, by decide, by decide, ?_⟩
  · apply Reachable.run exampleApp_reachable
    simp [staleConfirmRun, Private.runOk, Event.Ok, IsBytes, selectNdef, selectCc, readBinaryAt,
      UINT_RANGE]
  · intro h
    obtain ⟨j1, j2, r, hlt, hr, hc, he⟩ := h [0xE1, 0x04] 0 (by decide)
    have hj2 : j2 < 7 := by
      have := (List.getElem?_eq_some.1 he).1
      simpa [staleConfirmRun] using this
    have hj1 : j1 < 7 := by omega
    have hk := staleConfirmRun_unacknowledged j1 hj1 j2 hj2
    rw [hr] at hk
    simp only [Option.all_some, Bool.not_eq_true', Bool.and_eq_false_imp, Bool.and_eq_true,
      decide_eq_true_eq, decide_eq_false_iff_not] at hk
    exact hk ⟨hlt, hc⟩ he
  · apply Reachable.run exampleApp_reachable
    simp [failureIdRun, Private.runOk, Event.Ok, IsBytes, selectNdef, readBinaryAt, UINT_RANGE]
  · intro h
    obtain ⟨j1, j2, r, hlt, hr, hc, he⟩ := h [0xE1, 0x04] 0 (by decide)
    have hj2 : j2 < 4 := by
      have := (List.getElem?_eq_some.1 he).1
      simpa [failureIdRun] using this
    have hj1 : j1 < 4 := by omega
    have hk := failureIdRun_unacknowledged j1 hj1 j2 hj2
    rw [hr] at hk
    simp only [Option.all_some, Bool.not_eq_true', Bool.and_eq_false_imp, Bool.and_eq_true,
      decide_eq_true_eq, decide_eq_false_iff_not] at hk
    exact hk ⟨hlt, hc⟩ he

/-! ## Reads of a file -/

theorem read_slice (f : File) (hlen : f.iData.length < 2 ^ 31) (o l : Nat)
    (hl : l < UINT_RANGE) :
    (f.read o l).2 =
      (f.iData.drop (min o f.size)).take (if l = 0 then f.size - min o f.size else l) := by
  have hsz : f.size = f.iData.length := by
    unfold File.size UINT_RANGE; omega
  have hmod : f.iData.length % UINT_RANGE = f.iData.length := by
    unfold UINT_RANGE; omega
  unfold File.read
  simp only [hmod, hsz]
  have hcomm : min o f.iData.length = min f.iData.length o := Nat.min_comm _ _
  rw [hcomm]
  have hoff : min f.iData.length o ≤ f.iData.length := Nat.min_le_left _ _
  generalize min f.iData.length o = off at hoff ⊢
  by_cases h0 : l = 0
  · have hl0 : (f.iData.length + UINT_RANGE - off) % UINT_RANGE = f.iData.length - off := by
      unfold UINT_RANGE; omega
    simp only [h0, ne_eq, not_true_eq_false, if_false, if_true, hl0]
    rw [mid_eq _ _ _ hoff hlen (by unfold UINT_RANGE; omega)]
  · simp only [h0, ne_eq, not_false_eq_true, if_true, if_false]
    rw [mid_eq _ _ _ hoff hlen hl]

/-- C11: for every file of size `n` and every offset `o` (also `o > n`),
`read(o, 0)` returns exactly `n - min(o, n)` bytes, namely the bytes from
`min(o, n)` to the end; and for every `o ≥ n` and every length `l`,
`read(o, l)` returns an empty slice. -/
theorem C11_read_to_end_and_past_end (f : File) (hlen : f.iData.length < 2 ^ 31) (o : Nat) :
    (f.read o 0).2 = f.iData.drop (min o f.size) ∧
    (f.read o 0).2.length = f.size - min o f.size ∧
    (∀ l : Nat, l < UINT_RANGE → f.size ≤ o → (f.read o l).2 = []) := by
  have hsz : f.size = f.iData.length := by
    unfold File.size UINT_RANGE; omega
  have h0 : (f.read o 0).2 = f.iData.drop (min o f.size) := by
    rw [read_slice f hlen o 0 (by decide)]
    simp only [if_true]
    rw [List.take_of_length_le (by rw [List.length_drop, hsz])]
  refine ⟨h0, ?_, ?_⟩
  · rw [h0, List.length_drop, hsz]
  · intro l hl ho
    rw [read_slice f hlen o l hl, Nat.min_eq_right ho, hsz, List.drop_length]
    exact List.take_nil

theorem C11_read_to_end_and_past_end_witness :
    exampleApp.ndefFile.iData.length < 2 ^ 31 ∧
    (exampleApp.ndefFile.read 4 0).2 = [3, 4, 5, 6, 7, 8, 9, 10] ∧
    (exampleApp.ndefFile.read 40 0).2.length = 12 - min 40 12 ∧
    (exampleApp.ndefFile.read 12 5).2 = [] :=
  ⟨by decide,
   (C11_read_to_end_and_past_end exampleApp.ndefFile (by decide) 4).1,
   (C11_read_to_end_and_past_end exampleApp.ndefFile (by decide) 40).2.1,
   (C11_read_to_end_and_past_end exampleApp.ndefFile (by decide) 12).2.2 5 (by decide)
     (by decide)⟩

theorem value_of_not_contains {m : FileMap} {k : QByteArray}
    (h : FileMap.contains m k = false) : FileMap.value m k = File.empty := by
  induction m with
  | nil => rfl
  | cons e m ih =>
    rw [value_cons]
    have h1 : ¬ (FileMap.contains (e :: m) k = true) := by simp [h]
    rw [contains_cons] at h1
    have h2 : ¬ (e.1 = k) := fun hh => h1 (Or.inl hh)
    have h3 : FileMap.contains m k = false := by
      cases hc : FileMap.contains m k
      · rfl
      · exact absurd (Or.inr hc) h1
    simp only [h2, if_false]
    exact ih h3

theorem value_modify_const_flags (m : FileMap) (k k1 : QByteArray) (c : File)
    (hc : c.iBytesRead = (FileMap.value m k).iBytesRead) :
    (FileMap.value (FileMap.modify m k (fun _ => c)) k1).iBytesRead
      = (FileMap.value m k1).iBytesRead := by
  by_cases hk : k1 = k
  · subst hk
    cases hcon : FileMap.contains m k1
    · have h1 : FileMap.contains (FileMap.modify m k1 (fun _ => c)) k1 = false := by
        rw [contains_modify]; exact hcon
      rw [value_of_not_contains h1, value_of_not_contains hcon]
    · rw [value_modify_self m (fun _ => c) hcon]
      exact hc
  · rw [value_modify_of_ne m (fun _ => c) hk]

theorem value_modify_const_padding (m : FileMap) (k k1 : QByteArray) (c : File)
    (hc : c.iBytesReadPadding = (FileMap.value m k).iBytesReadPadding) :
    (FileMap.value (FileMap.modify m k (fun _ => c)) k1).iBytesReadPadding
      = (FileMap.value m k1).iBytesReadPadding := by
  by_cases hk : k1 = k
  · subst hk
    cases hcon : FileMap.contains m k1
    · have h1 : FileMap.contains (FileMap.modify m k1 (fun _ => c)) k1 = false := by
        rw [contains_modify]; exact hcon
      rw [value_of_not_contains h1, value_of_not_contains hcon]
    · rw [value_modify_self m (fun _ => c) hcon]
      exact hc
  · rw [value_modify_of_ne m (fun _ => c) hk]

/-- C12: for every file, offset and length, `read(offset, length)` leaves the
confirmed flags as they are, so `bytesRead()` is the same before and after;
and no dispatch through `Process`, whatever the command and its outcome,
changes the confirmed flags or `bytesRead()` of any file. -/
theorem C12_read_keeps_confirmed_flags :
    (∀ (f : File) (o l : Nat),
      (f.read o l).1.iBytesRead = f.iBytesRead ∧ (f.read o l).1.bytesRead = f.bytesRead) ∧
    (∀ (s : Private) (cla ins p1 p2 : Nat) (d : QByteArray) (le : Nat) (k : QByteArray),
      (FileMap.value (s.Process cla ins p1 p2 d le).1.iFiles k).iBytesRead
        = (FileMap.value s.iFiles k).iBytesRead ∧
      (FileMap.value (s.Process cla ins p1 p2 d le).1.iFiles k).bytesRead
        = (FileMap.value s.iFiles k).bytesRead) := by
  refine ⟨fun f o l => ⟨rfl, rfl⟩, ?_⟩
  intro s cla ins p1 p2 d le k
  have hflags : (FileMap.value (s.Process cla ins p1 p2 d le).1.iFiles k).iBytesRead
      = (FileMap.value s.iFiles k).iBytesRead := by
    unfold Private.Process
    simp only []
    split
    · split
      · unfold Private.select
        split <;> rfl
      · split
        · show (FileMap.value (s.readBinary p1 p2 le).1.iFiles k).iBytesRead = _
          unfold Private.readBinary
          split
          · rename_i k0 _ _
            exact value_modify_const_flags s.iFiles k0 k _ rfl
          · rfl
        · rfl
    · rfl
  have hpad : (FileMap.value (s.Process cla ins p1 p2 d le).1.iFiles k).iBytesReadPadding
      = (FileMap.value s.iFiles k).iBytesReadPadding := by
    unfold Private.Process
    simp only []
    split
    · split
      · unfold Private.select
        split <;> rfl
      · split
        · show (FileMap.value (s.readBinary p1 p2 le).1.iFiles k).iBytesReadPadding = _
          unfold Private.readBinary
          split
          · rename_i k0 _ _
            exact value_modify_const_padding s.iFiles k0 k _ rfl
          · rfl
        · rfl
    · rfl
  refine ⟨hflags, ?_⟩
  unfold File.bytesRead
  rw [hflags, hpad]

/-! ## Reset, and the bytes of the two files -/

/-- C13: for every file, after `reset()` `bytesRead()` is 0 and the pending
range is empty (its bounds are 0 and 0), whatever was confirmed before, so
that a `confirmRead()` directly after `reset()` leaves `bytesRead()` at 0. -/
theorem C13_reset_clears_progress (f : File) :
    f.reset.bytesRead = 0 ∧
    (∀ b ∈ f.reset.iBytesRead, b = false) ∧
    f.reset.iLastReadStart = 0 ∧ f.reset.iLastReadEnd = 0 ∧
    (∀ i : Int, ¬ (f.reset.iLastReadStart ≤ i ∧ i < f.reset.iLastReadEnd)) ∧
    f.reset.confirmRead.bytesRead = 0 := by
  have hall : ∀ b ∈ f.reset.iBytesRead, b = false := by
    intro b hb
    simp only [File.reset, QBitArray.fillAll, List.mem_map] at hb
    obtain ⟨_, _, h⟩ := hb
    exact h.symm
  have hb : f.reset.bytesRead = 0 := reset_bytesRead_zero f
  refine ⟨hb, hall, rfl, rfl, ?_, ?_⟩
  · intro i hi
    have h1 : f.reset.iLastReadStart = 0 := rfl
    have h2 : f.reset.iLastReadEnd = 0 := rfl
    rw [h1, h2] at hi
    omega
  · have h3 : f.reset.confirmRead.iBytesRead = f.reset.iBytesRead :=
      fill_of_le _ _ (Int.le_refl 0)
    have h4 : f.reset.confirmRead.iBytesReadPadding = f.reset.iBytesReadPadding :=
      confirmRead_padding_of_le f.reset (Int.le_refl 0)
    have h5 : f.reset.confirmRead.bytesRead = f.reset.bytesRead := by
      unfold File.bytesRead
      rw [h3, h4]
    rw [h5, hb]

theorem ccFileData_of_le (n : Nat) (h : n ≤ 0xFFFC) :
    ccFileData n =
      [0x00, 0x0F, 0x20, 0xFF, 0xFF, 0xFF, 0xFF, 0x04, 0x06, 0xE1, 0x04,
       (n + 2) / 256, (n + 2) % 256, 0x00, 0xFF] := by
  unfold ccFileData
  have h1 : (n + 2) % UINT_RANGE = n + 2 := by unfold UINT_RANGE; omega
  have h2 : toInt (n + 2) = ((n + 2 : Nat) : Int) := toInt_of_lt (by omega)
  simp only [h1, h2]
  have h3 : ((n + 2 : Nat) : Int) ≤ ((MAX_NDEF_FILE_SIZE : Nat) : Int) := by
    unfold MAX_NDEF_FILE_SIZE; omega
  rw [if_pos h3]
  have h4 : toUChar (((n + 2 : Nat) : Int) / 256) = (n + 2) / 256 := by
    unfold toUChar; omega
  have h5 : toUChar ((n + 2 : Nat) : Int) = (n + 2) % 256 := by
    unfold toUChar; omega
  rw [h4, h5]
  rfl

/-- C14: for every message size `n ≤ 0xFFFC`, `ccFileData(n)` is exactly the
15 bytes `00 0F 20 FF FF FF FF 04 06 E1 04 hi lo 00 FF`, where `hi`, `lo` is
the big-endian encoding of `n + 2`, the length of the NDEF file that
`ndefFileData` builds for a message of `n` bytes; every byte other than
those at the offsets 11 and 12 is the byte of the template. -/
theorem C14_cc_file_bytes (n : Nat) (h : n ≤ 0xFFFC) :
    ccFileData n =
      [0x00, 0x0F, 0x20, 0xFF, 0xFF, 0xFF, 0xFF, 0x04, 0x06, 0xE1, 0x04,
       (n + 2) / 256, (n + 2) % 256, 0x00, 0xFF] ∧
    (ccFileData n).length = 15 ∧
    (n + 2) / 256 < 256 ∧ (n + 2) % 256 < 256 ∧
    256 * ((n + 2) / 256) + (n + 2) % 256 = n + 2 ∧
    (∀ m : QByteArray, m.length = n → (ndefFileData m n).length = n + 2) ∧
    (∀ i : Nat, i ≠ 11 → i ≠ 12 → (ccFileData n)[i]? = cc_data_template[i]?) := by
  have hcc := ccFileData_of_le n h
  refine ⟨hcc, ccFileData_length n, by omega, by omega, by omega, ?_, ?_⟩
  · intro m hm
    unfold ndefFileData
    have h1 : n ≤ MAX_NDEF_MESSAGE_SIZE := h
    rw [if_pos h1]
    simp [List.length_take, hm]
  · intro i h11 h12
    rw [hcc]
    unfold cc_data_template
    rcases i with _ | _ | _ | _ | _ | _ | _ | _ | _ | _ | _ | _ | _ | _ | _ | i <;>
      first | rfl | exact absurd rfl h11 | exact absurd rfl h12

theorem C14_cc_file_bytes_witness :
    (10 : Nat) ≤ 0xFFFC ∧
    ccFileData 10 =
      [0x00, 0x0F, 0x20, 0xFF, 0xFF, 0xFF, 0xFF, 0x04, 0x06, 0xE1, 0x04,
       0x00, 0x0C, 0x00, 0xFF] ∧
    (ndefFileData exampleMessage 10).length = 12 :=
  ⟨by decide, (C14_cc_file_bytes 10 (by decide)).1,
   (C14_cc_file_bytes 10 (by decide)).2.2.2.2.2.1 exampleMessage rfl⟩

/-- C15 (code bug): the size field is patched for message sizes from
`0x7FFFFFFE` on. `ccFileData` keeps `aNdefSize + 2` in an `int`, which is
negative or small there, so the test `ndefFileLen <= MAX_NDEF_FILE_SIZE`
holds: for `n = 0x7FFFFFFF` and for `n = 0xFFFFFFFF` the bytes 11 and 12
become `00 01` and the result is not the template, although
`ndefFileData`, which compares the `uint`, gives the empty buffer there. For
`0xFFFC < n ≤ 0x7FFFFFFD` the result is the template. -/
theorem C15_cc_size_field_patched_for_huge_sizes :
    ccFileData 0x7FFFFFFF =
      [0x00, 0x0F, 0x20, 0xFF, 0xFF, 0xFF, 0xFF, 0x04, 0x06, 0xE1, 0x04,
       0x00, 0x01, 0x00, 0xFF] ∧
    ccFileData 0x7FFFFFFF ≠ cc_data_template ∧
    ccFileData 0xFFFFFFFF =
      [0x00, 0x0F, 0x20, 0xFF, 0xFF, 0xFF, 0xFF, 0x04, 0x06, 0xE1, 0x04,
       0x00, 0x01, 0x00, 0xFF] ∧
    ndefFileData [] 0x7FFFFFFF = [] ∧
    (∀ n : Nat, 0xFFFC < n → n ≤ 0x7FFFFFFD → ccFileData n = cc_data_template) := by
  refine ⟨by decide, by decide, by decide, by decide, ?_⟩
  intro n h1 h2
  unfold ccFileData
  have h3 : (n + 2) % UINT_RANGE = n + 2 := by unfold UINT_RANGE; omega
  have h4 : toInt (n + 2) = ((n + 2 : Nat) : Int) := toInt_of_lt (by omega)
  simp only [h3, h4]
  have h5 : ¬ (((n + 2 : Nat) : Int) ≤ ((MAX_NDEF_FILE_SIZE : Nat) : Int)) := by
    unfold MAX_NDEF_FILE_SIZE; omega
  rw [if_neg h5]

/-- C16: for every message `m` of length `n ≤ 0xFFFC`, `ndefFileData(m, n)`
has length `n + 2`, its first two bytes are the big-endian encoding of `n`
and the bytes after them are exactly `m`, so that decoding the length and
taking that many bytes gives `m` back; for every `n > 0xFFFC` the result is
the empty buffer. -/
theorem C16_ndef_file_bytes (m : QByteArray) (n : Nat) (hn : m.length = n) :
    (n ≤ 0xFFFC →
      ndefFileData m n = [n / 256, n % 256] ++ m ∧
      (ndefFileData m n).length = n + 2 ∧
      n / 256 < 256 ∧ n % 256 < 256 ∧ 256 * (n / 256) + n % 256 = n ∧
      (ndefFileData m n).drop 2 = m ∧
      ((ndefFileData m n).drop 2).take
        (256 * (ndefFileData m n).getD 0 0 + (ndefFileData m n).getD 1 0) = m) ∧
    (0xFFFC < n → ndefFileData m n = []) := by
  constructor
  · intro h
    have h1 : n ≤ MAX_NDEF_MESSAGE_SIZE := h
    have hbytes : ndefFileData m n = [n / 256, n % 256] ++ m := by
      unfold ndefFileData
      rw [if_pos h1, List.take_of_length_le (by omega)]
      have : (n / 256) % 256 = n / 256 := by omega
      rw [this]
    refine ⟨hbytes, ?_, by omega, by omega, by omega, ?_, ?_⟩
    · rw [hbytes]; simp [hn]
    · rw [hbytes]; rfl
    · rw [hbytes]
      show List.take (256 * (n / 256) + n % 256) m = m
      rw [List.take_of_length_le (by omega)]
  · intro h
    have h1 : ¬ (n ≤ MAX_NDEF_MESSAGE_SIZE) := by
      unfold MAX_NDEF_MESSAGE_SIZE MAX_NDEF_FILE_SIZE; omega
    unfold ndefFileData
    rw [if_neg h1]

theorem C16_ndef_file_bytes_witness :
    exampleMessage.length = 10 ∧
    ndefFileData exampleMessage 10 = [0x00, 0x0A, 1, 2, 3, 4, 5, 6, 7, 8, 9, 10] ∧
    ndefFileData (List.replicate 0xFFFD 0) 0xFFFD = [] :=
  ⟨rfl, ((C16_ndef_file_bytes exampleMessage 10 rfl).1 (by decide)).1,
   (C16_ndef_file_bytes (List.replicate 0xFFFD 0) 0xFFFD (List.length_replicate _ _)).2
     (by decide)⟩

theorem construct_ndefFile (d : QByteArray) (n l : Nat) (r : Bool) :
    (Private.construct d n l r).1.ndefFile = File.mk3 "NDEF" cc_ef (ndefFileData d n) := by
  unfold Private.ndefFile
  rw [construct_iFiles, (construct_fields d n l r).1]
  rfl

theorem ndefFileData_length (d : QByteArray) (n : Nat) (hn : d.length = n) :
    (ndefFileData d n).length = (if n ≤ 0xFFFC then n + 2 else 0) := by
  unfold ndefFileData
  have hm : MAX_NDEF_MESSAGE_SIZE = 0xFFFC := rfl
  rw [hm]
  split
  · simp only [List.length_append, List.length_cons, List.length_nil, List.length_take]
    omega
  · rfl

/-- C17: for every message size `n`, the engine constructed with a message of
`n` bytes reports `isTooMuchData()` exactly when `n > 0xFFFC`, and
`getBytesTotal()` is `n + 2` when `n ≤ 0xFFFC` and 0 otherwise. -/
theorem C17_too_much_data (d : QByteArray) (n lastId : Nat) (registered : Bool)
    (hn : d.length = n) :
    (isTooMuchData (Private.construct d n lastId registered).1 = true ↔ 0xFFFC < n) ∧
    getBytesTotal (Private.construct d n lastId registered).1
      = (if n ≤ 0xFFFC then n + 2 else 0) := by
  have hsize : (Private.construct d n lastId registered).1.ndefFile.size
      = (if n ≤ 0xFFFC then n + 2 else 0) := by
    rw [construct_ndefFile]
    show (ndefFileData d n).length % UINT_RANGE = _
    rw [ndefFileData_length d n hn]
    unfold UINT_RANGE
    split <;> omega
  refine ⟨?_, hsize⟩
  unfold isTooMuchData Private.isTooMuchData
  rw [hsize]
  by_cases h : n ≤ 0xFFFC
  · simp only [h, if_true]
    constructor
    · intro h1
      simp at h1
    · intro h1
      omega
  · simp only [h, if_false]
    constructor
    · intro _
      omega
    · intro _
      rfl

theorem C17_too_much_data_witness :
    ([] : QByteArray).length = 0 ∧ exampleMessage.length = 10 ∧
    (List.replicate 0xFFFF 0 : QByteArray).length = 0xFFFF ∧
    isTooMuchData (Private.construct [] 0 0 true).1 = false ∧
    isTooMuchData exampleApp = false ∧
    getBytesTotal exampleApp = 12 ∧
    isTooMuchData (Private.construct (List.replicate 0xFFFF 0) 0xFFFF 0 true).1 = true ∧
    getBytesTotal (Private.construct (List.replicate 0xFFFF 0) 0xFFFF 0 true).1 = 0 :=
  ⟨rfl, rfl, List.length_replicate _ _,
   by
    have h := (C17_too_much_data [] 0 0 true rfl).1
    cases hb : isTooMuchData (Private.construct [] 0 0 true).1
    · rfl
    · exact absurd (h.1 hb) (by decide),
   by
    have h := (C17_too_much_data exampleMessage 10 0 true rfl).1
    cases hb : isTooMuchData exampleApp
    · rfl
    · exact absurd (h.1 hb) (by decide),
   (C17_too_much_data exampleMessage 10 0 true rfl).2,
   (C17_too_much_data (List.replicate 0xFFFF 0) 0xFFFF 0 true (List.length_replicate _ _)).1.2
     (by decide),
   (C17_too_much_data (List.replicate 0xFFFF 0) 0xFFFF 0 true (List.length_replicate _ _)).2⟩

/-! ## Too much data: the handshake never starts -/

theorem step_unregistered {s : Private} (e : Event) (hok : e.Ok s)
    (h : s.watchers = [] ∧ s.iReady = false ∧ s.iRegisteredApp = false ∧
      s.iRegisteredModeId = 0 ∧ s.iRegisteredTechsId = 0) :
    (s.step e).1.watchers = [] ∧ (s.step e).1.iReady = false ∧
    (s.step e).1.iRegisteredApp = false ∧ (s.step e).1.iRegisteredModeId = 0 ∧
    (s.step e).1.iRegisteredTechsId = 0 ∧ (s.step e).2.calls = [] := by
  obtain ⟨hw, h1, h2, h3, h4⟩ := h
  cases e with
  | Process cla ins p1 p2 d le =>
    simp only [Private.step, Private.Process]
    split
    · split
      · unfold Private.select
        split <;> exact ⟨hw, h1, h2, h3, h4, trivial⟩
      · split
        · unfold Private.readBinary
          split <;> exact ⟨hw, h1, h2, h3, h4, trivial⟩
        · exact ⟨hw, h1, h2, h3, h4, trivial⟩
    · exact ⟨hw, h1, h2, h3, h4, trivial⟩
  | ResponseStatus id ok =>
    simp only [Private.step, Private.ResponseStatus]
    split <;> exact ⟨hw, h1, h2, h3, h4, rfl⟩
  | Start =>
    simp only [Private.step, Private.Start, Private.mayBeReset]
    split <;> exact ⟨hw, h1, h2, h3, h4, rfl⟩
  | Restart =>
    simp only [Private.step, Private.Restart, Private.mayBeReset, Private.mayBeDone]
    split <;> split <;> (try split) <;> exact ⟨hw, h1, h2, h3, h4, rfl⟩
  | Stop =>
    simp only [Private.step, Private.Stop, Private.mayBeReset, Private.mayBeDone]
    split <;> split <;> (try split) <;> exact ⟨hw, h1, h2, h3, h4, rfl⟩
  | ImplicitSelect => exact ⟨hw, h1, h2, h3, h4, rfl⟩
  | Select => exact ⟨hw, h1, h2, h3, h4, rfl⟩
  | Deselect => exact ⟨hw, h1, h2, h3, h4, rfl⟩
  | RegisterLocalHostAppFinished valid =>
    have hmem : Watcher.onRegisterLocalHostAppFinished ∈ s.watchers := hok
    rw [hw] at hmem
    cases hmem
  | RequestModeFinished reply =>
    have hmem : Watcher.onRequestModeFinished ∈ s.watchers := hok.1
    rw [hw] at hmem
    cases hmem
  | RequestTechsFinished reply =>
    have hmem : Watcher.onRequestTechsFinished ∈ s.watchers := hok.1
    rw [hw] at hmem
    cases hmem

theorem run_unregistered {s : Private} (es : List Event) (hok : s.runOk es)
    (h : s.watchers = [] ∧ s.iReady = false ∧ s.iRegisteredApp = false ∧
      s.iRegisteredModeId = 0 ∧ s.iRegisteredTechsId = 0) :
    (s.run es).watchers = [] ∧ (s.run es).iReady = false ∧
    (s.run es).iRegisteredApp = false ∧ (s.run es).iRegisteredModeId = 0 ∧
    (s.run es).iRegisteredTechsId = 0 ∧
    ∀ r ∈ s.history es, r.output.calls = [] := by
  induction es generalizing s with
  | nil =>
    obtain ⟨hw, h1, h2, h3, h4⟩ := h
    exact ⟨hw, h1, h2, h3, h4, fun r hr => by cases hr⟩
  | cons e es ih =>
    obtain ⟨a1, a2, a3, a4, a5, a6⟩ := step_unregistered e hok.1 h
    obtain ⟨b1, b2, b3, b4, b5, b6⟩ := ih hok.2 ⟨a1, a2, a3, a4, a5⟩
    refine ⟨b1, b2, b3, b4, b5, ?_⟩
    intro r hr
    simp only [Private.history, List.mem_cons] at hr
    rcases hr with hr | hr
    · rw [hr]; exact a6
    · exact b6 r hr

theorem construct_too_much (d : QByteArray) (n lastId : Nat) (registered : Bool)
    (hn : 0xFFFC < n) :
    Private.construct d n lastId registered =
      ({ iFiles := [(cc_ef, File.mk3 "CC" cc_ef (ccFileData n)),
                    ([0xe1, 0x04], File.mk3 "NDEF" cc_ef [])],
         iNdefFile := [0xe1, 0x04], iSelectedFile := Option.none,
         iLastReadId := 0, iDone := false, iRegisteredApp := false,
         iRegisteredModeId := 0, iRegisteredTechsId := 0, iReady := false,
         iRegisteredObject := registered, lastId := lastId, watchers := [] },
       Output.none) := by
  have h1 : ¬ (n ≤ MAX_NDEF_MESSAGE_SIZE) := by
    unfold MAX_NDEF_MESSAGE_SIZE MAX_NDEF_FILE_SIZE; omega
  have h2 : ndefFileData d n = [] := by
    unfold ndefFileData
    rw [if_neg h1]
  unfold Private.construct
  simp only [h2]
  rfl

/-- C18: when the engine is constructed with too much data (a message size
above `0xFFFC`), the constructor issues no call to the NFC daemon (no
`RegisterLocalHostApp`), and in every state that events lead to from there
`ready` is false, `registeredApp` is false and both correlation ids are 0;
no event makes the engine issue a call, and the destructor issues no release
or unregister call. -/
theorem C18_too_much_data_never_registers (d : QByteArray) (n lastId : Nat)
    (registered : Bool) (hn : 0xFFFC < n) :
    isTooMuchData (Private.construct d n lastId registered).1 = true ∧
    (Private.construct d n lastId registered).2.calls = [] ∧
    ∀ es : List Event, (Private.construct d n lastId registered).1.runOk es →
      isReady ((Private.construct d n lastId registered).1.run es) = false ∧
      ((Private.construct d n lastId registered).1.run es).iRegisteredApp = false ∧
      ((Private.construct d n lastId registered).1.run es).iRegisteredModeId = 0 ∧
      ((Private.construct d n lastId registered).1.run es).iRegisteredTechsId = 0 ∧
      (∀ r ∈ (Private.construct d n lastId registered).1.history es, r.output.calls = []) ∧
      ((Private.construct d n lastId registered).1.run es).destruct = [] := by
  rw [construct_too_much d n lastId registered hn]
  refine ⟨rfl, rfl, ?_⟩
  intro es hok
  obtain ⟨_, b2, b3, b4, b5, b6⟩ := run_unregistered es hok ⟨rfl, rfl, rfl, rfl, rfl⟩
  refine ⟨b2, b3, b4, b5, b6, ?_⟩
  unfold Private.destruct
  rw [b3, b4, b5]
  rfl

theorem C18_too_much_data_never_registers_witness :
    (0xFFFC : Nat) < 0xFFFF ∧
    (Private.construct (List.replicate 0xFFFF 0) 0xFFFF 0 true).2.calls = [] ∧
    isReady ((Private.construct (List.replicate 0xFFFF 0) 0xFFFF 0 true).1.run
      [selectNdef, Event.Start, Event.Stop]) = false ∧
    ((Private.construct (List.replicate 0xFFFF 0) 0xFFFF 0 true).1.run
      [selectNdef, Event.Start, Event.Stop]).destruct = [] :=
  ⟨by decide,
   (C18_too_much_data_never_registers (List.replicate 0xFFFF 0) 0xFFFF 0 true (by decide)).2.1,
   ((C18_too_much_data_never_registers (List.replicate 0xFFFF 0) 0xFFFF 0 true
      (by decide)).2.2 [selectNdef, Event.Start, Event.Stop]
      (by simp [Private.runOk, Event.Ok, selectNdef, IsBytes, UINT_RANGE])).1,
   ((C18_too_much_data_never_registers (List.replicate 0xFFFF 0) 0xFFFF 0 true
      (by decide)).2.2 [selectNdef, Event.Start, Event.Stop]
      (by simp [Private.runOk, Event.Ok, selectNdef, IsBytes, UINT_RANGE])).2.2.2.2.2⟩

/-! ## The ids of the responses of a run -/

theorem iterate_nextId (x : Nat) (hx1 : 1 ≤ x) (hx2 : x ≤ 4294967295) (m : Nat) :
    Response.nextId^[m] x = (x - 1 + m) % 4294967295 + 1 := by
  induction m with
  | zero =>
    simp only [Function.iterate_zero, id_eq, Nat.add_zero]
    omega
  | succ m ih =>
    rw [Function.iterate_succ_apply', ih, nextId_eq]
    unfold UINT_RANGE
    split <;> omega

theorem iterate_nextId_ne_self (x : Nat) (hx1 : 1 ≤ x) (hx2 : x ≤ 4294967295) (m : Nat)
    (hm1 : 1 ≤ m) (hm2 : m < 4294967295) : Response.nextId^[m] x ≠ x := by
  rw [iterate_nextId x hx1 hx2 m]
  omega

theorem iterate_nextId_ne_zero (x m : Nat) (hm : 1 ≤ m) : Response.nextId^[m] x ≠ 0 := by
  obtain ⟨k, rfl⟩ : ∃ k, m = k + 1 := ⟨m - 1, by omega⟩
  rw [Function.iterate_succ_apply']
  exact nextId_ne_zero _

theorem select_ids (s : Private) (p1 p2 : Nat) (fid : QByteArray) :
    ((s.select p1 p2 fid).1.lastId = s.lastId ∧ (s.select p1 p2 fid).2 = Response.failure) ∨
    ((s.select p1 p2 fid).1.lastId = Response.nextId s.lastId ∧
      (s.select p1 p2 fid).2.iSw = (0x90, 0x00) ∧
      (s.select p1 p2 fid).2.iResponseId = Response.nextId s.lastId) := by
  unfold Private.select
  split
  · exact Or.inr ⟨rfl, rfl, rfl⟩
  · exact Or.inl ⟨rfl, rfl⟩

theorem readBinary_ids (s : Private) (p1 p2 le : Nat) :
    ((s.readBinary p1 p2 le).1.lastId = s.lastId ∧
      (s.readBinary p1 p2 le).2 = Response.failure) ∨
    ((s.readBinary p1 p2 le).1.lastId = Response.nextId s.lastId ∧
      (s.readBinary p1 p2 le).2.iSw = (0x90, 0x00) ∧
      (s.readBinary p1 p2 le).2.iResponseId = Response.nextId s.lastId) := by
  unfold Private.readBinary
  split
  · exact Or.inr ⟨rfl, rfl, rfl⟩
  · exact Or.inl ⟨rfl, rfl⟩

theorem Process_ids (s : Private) (cla ins p1 p2 : Nat) (d : QByteArray) (le : Nat) :
    ∃ resp : Response, (s.Process cla ins p1 p2 d le).2.response = some resp ∧
      (((s.Process cla ins p1 p2 d le).1.lastId = s.lastId ∧ resp = Response.failure) ∨
       ((s.Process cla ins p1 p2 d le).1.lastId = Response.nextId s.lastId ∧
        resp.iSw = (0x90, 0x00) ∧ resp.iResponseId = Response.nextId s.lastId)) := by
  unfold Private.Process
  refine ⟨_, rfl, ?_⟩
  simp only []
  split
  · split
    · exact select_ids s p1 p2 d
    · split
      · exact readBinary_ids s p1 p2 le
      · exact Or.inl ⟨rfl, rfl⟩
  · exact Or.inl ⟨rfl, rfl⟩

theorem step_ids (s : Private) (e : Event) :
    ((s.step e).1.lastId = s.lastId ∧
      ∀ resp, (s.step e).2.response = some resp → resp = Response.failure) ∨
    ((s.step e).1.lastId = Response.nextId s.lastId ∧
      ∃ resp, (s.step e).2.response = some resp ∧ resp.iSw = (0x90, 0x00) ∧
        resp.iResponseId = Response.nextId s.lastId) := by
  cases e with
  | Process cla ins p1 p2 d le =>
    obtain ⟨resp, hr, h⟩ := Process_ids s cla ins p1 p2 d le
    rcases h with h | h
    · refine Or.inl ⟨h.1, ?_⟩
      intro resp1 h1
      have h2 : (s.Process cla ins p1 p2 d le).2.response = some resp1 := h1
      rw [hr] at h2
      cases h2
      exact h.2
    · exact Or.inr ⟨h.1, resp, hr, h.2.1, h.2.2⟩
  | ResponseStatus id ok =>
    refine Or.inl ?_
    simp only [Private.step, Private.ResponseStatus]
    split
    · exact ⟨rfl, fun resp h => by cases h⟩
    · exact ⟨rfl, fun resp h => by cases h⟩
  | Start =>
    refine Or.inl ?_
    simp only [Private.step, Private.Start, Private.mayBeReset]
    split
    · exact ⟨rfl, fun resp h => by cases h⟩
    · exact ⟨rfl, fun resp h => by cases h⟩
  | Restart =>
    refine Or.inl ?_
    simp only [Private.step, Private.Restart, Private.mayBeReset, Private.mayBeDone]
    refine ⟨?_, fun resp h => by cases h⟩
    split <;> split <;> (try split) <;> rfl
  | Stop =>
    refine Or.inl ?_
    simp only [Private.step, Private.Stop, Private.mayBeReset, Private.mayBeDone]
    refine ⟨?_, fun resp h => by cases h⟩
    split <;> split <;> (try split) <;> rfl
  | ImplicitSelect => exact Or.inl ⟨rfl, fun resp h => by cases h⟩
  | Select => exact Or.inl ⟨rfl, fun resp h => by cases h⟩
  | Deselect => exact Or.inl ⟨rfl, fun resp h => by cases h⟩
  | RegisterLocalHostAppFinished valid =>
    refine Or.inl ?_
    simp only [Private.step, Private.onRegisterLocalHostAppFinished]
    split
    · exact ⟨rfl, fun resp h => by cases h⟩
    · exact ⟨rfl, fun resp h => by cases h⟩
  | RequestModeFinished reply =>
    refine Or.inl ?_
    simp only [Private.step, Private.onRequestModeFinished]
    split
    · exact ⟨rfl, fun resp h => by cases h⟩
    · exact ⟨rfl, fun resp h => by cases h⟩
  | RequestTechsFinished reply =>
    refine Or.inl ?_
    simp only [Private.step, Private.onRequestTechsFinished]
    split
    · exact ⟨rfl, fun resp h => by cases h⟩
    · exact ⟨rfl, fun resp h => by cases h⟩

theorem history_cons (s : Private) (e : Event) (es : List Event) :
    s.history (e :: es) =
      { before := s, event := e, output := (s.step e).2 } :: (s.step e).1.history es := rfl

theorem history_success_id (s : Private) (es : List Event) (j : Nat) (r : Record)
    (resp : Response) (hr : (s.history es)[j]? = some r)
    (hresp : r.output.response = some resp) (hsw : resp.iSw = (0x90, 0x00)) :
    ∃ m : Nat, 1 ≤ m ∧ m ≤ 1 + ((s.history es).take j).countP Record.hasResponse ∧
      resp.iResponseId = Response.nextId^[m] s.lastId := by
  induction es generalizing s j with
  | nil => simp [Private.history] at hr
  | cons e es ih =>
    rw [history_cons] at hr ⊢
    cases j with
    | zero =>
      simp only [List.getElem?_cons_zero, Option.some.injEq] at hr
      subst hr
      rcases step_ids s e with h | h
      · have := h.2 resp hresp
        rw [this] at hsw
        simp [Response.failure] at hsw
      · obtain ⟨_, resp1, h1, _, h3⟩ := h
        have h4 : (s.step e).2.response = some resp := hresp
        rw [h1] at h4
        cases h4
        exact ⟨1, Nat.le_refl 1, Nat.le_add_right 1 _, by rw [h3]; rfl⟩
    | succ j =>
      simp only [List.getElem?_cons_succ] at hr
      obtain ⟨m, hm1, hm2, hm3⟩ := ih (s.step e).1 j hr
      rw [List.take_succ_cons, List.countP_cons]
      rcases step_ids s e with h | h
      · refine ⟨m, hm1, by omega, ?_⟩
        rw [hm3, h.1]
      · obtain ⟨h0, resp1, h1, _, _⟩ := h
        have hhas : Record.hasResponse
            { before := s, event := e, output := (s.step e).2 } = true := by
          simp [Record.hasResponse, h1]
        refine ⟨m + 1, by omega, ?_, ?_⟩
        · rw [hhas]
          simp only [if_true]
          omega
        · rw [hm3, h0, Function.iterate_succ_apply]

theorem history_success_id_fresh (s : Private) (es : List Event) (j1 j2 : Nat)
    (r1 r2 : Record) (resp1 resp2 : Response) (hlt : j1 < j2)
    (hcount : ((s.history es).take j2).countP Record.hasResponse < 2 ^ 32 - 1)
    (hr1 : (s.history es)[j1]? = some r1) (hr2 : (s.history es)[j2]? = some r2)
    (hresp1 : r1.output.response = some resp1) (hresp2 : r2.output.response = some resp2)
    (hsw : resp2.iSw = (0x90, 0x00)) :
    resp2.iResponseId ≠ resp1.iResponseId := by
  induction es generalizing s j1 j2 with
  | nil => simp [Private.history] at hr1
  | cons e es ih =>
    rw [history_cons] at hr1 hr2 hcount
    obtain ⟨j2, rfl⟩ : ∃ k, j2 = k + 1 := ⟨j2 - 1, by omega⟩
    simp only [List.getElem?_cons_succ] at hr2
    rw [List.take_succ_cons, List.countP_cons] at hcount
    cases j1 with
    | zero =>
      simp only [List.getElem?_cons_zero, Option.some.injEq] at hr1
      subst hr1
      obtain ⟨m, hm1, hm2, hm3⟩ := history_success_id (s.step e).1 es j2 r2 resp2 hr2 hresp2 hsw
      have hhas : Record.hasResponse
          { before := s, event := e, output := (s.step e).2 } = true := by
        have h4 : (s.step e).2.response = some resp1 := hresp1
        simp [Record.hasResponse, h4]
      rw [hhas] at hcount
      simp only [if_true] at hcount
      rcases step_ids s e with h | h
      · have := h.2 resp1 hresp1
        rw [this, hm3]
        exact iterate_nextId_ne_zero _ m hm1
      · obtain ⟨h0, resp, h1, _, h3⟩ := h
        have h4 : (s.step e).2.response = some resp1 := hresp1
        rw [h1] at h4
        cases h4
        rw [hm3, h0, h3]
        have hb1 : 1 ≤ Response.nextId s.lastId :=
          Nat.pos_of_ne_zero (nextId_ne_zero _)
        have hb2 : Response.nextId s.lastId ≤ 4294967295 := by
          have := nextId_lt s.lastId
          unfold UINT_RANGE at this
          omega
        exact iterate_nextId_ne_self _ hb1 hb2 m hm1 (by omega)
    | succ j1 =>
      simp only [List.getElem?_cons_succ] at hr1
      exact ih (s.step e).1 j1 j2 (by omega) (by omega) hr1 hr2

theorem history_response (s : Private) (es : List Event) (r : Record)
    (hr : r ∈ s.history es) (resp : Response) (hresp : r.output.response = some resp) :
    (resp.iSw = (0x90, 0x00) ∧ resp.iResponseId ≠ 0) ∨
    (resp = Response.failure ∧ resp.iResponseId = 0) := by
  induction es generalizing s with
  | nil => simp [Private.history] at hr
  | cons e es ih =>
    rw [history_cons, List.mem_cons] at hr
    rcases hr with hr | hr
    · subst hr
      rcases step_ids s e with h | h
      · have := h.2 resp hresp
        exact Or.inr ⟨this, by rw [this]; rfl⟩
      · obtain ⟨_, resp1, h1, h2, h3⟩ := h
        have h4 : (s.step e).2.response = some resp := hresp
        rw [h1] at h4
        cases h4
        exact Or.inl ⟨h2, by rw [h3]; exact nextId_ne_zero _⟩
    · exact ih (s.step e).1 hr

/-- C19, the claim as stated fails: the response of `Process` for a failed
command has the id 0. READ BINARY with no file selected is answered with
id 0, and so is the unsupported command that follows it. -/
theorem C19_failure_response_has_id_zero :
    (exampleApp.Process 0x00 0xB0 0 0 [] 2).2.response.map Response.id = some 0 ∧
    ((exampleApp.history [readBinaryAt 0 0 2, Event.Process 0x00 0xD6 0 0 [] 0]).map
      (fun r => r.output.response.map Response.id)) = [some 0, some 0] := by
  decide

/-- C19, amended: in every run of the engine, a response that `Process`
produces for a successful command (status 9000) has an id that is not zero
and that differs from the id of every response produced before it in the
run, as long as fewer than `2 ^ 32 - 1` responses have been produced before
it; the response for a failed command is the default failure response,
whose id is 0. -/
theorem C19_success_ids_fresh (s : Private) (es : List Event) :
    (∀ r ∈ s.history es, ∀ resp : Response, r.output.response = some resp →
      (resp.iSw = (0x90, 0x00) ∧ resp.iResponseId ≠ 0) ∨
      (resp = Response.failure ∧ resp.iResponseId = 0)) ∧
    (∀ (j1 j2 : Nat) (r1 r2 : Record) (resp1 resp2 : Response), j1 < j2 →
      ((s.history es).take j2).countP Record.hasResponse < 2 ^ 32 - 1 →
      (s.history es)[j1]? = some r1 → (s.history es)[j2]? = some r2 →
      r1.output.response = some resp1 → r2.output.response = some resp2 →
      resp2.iSw = (0x90, 0x00) →
      resp2.iResponseId ≠ resp1.iResponseId) := by
  refine ⟨fun r hr resp hresp => history_response s es r hr resp hresp, ?_⟩
  intro j1 j2 r1 r2 resp1 resp2 hlt hcount hr1 hr2 hresp1 hresp2 hsw
  exact history_success_id_fresh s es j1 j2 r1 r2 resp1 resp2 hlt hcount hr1 hr2 hresp1
    hresp2 hsw

/-! ## The done flag and the session events -/

theorem value_modify_cases (m : FileMap) (k k1 : QByteArray) (g : File → File) :
    FileMap.value (FileMap.modify m k g) k1 = FileMap.value m k1 ∨
    (k1 = k ∧ FileMap.contains m k = true ∧
      FileMap.value (FileMap.modify m k g) k1 = g (FileMap.value m k1)) := by
  by_cases hk : k1 = k
  · subst hk
    cases hcon : FileMap.contains m k1
    · have h1 : FileMap.contains (FileMap.modify m k1 g) k1 = false := by
        rw [contains_modify]; exact hcon
      exact Or.inl (by rw [value_of_not_contains h1, value_of_not_contains hcon])
    · exact Or.inr ⟨rfl, rfl, value_modify_self m g hcon⟩
  · exact Or.inl (value_modify_of_ne m g hk)

theorem value_modify_const_proj {α : Type} (P : File → α) (m : FileMap) (k k1 : QByteArray)
    (c : File) (hc : P c = P (FileMap.value m k)) :
    P (FileMap.value (FileMap.modify m k (fun _ => c)) k1) = P (FileMap.value m k1) := by
  rcases value_modify_cases m k k1 (fun _ => c) with h | ⟨h1, _, h3⟩
  · rw [h]
  · rw [h3, h1]
    exact hc

theorem ndefFile_WF {s : Private} (h : s.Inv) : s.ndefFile.WF := by
  have hc : FileMap.contains s.iFiles s.iNdefFile = true := by
    rw [contains_iff_mem_keys, h.keys, h.ndef]
    simp
  exact h.files _ (value_mem _ hc)

theorem select_ndefFile (s : Private) (p1 p2 : Nat) (fid : QByteArray) :
    (s.select p1 p2 fid).1.ndefFile = s.ndefFile ∧ (s.select p1 p2 fid).1.iDone = s.iDone := by
  unfold Private.select
  split <;> exact ⟨rfl, rfl⟩

theorem readBinary_ndefFile (s : Private) (p1 p2 le : Nat) :
    (s.readBinary p1 p2 le).1.ndefFile.iBytesRead = s.ndefFile.iBytesRead ∧
    (s.readBinary p1 p2 le).1.ndefFile.isFullyRead = s.ndefFile.isFullyRead ∧
    (s.readBinary p1 p2 le).1.iDone = s.iDone := by
  unfold Private.readBinary
  split
  · rename_i k _ _
    exact ⟨value_modify_const_proj File.iBytesRead s.iFiles k s.iNdefFile _ rfl,
      value_modify_const_proj File.isFullyRead s.iFiles k s.iNdefFile _ rfl, rfl⟩
  · exact ⟨rfl, rfl, rfl⟩

theorem Process_ndefFile (s : Private) (cla ins p1 p2 : Nat) (d : QByteArray) (le : Nat) :
    (s.Process cla ins p1 p2 d le).1.ndefFile.iBytesRead = s.ndefFile.iBytesRead ∧
    (s.Process cla ins p1 p2 d le).1.ndefFile.isFullyRead = s.ndefFile.isFullyRead ∧
    (s.Process cla ins p1 p2 d le).1.iDone = s.iDone := by
  unfold Private.Process
  simp only []
  split
  · split
    · have h := select_ndefFile s p1 p2 d
      exact ⟨by rw [h.1], by rw [h.1], h.2⟩
    · split
      · exact readBinary_ndefFile s p1 p2 le
      · exact ⟨rfl, rfl, rfl⟩
  · exact ⟨rfl, rfl, rfl⟩

theorem mayBeDone_spec (s : Private) :
    s.mayBeDone.1.ndefFile = s.ndefFile ∧ s.mayBeDone.1.iFiles = s.iFiles ∧
    s.mayBeDone.1.iNdefFile = s.iNdefFile ∧
    (s.mayBeDone.1.iDone = true → s.iDone = true ∨ s.ndefFile.isFullyRead = true) ∧
    (s.ndefFile.isFullyRead = false → s.mayBeDone = (s, [])) := by
  unfold Private.mayBeDone
  split
  · rename_i hf
    split
    · exact ⟨rfl, rfl, rfl, fun _ => Or.inr hf, fun h => by rw [hf] at h; cases h⟩
    · exact ⟨rfl, rfl, rfl, fun _ => Or.inr hf, fun h => by rw [hf] at h; cases h⟩
  · exact ⟨rfl, rfl, rfl, fun h => Or.inl h, fun _ => rfl⟩

theorem mayBeReset_keep (s : Private)
    (h : ¬ (s.iDone = false ∧ s.ndefFile.isFullyRead = false ∧ s.ndefFile.bytesRead ≠ 0)) :
    s.mayBeReset = (s, []) := by
  unfold Private.mayBeReset
  rw [if_neg h]

theorem mayBeDone_keep_guard (s : Private)
    (h : ¬ (s.iDone = false ∧ s.ndefFile.isFullyRead = false ∧ s.ndefFile.bytesRead ≠ 0)) :
    ¬ (s.mayBeDone.1.iDone = false ∧ s.mayBeDone.1.ndefFile.isFullyRead = false ∧
      s.mayBeDone.1.ndefFile.bytesRead ≠ 0) := by
  unfold Private.mayBeDone
  split
  · rename_i hf
    split
    · rintro ⟨h1, _⟩
      cases h1
    · exact h
  · exact h

theorem overshootRun_runOk : exampleApp.runOk overshootRun := by
  simp [overshootRun, Private.runOk, Event.Ok, IsBytes, selectNdef, readBinaryAt, UINT_RANGE]

theorem exampleFullyRead_reachable : Reachable exampleFullyRead := by
  apply Reachable.run exampleApp_reachable
  simp [Private.runOk, Event.Ok, IsBytes, selectNdef, readBinaryAt, UINT_RANGE]

theorem exampleDone_reachable : Reachable exampleDone :=
  Reachable.run exampleFullyRead_reachable [Event.Restart] ⟨trivial, trivial⟩

/-- C21: in every state in which the NDEF file is fully read, two calls of
`mayBeDone()` leave `done = true`, emit `doneChanged` exactly once over the
two calls if `done` was false before and never if it was true, and emit the
`done` event in both calls; when the NDEF file is not fully read
`mayBeDone()` changes nothing and emits nothing. -/
theorem C21_may_be_done_twice (s : Private) :
    (s.ndefFile.isFullyRead = true →
      s.mayBeDone.1.iDone = true ∧ s.mayBeDone.1.mayBeDone.1.iDone = true ∧
      s.mayBeDone.1.mayBeDone.1 = s.mayBeDone.1 ∧
      s.mayBeDone.1 = { s with iDone := true } ∧
      (s.mayBeDone.2 ++ s.mayBeDone.1.mayBeDone.2).count Signal.doneChanged
        = (if s.iDone = false then 1 else 0) ∧
      s.mayBeDone.1.mayBeDone.2 = [Signal.done] ∧
      s.mayBeDone.2 =
        (if s.iDone = false then [Signal.doneChanged, Signal.done] else [Signal.done]) ∧
      Signal.done ∈ s.mayBeDone.2 ∧ Signal.done ∈ s.mayBeDone.1.mayBeDone.2) ∧
    (s.ndefFile.isFullyRead = false → s.mayBeDone = (s, [])) := by
  constructor
  · intro hf
    cases hd : s.iDone
    · have h1 : s.mayBeDone = ({ s with iDone := true }, [Signal.doneChanged, Signal.done]) := by
        unfold Private.mayBeDone
        rw [if_pos hf, if_pos hd]
      have h2 : ({ s with iDone := true } : Private).mayBeDone
          = ({ s with iDone := true }, [Signal.done]) := by
        unfold Private.mayBeDone
        have hf2 : ({ s with iDone := true } : Private).ndefFile.isFullyRead = true := hf
        rw [if_pos hf2]
        rfl
      rw [h1]
      simp only [h2]
      simp
    · have h1 : s.mayBeDone = (s, [Signal.done]) := by
        unfold Private.mayBeDone
        have hd2 : ¬ (s.iDone = false) := by rw [hd]; decide
        rw [if_pos hf, if_neg hd2]
      have h3 : ({ s with iDone := true } : Private) = s := by
        cases s
        simp only at hd
        subst hd
        rfl
      rw [h1]
      simp only [h1]
      simp [hd, h3]
  · intro hf
    exact (mayBeDone_spec s).2.2.2.2 hf

theorem C21_may_be_done_twice_witness :
    exampleFullyRead.ndefFile.isFullyRead = true ∧ exampleFullyRead.iDone = false ∧
    exampleFullyRead.mayBeDone.1.mayBeDone.1.iDone = true ∧
    exampleFullyRead.mayBeDone.2 = [Signal.doneChanged, Signal.done] ∧
    exampleFullyRead.mayBeDone.1.mayBeDone.2 = [Signal.done] ∧
    exampleReading.mayBeDone = (exampleReading, []) :=
  ⟨by decide, by decide,
   ((C21_may_be_done_twice exampleFullyRead).1 (by decide)).2.1,
   ((C21_may_be_done_twice exampleFullyRead).1 (by decide)).2.2.2.2.2.2.1,
   ((C21_may_be_done_twice exampleFullyRead).1 (by decide)).2.2.2.2.2.1,
   (C21_may_be_done_twice exampleReading).2 (by decide)⟩

/-- C22, the claim as stated fails: with the NDEF file fully read and `done`
not set, Stop sets `done` and emits `doneChanged` and `done`, Start does
neither. -/
theorem C22_stop_differs_from_start :
    exampleFullyRead.Stop ≠ exampleFullyRead.Start ∧
    exampleFullyRead.Stop.1.iDone = true ∧ exampleFullyRead.Start.1.iDone = false ∧
    exampleFullyRead.Stop.2.signals = [Signal.doneChanged, Signal.done] ∧
    exampleFullyRead.Start.2.signals = [] := by
  refine ⟨?_, by decide, by decide, by decide, by decide⟩
  intro h
  have h1 : exampleFullyRead.Stop.1.iDone = exampleFullyRead.Start.1.iDone := by rw [h]
  revert h1
  decide

theorem mayBeReset_signals (s : Private) : Signal.done ∉ s.mayBeReset.2 := by
  unfold Private.mayBeReset
  split <;> simp

theorem mayBeReset_iDone (s : Private) : s.mayBeReset.1.iDone = s.iDone := by
  unfold Private.mayBeReset
  split <;> rfl

/-- C22, amended: the event Stop runs `mayBeDone()` and then `mayBeReset()`,
as Restart does: in every state Stop and Restart give the same state and the
same notifications, and only Start runs `mayBeReset()` alone. Stop emits the
`done` event exactly when the NDEF file is fully read, and then `done` is
set afterwards; when the NDEF file is not fully read, Stop gives the same
state and the same notifications as Start; Start never emits the `done`
event and never changes the `done` flag. -/
theorem C22_stop_runs_may_be_done (s : Private) :
    s.Stop = s.Restart ∧
    s.Stop = (s.mayBeDone.1.mayBeReset.1,
      Output.ofSignals (s.mayBeDone.2 ++ s.mayBeDone.1.mayBeReset.2)) ∧
    s.Start = (s.mayBeReset.1, Output.ofSignals s.mayBeReset.2) ∧
    (Signal.done ∈ s.Stop.2.signals ↔ s.ndefFile.isFullyRead = true) ∧
    (s.ndefFile.isFullyRead = true → s.Stop.1.iDone = true) ∧
    (s.ndefFile.isFullyRead = false → s.Stop = s.Start) ∧
    Signal.done ∉ s.Start.2.signals ∧ s.Start.1.iDone = s.iDone := by
  refine ⟨rfl, rfl, rfl, ?_, ?_, ?_, mayBeReset_signals s, mayBeReset_iDone s⟩
  · show Signal.done ∈ s.mayBeDone.2 ++ s.mayBeDone.1.mayBeReset.2 ↔ _
    rw [List.mem_append]
    constructor
    · rintro (h | h)
      · cases hf : s.ndefFile.isFullyRead
        · rw [(mayBeDone_spec s).2.2.2.2 hf] at h
          cases h
        · rfl
      · exact absurd h (mayBeReset_signals _)
    · intro hf
      refine Or.inl ?_
      unfold Private.mayBeDone
      rw [if_pos hf]
      split <;> simp
  · intro hf
    show s.mayBeDone.1.mayBeReset.1.iDone = true
    rw [mayBeReset_iDone]
    unfold Private.mayBeDone
    rw [if_pos hf]
    split
    · rfl
    · rename_i hd
      simpa using hd
  · intro hf
    show (s.mayBeDone.1.mayBeReset.1,
      Output.ofSignals (s.mayBeDone.2 ++ s.mayBeDone.1.mayBeReset.2)) = _
    rw [(mayBeDone_spec s).2.2.2.2 hf]
    rfl

/-! ## The id generator, the frame of SELECT, and the file ids -/

theorem nextIdLoop_fuel (fuel lastId : Nat) :
    Response.nextIdLoop (fuel + 2) lastId = Response.nextIdLoop 2 lastId := by
  by_cases h : (lastId + 1) % UINT_RANGE = 0
  · have h1 : (0 + 1) % UINT_RANGE ≠ 0 := by decide
    simp only [Response.nextIdLoop, h, h1, if_true, if_false]
  · simp only [Response.nextIdLoop, h, if_false]

/-- C27: the id generator on its 32-bit counter: for every previous value
`last`, the loop of `nextId` ends after at most two runs of its body and
`nextId` returns `(last + 1) mod 2^32` when that is not zero and 1 when
`last = 0xFFFFFFFF`; it never returns 0, and the id it returns is larger than
`last` except across the wrap, so that of two ids generated one after the
other the second is the larger one unless the first is `0xFFFFFFFF`. -/
theorem C27_next_id (last : Nat) (h : last < 2 ^ 32) :
    (∀ fuel : Nat, 2 ≤ fuel →
      Response.nextIdLoop fuel last = some (Response.nextId last)) ∧
    ((last + 1) % 2 ^ 32 ≠ 0 → Response.nextId last = (last + 1) % 2 ^ 32) ∧
    (last ≠ 0xFFFFFFFF → Response.nextId last = last + 1) ∧
    (last = 0xFFFFFFFF → Response.nextId last = 1) ∧
    Response.nextId last ≠ 0 ∧
    Response.nextId last < 2 ^ 32 ∧
    (last ≠ 0xFFFFFFFF → last < Response.nextId last) ∧
    (Response.nextId last ≠ 0xFFFFFFFF →
      Response.nextId last < Response.nextId (Response.nextId last)) ∧
    (Response.nextId last = 0xFFFFFFFF → Response.nextId (Response.nextId last) = 1) := by
  have hval := nextId_eq last
  have hval2 := nextId_eq (Response.nextId last)
  have hlt := nextId_lt last
  unfold UINT_RANGE at hval hval2 hlt
  refine ⟨?_, ?_, ?_, ?_, nextId_ne_zero last, hlt, ?_, ?_, ?_⟩
  · intro fuel hf
    obtain ⟨k, rfl⟩ : ∃ k, fuel = k + 2 := ⟨fuel - 2, by omega⟩
    rw [nextIdLoop_fuel, nextIdLoop_two, nextId_eq]
  · intro h1
    rw [hval, if_neg h1]
  · intro h1
    rw [hval]
    split <;> omega
  · intro h1
    rw [hval]
    split <;> omega
  · intro h1
    rw [hval]
    split <;> omega
  · intro h1
    rw [hval2]
    split <;> omega
  · intro h1
    rw [hval2]
    split <;> omega

theorem C27_next_id_witness :
    (0xFFFFFFFF : Nat) < 2 ^ 32 ∧ (41 : Nat) < 2 ^ 32 ∧
    Response.nextId 0xFFFFFFFF = 1 ∧ Response.nextId 41 = 41 + 1 ∧
    Response.nextIdLoop 2 0xFFFFFFFF = some (Response.nextId 0xFFFFFFFF) :=
  ⟨by decide, by decide,
   (C27_next_id 0xFFFFFFFF (by decide)).2.2.2.1 rfl,
   (C27_next_id 41 (by decide)).2.2.1 (by decide),
   (C27_next_id 0xFFFFFFFF (by decide)).1 2 (Nat.le_refl 2)⟩

theorem select_frame (s : Private) (p1 p2 : Nat) (fid : QByteArray) :
    (s.select p1 p2 fid).1.iFiles = s.iFiles ∧
    (s.select p1 p2 fid).1.iNdefFile = s.iNdefFile ∧
    (s.select p1 p2 fid).1.iLastReadId = s.iLastReadId ∧
    (s.select p1 p2 fid).1.iDone = s.iDone ∧
    (s.select p1 p2 fid).1.iRegisteredApp = s.iRegisteredApp ∧
    (s.select p1 p2 fid).1.iRegisteredModeId = s.iRegisteredModeId ∧
    (s.select p1 p2 fid).1.iRegisteredTechsId = s.iRegisteredTechsId ∧
    (s.select p1 p2 fid).1.iReady = s.iReady := by
  unfold Private.select
  split <;> exact ⟨rfl, rfl, rfl, rfl, rfl, rfl, rfl, rfl⟩

theorem Process_select (s : Private) (p1 p2 : Nat) (d : QByteArray) (le : Nat) :
    s.Process 0x00 0xA4 p1 p2 d le =
      ((s.select p1 p2 d).1,
       { response := some (s.select p1 p2 d).2, signals := [], calls := [] }) := by
  unfold Private.Process
  have h1 : (0x00 : Nat) = ISO_CLA := rfl
  have h2 : (0xA4 : Nat) = ISO_INS_SELECT := rfl
  simp only [if_pos h1, if_pos h2]

/-- C28: SELECT changes nothing but the selection: for every state and every
SELECT command dispatched through `Process`, the files (their data, their
confirmed flags and their pending ranges), `lastReadResponseId`, the `done`
flag and the registration members are the same before and after, and no
signal is emitted; so the pending range that a read of the first two bytes
left on the NDEF file is still there after SELECT of the Capability
Container and SELECT of the NDEF file again. -/
theorem C28_select_frame :
    (∀ (s : Private) (p1 p2 : Nat) (d : QByteArray) (le : Nat),
      (s.Process 0x00 0xA4 p1 p2 d le).1.iFiles = s.iFiles ∧
      (∀ k : QByteArray,
        FileMap.value (s.Process 0x00 0xA4 p1 p2 d le).1.iFiles k = FileMap.value s.iFiles k) ∧
      (s.Process 0x00 0xA4 p1 p2 d le).1.iLastReadId = s.iLastReadId ∧
      (s.Process 0x00 0xA4 p1 p2 d le).1.iDone = s.iDone ∧
      (s.Process 0x00 0xA4 p1 p2 d le).1.iReady = s.iReady ∧
      (s.Process 0x00 0xA4 p1 p2 d le).2.signals = []) ∧
    (exampleReading.ndefFile.iLastReadStart = 0 ∧ exampleReading.ndefFile.iLastReadEnd = 2) ∧
    (exampleReading.run [selectCc]).iSelectedFile = some [0xE1, 0x03] ∧
    (exampleReading.run [selectCc, selectNdef]).iSelectedFile = some [0xE1, 0x04] ∧
    (exampleReading.run [selectCc, selectNdef]).ndefFile = exampleReading.ndefFile ∧
    (exampleReading.run [selectCc, selectNdef]).ndefFile.iLastReadEnd = 2 := by
  refine ⟨?_, by decide, by decide, by decide, by decide, by decide⟩
  intro s p1 p2 d le
  rw [Process_select]
  have h := select_frame s p1 p2 d
  refine ⟨h.1, ?_, h.2.2.1, h.2.2.2.1, h.2.2.2.2.2.2.2, rfl⟩
  intro k
  show FileMap.value (s.select p1 p2 d).1.iFiles k = _
  rw [h.1]

/-- C29 (code bug): the NDEF file carries the id of the Capability
Container. After construction `iFiles` has exactly the two keys `E1 03` and
`E1 04`, and the file under `E1 03` has the id `E1 03`; but the file under
`E1 04` is built as `File("NDEF", idCc, ...)`, so the id stored in it is
`E1 03`, not its key `E1 04`. -/
theorem C29_ndef_file_has_cc_file_id :
    (∀ (d : QByteArray) (n lastId : Nat) (registered : Bool),
      (Private.construct d n lastId registered).1.iFiles.map Prod.fst
        = [[0xE1, 0x03], [0xE1, 0x04]] ∧
      (FileMap.value (Private.construct d n lastId registered).1.iFiles [0xE1, 0x03]).iFid
        = [0xE1, 0x03] ∧
      (FileMap.value (Private.construct d n lastId registered).1.iFiles [0xE1, 0x04]).iFid
        = [0xE1, 0x03] ∧
      (Private.construct d n lastId registered).1.ndefFile.iFid ≠ [0xE1, 0x04] ∧
      (Private.construct d n lastId registered).1.ndefFile.iName = "NDEF") ∧
    exampleApp.ndefFile.iFid = [0xE1, 0x03] := by
  refine ⟨?_, by decide⟩
  intro d n lastId registered
  rw [construct_ndefFile, construct_iFiles]
  refine ⟨rfl, rfl, rfl, ?_, rfl⟩
  show cc_ef ≠ [0xE1, 0x04]
  decide

/-! ## The done flag -/

theorem mayBeDone_iDone_mono (s : Private) (h : s.iDone = true) :
    s.mayBeDone.1.iDone = true := by
  unfold Private.mayBeDone
  split
  · split
    · rfl
    · exact h
  · exact h

theorem ResponseStatus_iDone (s : Private) (id : Nat) (ok : Bool) :
    (s.ResponseStatus id ok).1.iDone = s.iDone := by
  unfold Private.ResponseStatus
  split <;> rfl

theorem step_iDone_mono (s : Private) (e : Event) (h : s.iDone = true) :
    (s.step e).1.iDone = true := by
  cases e with
  | Process cla ins p1 p2 d le =>
    show (s.Process cla ins p1 p2 d le).1.iDone = true
    rw [(Process_ndefFile s cla ins p1 p2 d le).2.2]; exact h
  | ResponseStatus id ok =>
    show (s.ResponseStatus id ok).1.iDone = true
    rw [ResponseStatus_iDone]; exact h
  | Start =>
    show s.mayBeReset.1.iDone = true
    rw [mayBeReset_iDone]; exact h
  | Restart =>
    show s.mayBeDone.1.mayBeReset.1.iDone = true
    rw [mayBeReset_iDone]; exact mayBeDone_iDone_mono s h
  | Stop =>
    show s.mayBeDone.1.mayBeReset.1.iDone = true
    rw [mayBeReset_iDone]; exact mayBeDone_iDone_mono s h
  | ImplicitSelect => exact h
  | Select => exact h
  | Deselect => exact h
  | RegisterLocalHostAppFinished valid =>
    simp only [Private.step, Private.onRegisterLocalHostAppFinished]
    split <;> exact h
  | RequestModeFinished reply =>
    simp only [Private.step, Private.onRequestModeFinished]
    split <;> exact h
  | RequestTechsFinished reply =>
    simp only [Private.step, Private.onRequestTechsFinished]
    split <;> exact h

theorem run_iDone_mono (s : Private) (es : List Event) (h : s.iDone = true) :
    (s.run es).iDone = true := by
  induction es generalizing s with
  | nil => exact h
  | cons e es ih => exact ih (s.step e).1 (step_iDone_mono s e h)

theorem skippedByteRun_runOk : exampleApp.runOk skippedByteRun := by
  simp [skippedByteRun, Private.runOk, Event.Ok, IsBytes, selectNdef, readBinaryAt, UINT_RANGE]

/-- C26 (code bug): `done` is not sound. A read that reaches past the end of
the NDEF file (`File::read` does not clamp the length, C8) makes
`confirmRead()` set a padding bit of the bit array, which `bytesRead()`
counts. After `overshootRun` (the whole 12-byte file read and acknowledged,
Stop, then a read of 13 bytes acknowledged) `done` is true and
`getBytesTransferred` is 13, not `getBytesTotal` = 12. After
`skippedByteRun` (bytes 0 to 9 read and acknowledged, then a read of 2 bytes
at offset 11 acknowledged, then Stop) `done` is set and `done` is emitted
with `getBytesTransferred = getBytesTotal = 12`, although byte 10 was never
read. In both runs every `fill` stays within the storage of the bit array.
What holds in every state: `done` is sticky, and once it is set no session
event changes the confirmed flags or the count or emits
`bytesTransferredChanged`. -/
theorem C26_done_without_full_read :
    (exampleApp.runOk overshootRun ∧
      ((exampleApp.history overshootRun).all Record.confirmInStorage) = true ∧
      isDone exampleOvershoot = true ∧
      getBytesTransferred exampleOvershoot = 13 ∧ getBytesTotal exampleOvershoot = 12 ∧
      exampleOvershoot.ndefFile.isFullyRead = false) ∧
    (exampleApp.runOk skippedByteRun ∧
      ((exampleApp.history skippedByteRun).all Record.confirmInStorage) = true ∧
      isDone exampleSkippedByte = true ∧
      getBytesTransferred exampleSkippedByte = 12 ∧ getBytesTotal exampleSkippedByte = 12 ∧
      exampleSkippedByte.ndefFile.iBytesRead[10]? = some false ∧
      ((exampleApp.history skippedByteRun).getLast?.map (fun r => r.output.signals))
        = some [Signal.doneChanged, Signal.done]) ∧
    (∀ (s : Private) (e : Event), isDone s = true → isDone (s.step e).1 = true) ∧
    (∀ (s : Private) (es : List Event), isDone s = true → isDone (s.run es) = true) ∧
    (∀ (s : Private) (e : Event), isDone s = true →
      e = Event.Start ∨ e = Event.Restart ∨ e = Event.Stop →
      (s.step e).1.ndefFile.iBytesRead = s.ndefFile.iBytesRead ∧
      (s.step e).1.ndefFile.iBytesReadPadding = s.ndefFile.iBytesReadPadding ∧
      getBytesTransferred (s.step e).1 = getBytesTransferred s ∧
      Signal.bytesTransferredChanged ∉ (s.step e).2.signals) := by
  refine ⟨⟨overshootRun_runOk, ?_, ?_, ?_, ?_, ?_⟩,
    ⟨skippedByteRun_runOk, ?_, ?_, ?_, ?_, ?_, ?_⟩,
    fun s e h => step_iDone_mono s e h, fun s es h => run_iDone_mono s es h, ?_⟩
  · decide
  · decide
  · decide
  · decide
  · decide
  · decide
  · decide
  · decide
  · decide
  · decide
  · decide
  · intro s e hd he
    have hd1 : s.iDone = true := hd
    have hg : ¬ (s.iDone = false ∧ s.ndefFile.isFullyRead = false ∧
        s.ndefFile.bytesRead ≠ 0) := by
      rintro ⟨h, _⟩
      rw [hd1] at h
      cases h
    have hmd := mayBeDone_spec s
    have hkeep := mayBeReset_keep s hg
    have hkeep2 := mayBeReset_keep s.mayBeDone.1 (mayBeDone_keep_guard s hg)
    have hsig : Signal.bytesTransferredChanged ∉ s.mayBeDone.2 := by
      unfold Private.mayBeDone
      split
      · split
        · show Signal.bytesTransferredChanged ∉ [Signal.doneChanged, Signal.done]
          decide
        · show Signal.bytesTransferredChanged ∉ [Signal.done]
          decide
      · show Signal.bytesTransferredChanged ∉ ([] : List Signal)
        decide
    rcases he with he | he | he
    · subst he
      show s.mayBeReset.1.ndefFile.iBytesRead = _ ∧
        s.mayBeReset.1.ndefFile.iBytesReadPadding = _ ∧
        getBytesTransferred s.mayBeReset.1 = _ ∧
        Signal.bytesTransferredChanged ∉ s.mayBeReset.2
      rw [hkeep]
      exact ⟨rfl, rfl, rfl, by simp⟩
    · subst he
      show s.mayBeDone.1.mayBeReset.1.ndefFile.iBytesRead = _ ∧
        s.mayBeDone.1.mayBeReset.1.ndefFile.iBytesReadPadding = _ ∧
        getBytesTransferred s.mayBeDone.1.mayBeReset.1 = _ ∧
        Signal.bytesTransferredChanged ∉ s.mayBeDone.2 ++ s.mayBeDone.1.mayBeReset.2
      rw [hkeep2]
      unfold getBytesTransferred
      rw [hmd.1]
      refine ⟨rfl, rfl, rfl, ?_⟩
      simpa using hsig
    · subst he
      show s.mayBeDone.1.mayBeReset.1.ndefFile.iBytesRead = _ ∧
        s.mayBeDone.1.mayBeReset.1.ndefFile.iBytesReadPadding = _ ∧
        getBytesTransferred s.mayBeDone.1.mayBeReset.1 = _ ∧
        Signal.bytesTransferredChanged ∉ s.mayBeDone.2 ++ s.mayBeDone.1.mayBeReset.2
      rw [hkeep2]
      unfold getBytesTransferred
      rw [hmd.1]
      refine ⟨rfl, rfl, rfl, ?_⟩
      simpa using hsig

/-! ## A read of the Capability Container -/

theorem construct_not_too_much (d : QByteArray) (n lastId : Nat) (registered : Bool)
    (hn : n ≤ 0xFFFC) :
    (Private.construct d n lastId registered).1 =
      { iFiles := [(cc_ef, File.mk3 "CC" cc_ef (ccFileData n)),
                   ([0xe1, 0x04], File.mk3 "NDEF" cc_ef (ndefFileData d n))],
        iNdefFile := [0xe1, 0x04], iSelectedFile := Option.none,
        iLastReadId := 0, iDone := false, iRegisteredApp := false,
        iRegisteredModeId := 0, iRegisteredTechsId := 0, iReady := false,
        iRegisteredObject := registered, lastId := lastId,
        watchers := [Watcher.onRegisterLocalHostAppFinished] } ∧
    (Private.construct d n lastId registered).2.calls =
      [DBusCall.RegisterLocalHostApp APP_PATH "NfcShare" aid 0x01] := by
  have hlen : (ndefFileData d n).length % UINT_RANGE ≠ 0 := by
    have h1 : n ≤ MAX_NDEF_MESSAGE_SIZE := hn
    unfold ndefFileData
    rw [if_pos h1]
    simp only [List.length_append, List.length_cons, List.length_nil, List.length_take]
    unfold UINT_RANGE
    omega
  unfold Private.construct
  simp only []
  split
  · exact ⟨rfl, rfl⟩
  · rename_i h
    exfalso
    apply h
    show ((ndefFileData d n).length % UINT_RANGE == 0) = false
    simpa using hlen

theorem mk3_bytesRead (name : String) (fid d : QByteArray) :
    (File.mk3 name fid d).bytesRead = 0 := by
  have h1 : (List.replicate d.length false).count true = 0 := by
    rw [List.count_eq_zero]
    intro h
    exact absurd (List.eq_of_mem_replicate h) (by decide)
  have h2 : ((List.replicate (QBitArray.padding d.length) false).take
      (QBitArray.padding (List.replicate d.length false).length)).count true = 0 := by
    rw [List.count_eq_zero]
    intro h
    exact absurd (List.eq_of_mem_replicate (List.mem_of_mem_take h)) (by decide)
  unfold File.bytesRead QBitArray.countStorage File.mk3
  simp only []
  rw [h1, h2]
  rfl

theorem read_confirm_whole_cc (f : File) (hlen : f.iData.length = 15)
    (hbits : f.iBytesRead = List.replicate 15 false)
    (hpad : f.iBytesReadPadding = List.replicate 1 false) :
    (f.read (((0 <<< 8) % UINT_RANGE) ||| 0) 15).2 = f.iData ∧
    (f.read (((0 <<< 8) % UINT_RANGE) ||| 0) 15).1.confirmRead.bytesRead = 15 := by
  constructor
  · rw [read_slice f (by omega) _ 15 (by decide)]
    have hsz : f.size = 15 := by unfold File.size; rw [hlen]; rfl
    rw [hsz]
    show List.take 15 (List.drop 0 f.iData) = f.iData
    rw [List.drop_zero, List.take_of_length_le (by omega)]
  · unfold File.read File.confirmRead File.bytesRead
    simp only [hlen, hbits, hpad]
    decide

theorem select_ok (s : Private) (fid : QByteArray) (hc : FileMap.contains s.iFiles fid = true) :
    s.select 0x00 0x0C fid =
      ({ s with iSelectedFile := some fid, lastId := Response.nextId s.lastId },
       { iSw := (0x90, 0x00), iData := [], iResponseId := Response.nextId s.lastId }) := by
  unfold Private.select
  have h : (0x00 : Nat) = ISO_P1_SELECT_BY_ID ∧
      (0x0C : Nat) = (ISO_P2_SELECT_FILE_FIRST ||| ISO_P2_RESPONSE_NONE) ∧
      FileMap.contains s.iFiles fid = true := ⟨rfl, by decide, hc⟩
  rw [if_pos h]
  rfl

theorem read_cc_scenario (s : Private) (cc nd : File)
    (hfiles : s.iFiles = [(cc_ef, cc), ([0xe1, 0x04], nd)])
    (hndef : s.iNdefFile = [0xe1, 0x04])
    (hcc : cc.iData.length = 15) (hbits : cc.iBytesRead = List.replicate 15 false)
    (hpad : cc.iBytesReadPadding = List.replicate 1 false)
    (hnd : nd.bytesRead = 0) :
    (s.Process 0x00 0xA4 0x00 0x0C [0xE1, 0x03] 0).2.response.map Response.iSw
      = some (0x90, 0x00) ∧
    ∃ resp : Response,
      ((s.run [selectCc]).Process 0x00 0xB0 0 0 [] 15).2.response = some resp ∧
      resp.iSw = (0x90, 0x00) ∧
      resp.iData = cc.iData ∧
      (FileMap.value
        (((s.run [selectCc, readBinaryAt 0 0 15]).ResponseStatus resp.iResponseId true).1.iFiles)
        [0xE1, 0x03]).bytesRead = 15 ∧
      getBytesTransferred
        ((s.run [selectCc, readBinaryAt 0 0 15]).ResponseStatus resp.iResponseId true).1 = 0 ∧
      ((s.run [selectCc, readBinaryAt 0 0 15]).ResponseStatus resp.iResponseId true).2.signals
        = [] := by
  have hrc := read_confirm_whole_cc cc hcc hbits hpad
  have hcon : FileMap.contains s.iFiles [0xE1, 0x03] = true := by rw [hfiles]; rfl
  have hsel := select_ok s [0xE1, 0x03] hcon
  have hP1 : s.Process 0x00 0xA4 0x00 0x0C [0xE1, 0x03] 0 =
      ((s.select 0x00 0x0C [0xE1, 0x03]).1,
       { response := some (s.select 0x00 0x0C [0xE1, 0x03]).2, signals := [], calls := [] }) :=
    Process_select s 0x00 0x0C [0xE1, 0x03] 0
  -- the state after SELECT
  obtain ⟨s1, hs1⟩ : ∃ s1 : Private, s1 = s.run [selectCc] := ⟨_, rfl⟩
  have hs1' : s1 = { s with iSelectedFile := some [0xE1, 0x03],
                            lastId := Response.nextId s.lastId } := by
    rw [hs1]
    show (s.Process 0x00 0xA4 0x00 0x0C [0xE1, 0x03] 0).1 = _
    rw [hP1, hsel]
  have f1 : s1.iFiles = [(cc_ef, cc), ([0xe1, 0x04], nd)] := by rw [hs1']; exact hfiles
  have k1 : s1.iSelectedFile = some [0xE1, 0x03] := by rw [hs1']
  have n1 : s1.iNdefFile = [0xe1, 0x04] := by rw [hs1']; exact hndef
  have v1 : FileMap.value s1.iFiles [0xE1, 0x03] = cc := by rw [f1]; rfl
  -- the state after READ BINARY
  have hrb := readBinary_ok s1 [0xE1, 0x03] k1 0 0 15 (by decide)
  rw [v1] at hrb
  have hP2 := Process_readBinary s1 0 0 [] 15
  obtain ⟨s2, hs2⟩ : ∃ s2 : Private, s2 = s.run [selectCc, readBinaryAt 0 0 15] := ⟨_, rfl⟩
  have hs2' : s2 =
      { s1 with
        iFiles := FileMap.modify s1.iFiles [0xE1, 0x03]
          (fun _ => (cc.read (((0 <<< 8) % UINT_RANGE) ||| 0) 15).1),
        lastId := Response.nextId s1.lastId,
        iLastReadId := Response.nextId s1.lastId } := by
    rw [hs2]
    show ((s.run [selectCc]).Process 0x00 0xB0 0 0 [] 15).1 = _
    rw [← hs1, hP2, hrb]
    rfl
  have f2 : s2.iFiles =
      [(cc_ef, (cc.read (((0 <<< 8) % UINT_RANGE) ||| 0) 15).1), ([0xe1, 0x04], nd)] := by
    rw [hs2']
    show FileMap.modify s1.iFiles [0xE1, 0x03]
      (fun _ => (cc.read (((0 <<< 8) % UINT_RANGE) ||| 0) 15).1) = _
    rw [f1]
    rfl
  have k2 : s2.iSelectedFile = some [0xE1, 0x03] := by rw [hs2']; exact k1
  have n2 : s2.iNdefFile = [0xe1, 0x04] := by rw [hs2']; exact n1
  have i2 : s2.iLastReadId = Response.nextId s1.lastId := by rw [hs2']
  -- the acknowledgement
  have hack := ResponseStatus_confirm s2 [0xE1, 0x03] k2
  have f3 : FileMap.modify s2.iFiles [0xE1, 0x03] File.confirmRead =
      [(cc_ef, (cc.read (((0 <<< 8) % UINT_RANGE) ||| 0) 15).1.confirmRead),
       ([0xe1, 0x04], nd)] := by
    rw [f2]; rfl
  have nd2 : s2.ndefFile = nd := by
    unfold Private.ndefFile
    rw [f2, n2]; rfl
  have nd3 : ({ s2 with iFiles := FileMap.modify s2.iFiles [0xE1, 0x03] File.confirmRead }
      : Private).ndefFile = nd := by
    show FileMap.value (FileMap.modify s2.iFiles [0xE1, 0x03] File.confirmRead) s2.iNdefFile = nd
    rw [f3, n2]; rfl
  rw [nd3, nd2] at hack
  have hsig : ¬ (nd.bytesRead > nd.bytesRead) := Nat.lt_irrefl _
  rw [if_neg hsig] at hack
  refine ⟨by rw [hP1, hsel]; rfl,
    { iSw := (0x90, 0x00),
      iData := (cc.read (((0 <<< 8) % UINT_RANGE) ||| 0) 15).2,
      iResponseId := Response.nextId s1.lastId }, ?_, rfl, hrc.1, ?_, ?_, ?_⟩
  · rw [← hs1, hP2, hrb]
  · rw [← hs2]
    show (FileMap.value (s2.ResponseStatus (Response.nextId s1.lastId) true).1.iFiles
      [0xE1, 0x03]).bytesRead = 15
    rw [← i2, hack]
    show (FileMap.value (FileMap.modify s2.iFiles [0xE1, 0x03] File.confirmRead)
      [0xE1, 0x03]).bytesRead = 15
    rw [f3]
    exact hrc.2
  · rw [← hs2]
    show getBytesTransferred (s2.ResponseStatus (Response.nextId s1.lastId) true).1 = 0
    rw [← i2, hack]
    show (FileMap.value (FileMap.modify s2.iFiles [0xE1, 0x03] File.confirmRead)
      s2.iNdefFile).bytesRead = 0
    rw [f3, n2]
    exact hnd
  · rw [← hs2]
    show (s2.ResponseStatus (Response.nextId s1.lastId) true).2.signals = []
    rw [← i2, hack]
    rfl

/-- C25: for every engine freshly constructed with a message of size
`n ≤ 0xFFFC`: SELECT with the data `E1 03` is answered with status 9000; a
following READ BINARY with `P1 = P2 = 0` and `Le = 15` is answered with
status 9000 and exactly the 15 bytes of the Capability Container; and the
following successful acknowledgement of the id of that response makes
`bytesRead()` of the Capability Container 15, while the progress of the NDEF
file (`getBytesTransferred`) stays 0 and no signal is emitted. -/
theorem C25_read_capability_container (d : QByteArray) (n lastId : Nat) (registered : Bool)
    (hn : n ≤ 0xFFFC) :
    ((Private.construct d n lastId registered).1.Process
        0x00 0xA4 0x00 0x0C [0xE1, 0x03] 0).2.response.map Response.iSw = some (0x90, 0x00) ∧
    ∃ resp : Response,
      (((Private.construct d n lastId registered).1.run [selectCc]).Process
        0x00 0xB0 0 0 [] 15).2.response = some resp ∧
      resp.iSw = (0x90, 0x00) ∧
      resp.iData = (FileMap.value (Private.construct d n lastId registered).1.iFiles
        [0xE1, 0x03]).iData ∧
      resp.iData =
        [0x00, 0x0F, 0x20, 0xFF, 0xFF, 0xFF, 0xFF, 0x04, 0x06, 0xE1, 0x04,
         (n + 2) / 256, (n + 2) % 256, 0x00, 0xFF] ∧
      resp.iData.length = 15 ∧
      (FileMap.value
        ((((Private.construct d n lastId registered).1.run
            [selectCc, readBinaryAt 0 0 15]).ResponseStatus resp.iResponseId true).1.iFiles)
        [0xE1, 0x03]).bytesRead = 15 ∧
      getBytesTransferred
        (((Private.construct d n lastId registered).1.run
            [selectCc, readBinaryAt 0 0 15]).ResponseStatus resp.iResponseId true).1 = 0 ∧
      ((((Private.construct d n lastId registered).1.run
            [selectCc, readBinaryAt 0 0 15]).ResponseStatus resp.iResponseId true).2.signals
        = []) := by
  have hnd : (File.mk3 "NDEF" cc_ef (ndefFileData d n)).bytesRead = 0 := mk3_bytesRead _ _ _
  obtain ⟨h1, resp, h2, h3, h4, h5, h6, h7⟩ :=
    read_cc_scenario (Private.construct d n lastId registered).1
      (File.mk3 "CC" cc_ef (ccFileData n)) (File.mk3 "NDEF" cc_ef (ndefFileData d n))
      (construct_iFiles d n lastId registered) (construct_fields d n lastId registered).1
      (ccFileData_length n)
      (by show List.replicate (ccFileData n).length false = _; rw [ccFileData_length])
      (by
        show List.replicate (QBitArray.padding (ccFileData n).length) false = _
        rw [ccFileData_length]
        rfl)
      hnd
  have h4' : resp.iData = ccFileData n := h4
  refine ⟨h1, resp, h2, h3, ?_, ?_, ?_, h5, h6, h7⟩
  · rw [construct_iFiles]
    exact h4
  · rw [h4']
    exact ccFileData_of_le n hn
  · rw [h4']
    exact ccFileData_length n

theorem C25_read_capability_container_witness :
    (10 : Nat) ≤ 0xFFFC ∧
    (exampleApp.Process 0x00 0xA4 0x00 0x0C [0xE1, 0x03] 0).2.response.map Response.iSw
      = some (0x90, 0x00) ∧
    ∃ resp : Response,
      ((exampleApp.run [selectCc]).Process 0x00 0xB0 0 0 [] 15).2.response = some resp ∧
      resp.iData =
        [0x00, 0x0F, 0x20, 0xFF, 0xFF, 0xFF, 0xFF, 0x04, 0x06, 0xE1, 0x04,
         0x00, 0x0C, 0x00, 0xFF] ∧
      (FileMap.value
        (((exampleApp.run [selectCc, readBinaryAt 0 0 15]).ResponseStatus
          resp.iResponseId true).1.iFiles) [0xE1, 0x03]).bytesRead = 15 ∧
      getBytesTransferred
        ((exampleApp.run [selectCc, readBinaryAt 0 0 15]).ResponseStatus
          resp.iResponseId true).1 = 0 :=
  ⟨by decide, (C25_read_capability_container exampleMessage 10 0 true (by decide)).1,
   (C25_read_capability_container exampleMessage 10 0 true (by decide)).2.elim
     (fun resp h => ⟨resp, h.1, h.2.2.2.1, h.2.2.2.2.2.1, h.2.2.2.2.2.2.1⟩)⟩

/-! ## The registration handshake -/

theorem step_frame (s : Private) (e : Event) (he : e.isReply = false) :
    (s.step e).1.watchers = s.watchers ∧
    (s.step e).1.iRegisteredApp = s.iRegisteredApp ∧
    (s.step e).1.iRegisteredModeId = s.iRegisteredModeId ∧
    (s.step e).1.iRegisteredTechsId = s.iRegisteredTechsId ∧
    (s.step e).1.iReady = s.iReady ∧
    (s.step e).2.calls = [] := by
  cases e with
  | Process cla ins p1 p2 d le =>
    simp only [Private.step, Private.Process]
    split
    · split
      · unfold Private.select
        split <;> exact ⟨rfl, rfl, rfl, rfl, rfl, trivial⟩
      · split
        · unfold Private.readBinary
          split <;> exact ⟨rfl, rfl, rfl, rfl, rfl, trivial⟩
        · exact ⟨rfl, rfl, rfl, rfl, rfl, trivial⟩
    · exact ⟨rfl, rfl, rfl, rfl, rfl, trivial⟩
  | ResponseStatus id ok =>
    simp only [Private.step, Private.ResponseStatus]
    split <;> exact ⟨rfl, rfl, rfl, rfl, rfl, rfl⟩
  | Start =>
    simp only [Private.step, Private.Start, Private.mayBeReset]
    split <;> exact ⟨rfl, rfl, rfl, rfl, rfl, rfl⟩
  | Restart =>
    simp only [Private.step, Private.Restart, Private.mayBeReset, Private.mayBeDone]
    split <;> split <;> (try split) <;> exact ⟨rfl, rfl, rfl, rfl, rfl, rfl⟩
  | Stop =>
    simp only [Private.step, Private.Stop, Private.mayBeReset, Private.mayBeDone]
    split <;> split <;> (try split) <;> exact ⟨rfl, rfl, rfl, rfl, rfl, rfl⟩
  | ImplicitSelect => exact ⟨rfl, rfl, rfl, rfl, rfl, rfl⟩
  | Select => exact ⟨rfl, rfl, rfl, rfl, rfl, rfl⟩
  | Deselect => exact ⟨rfl, rfl, rfl, rfl, rfl, rfl⟩
  | RegisterLocalHostAppFinished valid => cases he
  | RequestModeFinished reply => cases he
  | RequestTechsFinished reply => cases he

theorem step_register_true (s : Private) :
    (s.step (Event.RegisterLocalHostAppFinished true)).1.watchers =
      s.watchers.erase Watcher.onRegisterLocalHostAppFinished ++ [Watcher.onRequestModeFinished] ∧
    (s.step (Event.RegisterLocalHostAppFinished true)).1.iRegisteredApp = true ∧
    (s.step (Event.RegisterLocalHostAppFinished true)).1.iRegisteredModeId
      = s.iRegisteredModeId ∧
    (s.step (Event.RegisterLocalHostAppFinished true)).1.iRegisteredTechsId
      = s.iRegisteredTechsId ∧
    (s.step (Event.RegisterLocalHostAppFinished true)).1.iReady = s.iReady ∧
    (s.step (Event.RegisterLocalHostAppFinished true)).2.calls
      = [DBusCall.RequestMode 0x08 0x02] :=
  ⟨rfl, rfl, rfl, rfl, rfl, rfl⟩

theorem step_register_false (s : Private) :
    (s.step (Event.RegisterLocalHostAppFinished false)).1.watchers =
      s.watchers.erase Watcher.onRegisterLocalHostAppFinished ∧
    (s.step (Event.RegisterLocalHostAppFinished false)).1.iRegisteredApp = s.iRegisteredApp ∧
    (s.step (Event.RegisterLocalHostAppFinished false)).1.iRegisteredModeId
      = s.iRegisteredModeId ∧
    (s.step (Event.RegisterLocalHostAppFinished false)).1.iRegisteredTechsId
      = s.iRegisteredTechsId ∧
    (s.step (Event.RegisterLocalHostAppFinished false)).1.iReady = s.iReady ∧
    (s.step (Event.RegisterLocalHostAppFinished false)).2.calls = [] :=
  ⟨rfl, rfl, rfl, rfl, rfl, rfl⟩

theorem step_mode_some (s : Private) (v : Nat) :
    (s.step (Event.RequestModeFinished (some v))).1.watchers =
      s.watchers.erase Watcher.onRequestModeFinished ++ [Watcher.onRequestTechsFinished] ∧
    (s.step (Event.RequestModeFinished (some v))).1.iRegisteredApp = s.iRegisteredApp ∧
    (s.step (Event.RequestModeFinished (some v))).1.iRegisteredModeId = v ∧
    (s.step (Event.RequestModeFinished (some v))).1.iRegisteredTechsId
      = s.iRegisteredTechsId ∧
    (s.step (Event.RequestModeFinished (some v))).1.iReady = s.iReady ∧
    (s.step (Event.RequestModeFinished (some v))).2.calls
      = [DBusCall.RequestTechs 0x01 0xFFFFFFFE] :=
  ⟨rfl, rfl, rfl, rfl, rfl, rfl⟩

theorem step_mode_none (s : Private) :
    (s.step (Event.RequestModeFinished none)).1.watchers =
      s.watchers.erase Watcher.onRequestModeFinished ∧
    (s.step (Event.RequestModeFinished none)).1.iRegisteredApp = s.iRegisteredApp ∧
    (s.step (Event.RequestModeFinished none)).1.iRegisteredModeId = s.iRegisteredModeId ∧
    (s.step (Event.RequestModeFinished none)).1.iRegisteredTechsId = s.iRegisteredTechsId ∧
    (s.step (Event.RequestModeFinished none)).1.iReady = s.iReady ∧
    (s.step (Event.RequestModeFinished none)).2.calls = [] :=
  ⟨rfl, rfl, rfl, rfl, rfl, rfl⟩

theorem step_techs_some (s : Private) (v : Nat) :
    (s.step (Event.RequestTechsFinished (some v))).1.watchers =
      s.watchers.erase Watcher.onRequestTechsFinished ∧
    (s.step (Event.RequestTechsFinished (some v))).1.iRegisteredApp = s.iRegisteredApp ∧
    (s.step (Event.RequestTechsFinished (some v))).1.iRegisteredModeId
      = s.iRegisteredModeId ∧
    (s.step (Event.RequestTechsFinished (some v))).1.iRegisteredTechsId = v ∧
    (s.step (Event.RequestTechsFinished (some v))).1.iReady = true ∧
    (s.step (Event.RequestTechsFinished (some v))).2.calls = [] ∧
    (s.step (Event.RequestTechsFinished (some v))).2.signals = [Signal.readyChanged] :=
  ⟨rfl, rfl, rfl, rfl, rfl, rfl, rfl⟩

theorem step_techs_none (s : Private) :
    (s.step (Event.RequestTechsFinished none)).1.watchers =
      s.watchers.erase Watcher.onRequestTechsFinished ∧
    (s.step (Event.RequestTechsFinished none)).1.iRegisteredApp = s.iRegisteredApp ∧
    (s.step (Event.RequestTechsFinished none)).1.iRegisteredModeId = s.iRegisteredModeId ∧
    (s.step (Event.RequestTechsFinished none)).1.iRegisteredTechsId = s.iRegisteredTechsId ∧
    (s.step (Event.RequestTechsFinished none)).1.iReady = s.iReady ∧
    (s.step (Event.RequestTechsFinished none)).2.calls = [] :=
  ⟨rfl, rfl, rfl, rfl, rfl, rfl⟩

theorem not_ok_of_no_watchers {s : Private} {e : Event} (hw : s.watchers = [])
    (he : e.isReply = true) : ¬ e.Ok s := by
  intro hok
  cases e with
  | RegisterLocalHostAppFinished valid =>
    have hmem : Watcher.onRegisterLocalHostAppFinished ∈ s.watchers := hok
    rw [hw] at hmem
    cases hmem
  | RequestModeFinished reply =>
    have hmem : Watcher.onRequestModeFinished ∈ s.watchers := hok.1
    rw [hw] at hmem
    cases hmem
  | RequestTechsFinished reply =>
    have hmem : Watcher.onRequestTechsFinished ∈ s.watchers := hok.1
    rw [hw] at hmem
    cases hmem
  | Process cla ins p1 p2 d le => cases he
  | ResponseStatus id ok => cases he
  | Start => cases he
  | Restart => cases he
  | Stop => cases he
  | ImplicitSelect => cases he
  | Select => cases he
  | Deselect => cases he

theorem run_dead (s : Private) (es : List Event) (hok : s.runOk es) (hw : s.watchers = []) :
    (s.run es).iRegisteredApp = s.iRegisteredApp ∧
    (s.run es).iRegisteredModeId = s.iRegisteredModeId ∧
    (s.run es).iRegisteredTechsId = s.iRegisteredTechsId ∧
    (s.run es).iReady = s.iReady ∧
    (∀ e ∈ es, e.isReply = false) := by
  induction es generalizing s with
  | nil => exact ⟨rfl, rfl, rfl, rfl, fun e he => by cases he⟩
  | cons e es ih =>
    have he : e.isReply = false := by
      cases h : e.isReply
      · rfl
      · exact absurd hok.1 (not_ok_of_no_watchers hw h)
    obtain ⟨f1, f2, f3, f4, f5, _⟩ := step_frame s e he
    obtain ⟨g2, g3, g4, g5, g6⟩ := ih (s.step e).1 hok.2 (f1.trans hw)
    refine ⟨g2.trans f2, g3.trans f3, g4.trans f4, g5.trans f5, ?_⟩
    intro x hx
    rcases List.mem_cons.1 hx with hx | hx
    · rw [hx]; exact he
    · exact g6 x hx

theorem run_awaiting_techs (s : Private) (es : List Event) (hok : s.runOk es)
    (hw : s.watchers = [Watcher.onRequestTechsFinished])
    (ht : s.iRegisteredTechsId = 0) (hr : s.iReady = false) :
    (s.run es).iRegisteredApp = s.iRegisteredApp ∧
    (s.run es).iRegisteredModeId = s.iRegisteredModeId ∧
    (∀ e ∈ es, e.isReply = true → ∃ r, e = Event.RequestTechsFinished r) ∧
    (∀ t, Event.RequestTechsFinished (some t) ∈ es → (s.run es).iRegisteredTechsId = t) ∧
    ((s.run es).iRegisteredTechsId ≠ 0 →
      Event.RequestTechsFinished (some (s.run es).iRegisteredTechsId) ∈ es) ∧
    ((s.run es).iReady = true →
      ∃ (k t : Nat), es[k]? = some (Event.RequestTechsFinished (some t))) := by
  induction es generalizing s with
  | nil =>
    refine ⟨rfl, rfl, fun e he => absurd he (List.not_mem_nil _),
      fun t h => absurd h (List.not_mem_nil _), ?_, ?_⟩
    · intro h; exact absurd ht h
    · intro h
      have h1 : s.iReady = true := h
      rw [hr] at h1; cases h1
  | cons e es ih =>
    cases hrep : e.isReply with
    | false =>
      obtain ⟨f1, f2, f3, f4, f5, _⟩ := step_frame s e hrep
      obtain ⟨a1, a2, a3, a4, a5, a6⟩ :=
        ih (s.step e).1 hok.2 (f1.trans hw) (f4.trans ht) (f5.trans hr)
      refine ⟨a1.trans f2, a2.trans f3, ?_, ?_, ?_, ?_⟩
      · intro x hx hx1
        rcases List.mem_cons.1 hx with hx | hx
        · rw [hx, hrep] at hx1; cases hx1
        · exact a3 x hx hx1
      · intro t hx
        rcases List.mem_cons.1 hx with hx | hx
        · rw [← hx] at hrep; cases hrep
        · exact a4 t hx
      · intro h
        exact List.mem_cons_of_mem _ (a5 h)
      · intro h
        obtain ⟨k, t, hk⟩ := a6 h
        exact ⟨k + 1, t, by rw [List.getElem?_cons_succ]; exact hk⟩
    | true =>
      cases e with
      | RegisterLocalHostAppFinished valid =>
        have hmem : Watcher.onRegisterLocalHostAppFinished ∈ s.watchers := hok.1
        rw [hw] at hmem
        simp at hmem
      | RequestModeFinished reply =>
        have hmem : Watcher.onRequestModeFinished ∈ s.watchers := hok.1.1
        rw [hw] at hmem
        simp at hmem
      | RequestTechsFinished reply =>
        cases reply with
        | none =>
          obtain ⟨f1, f2, f3, f4, f5, _⟩ := step_techs_none s
          have hw1 : (s.step (Event.RequestTechsFinished none)).1.watchers = [] := by
            rw [f1, hw]; decide
          obtain ⟨g1, g2, g3, g4, g5⟩ := run_dead _ es hok.2 hw1
          have hfin : (s.run (Event.RequestTechsFinished none :: es)).iRegisteredTechsId = 0 :=
            (g3.trans f4).trans ht
          refine ⟨g1.trans f2, g2.trans f3, ?_, ?_, ?_, ?_⟩
          · intro x hx hx1
            rcases List.mem_cons.1 hx with hx | hx
            · exact ⟨none, hx⟩
            · rw [g5 x hx] at hx1; cases hx1
          · intro t hx
            rcases List.mem_cons.1 hx with hx | hx
            · cases hx
            · have := g5 _ hx
              cases this
          · intro h
            exact absurd hfin h
          · intro h
            have h1 : (s.run (Event.RequestTechsFinished none :: es)).iReady = false :=
              (g4.trans f5).trans hr
            rw [h1] at h; cases h
        | some v =>
          obtain ⟨f1, f2, f3, f4, f5, _, _⟩ := step_techs_some s v
          have hw1 : (s.step (Event.RequestTechsFinished (some v))).1.watchers = [] := by
            rw [f1, hw]; decide
          obtain ⟨g1, g2, g3, g4, g5⟩ := run_dead _ es hok.2 hw1
          have hfin : (s.run (Event.RequestTechsFinished (some v) :: es)).iRegisteredTechsId
              = v := g3.trans f4
          refine ⟨g1.trans f2, g2.trans f3, ?_, ?_, ?_, ?_⟩
          · intro x hx hx1
            rcases List.mem_cons.1 hx with hx | hx
            · exact ⟨some v, hx⟩
            · rw [g5 x hx] at hx1; cases hx1
          · intro t hx
            rcases List.mem_cons.1 hx with hx | hx
            · cases hx
              exact hfin
            · have := g5 _ hx
              cases this
          · intro _
            rw [hfin]
            exact List.mem_cons_self _ _
          · intro _
            exact ⟨0, v, List.getElem?_cons_zero⟩
      | Process cla ins p1 p2 d le => cases hrep
      | ResponseStatus id ok => cases hrep
      | Start => cases hrep
      | Restart => cases hrep
      | Stop => cases hrep
      | ImplicitSelect => cases hrep
      | Select => cases hrep
      | Deselect => cases hrep

theorem run_awaiting_mode (s : Private) (es : List Event) (hok : s.runOk es)
    (hw : s.watchers = [Watcher.onRequestModeFinished])
    (hm : s.iRegisteredModeId = 0) (ht : s.iRegisteredTechsId = 0) (hr : s.iReady = false) :
    (s.run es).iRegisteredApp = s.iRegisteredApp ∧
    (∀ e ∈ es, e.isReply = true →
      (∃ r, e = Event.RequestModeFinished r) ∨ (∃ r, e = Event.RequestTechsFinished r)) ∧
    (∀ m, Event.RequestModeFinished (some m) ∈ es → (s.run es).iRegisteredModeId = m) ∧
    ((s.run es).iRegisteredModeId ≠ 0 →
      Event.RequestModeFinished (some (s.run es).iRegisteredModeId) ∈ es) ∧
    (∀ t, Event.RequestTechsFinished (some t) ∈ es → (s.run es).iRegisteredTechsId = t) ∧
    ((s.run es).iRegisteredTechsId ≠ 0 →
      Event.RequestTechsFinished (some (s.run es).iRegisteredTechsId) ∈ es) ∧
    ((s.run es).iReady = true →
      ∃ (j k m t : Nat), j < k ∧ es[j]? = some (Event.RequestModeFinished (some m)) ∧
        es[k]? = some (Event.RequestTechsFinished (some t))) := by
  induction es generalizing s with
  | nil =>
    refine ⟨rfl, fun e he => absurd he (List.not_mem_nil _),
      fun t h => absurd h (List.not_mem_nil _), fun h => absurd hm h,
      fun t h => absurd h (List.not_mem_nil _), fun h => absurd ht h, ?_⟩
    intro h
    have h1 : s.iReady = true := h
    rw [hr] at h1; cases h1
  | cons e es ih =>
    cases hrep : e.isReply with
    | false =>
      obtain ⟨f1, f2, f3, f4, f5, _⟩ := step_frame s e hrep
      obtain ⟨a1, a2, a3, a4, a5, a6, a7⟩ :=
        ih (s.step e).1 hok.2 (f1.trans hw) (f3.trans hm) (f4.trans ht) (f5.trans hr)
      refine ⟨a1.trans f2, ?_, ?_, ?_, ?_, ?_, ?_⟩
      · intro x hx hx1
        rcases List.mem_cons.1 hx with hx | hx
        · rw [hx, hrep] at hx1; cases hx1
        · exact a2 x hx hx1
      · intro t hx
        rcases List.mem_cons.1 hx with hx | hx
        · rw [← hx] at hrep; cases hrep
        · exact a3 t hx
      · intro h
        exact List.mem_cons_of_mem _ (a4 h)
      · intro t hx
        rcases List.mem_cons.1 hx with hx | hx
        · rw [← hx] at hrep; cases hrep
        · exact a5 t hx
      · intro h
        exact List.mem_cons_of_mem _ (a6 h)
      · intro h
        obtain ⟨j, k, m, t, hjk, hj, hk⟩ := a7 h
        exact ⟨j + 1, k + 1, m, t, by omega, by rw [List.getElem?_cons_succ]; exact hj,
          by rw [List.getElem?_cons_succ]; exact hk⟩
    | true =>
      cases e with
      | RegisterLocalHostAppFinished valid =>
        have hmem : Watcher.onRegisterLocalHostAppFinished ∈ s.watchers := hok.1
        rw [hw] at hmem
        simp at hmem
      | RequestTechsFinished reply =>
        have hmem : Watcher.onRequestTechsFinished ∈ s.watchers := hok.1.1
        rw [hw] at hmem
        simp at hmem
      | RequestModeFinished reply =>
        cases reply with
        | none =>
          obtain ⟨f1, f2, f3, f4, f5, _⟩ := step_mode_none s
          have hw1 : (s.step (Event.RequestModeFinished none)).1.watchers = [] := by
            rw [f1, hw]; decide
          obtain ⟨g1, g2, g3, g4, g5⟩ := run_dead _ es hok.2 hw1
          have hfm : (s.run (Event.RequestModeFinished none :: es)).iRegisteredModeId = 0 :=
            (g2.trans f3).trans hm
          have hft : (s.run (Event.RequestModeFinished none :: es)).iRegisteredTechsId = 0 :=
            (g3.trans f4).trans ht
          refine ⟨g1.trans f2, ?_, ?_, fun h => absurd hfm h, ?_, fun h => absurd hft h, ?_⟩
          · intro x hx hx1
            rcases List.mem_cons.1 hx with hx | hx
            · exact Or.inl ⟨none, hx⟩
            · rw [g5 x hx] at hx1; cases hx1
          · intro t hx
            rcases List.mem_cons.1 hx with hx | hx
            · cases hx
            · have := g5 _ hx
              cases this
          · intro t hx
            rcases List.mem_cons.1 hx with hx | hx
            · cases hx
            · have := g5 _ hx
              cases this
          · intro h
            have h1 : (s.run (Event.RequestModeFinished none :: es)).iReady = false :=
              (g4.trans f5).trans hr
            rw [h1] at h; cases h
        | some v =>
          obtain ⟨f1, f2, f3, f4, f5, _⟩ := step_mode_some s v
          have hw1 : (s.step (Event.RequestModeFinished (some v))).1.watchers
              = [Watcher.onRequestTechsFinished] := by
            rw [f1, hw]; decide
          obtain ⟨b1, b2, b3, b4, b5, b6⟩ :=
            run_awaiting_techs _ es hok.2 hw1 (f4.trans ht) (f5.trans hr)
          have hfm : (s.run (Event.RequestModeFinished (some v) :: es)).iRegisteredModeId
              = v := b2.trans f3
          refine ⟨b1.trans f2, ?_, ?_, ?_, ?_, ?_, ?_⟩
          · intro x hx hx1
            rcases List.mem_cons.1 hx with hx | hx
            · exact Or.inl ⟨some v, hx⟩
            · exact Or.inr (b3 x hx hx1)
          · intro t hx
            rcases List.mem_cons.1 hx with hx | hx
            · cases hx
              exact hfm
            · obtain ⟨r, h⟩ := b3 _ hx rfl
              cases h
          · intro _
            rw [hfm]
            exact List.mem_cons_self _ _
          · intro t hx
            rcases List.mem_cons.1 hx with hx | hx
            · cases hx
            · exact b4 t hx
          · intro h
            exact List.mem_cons_of_mem _ (b5 h)
          · intro h
            obtain ⟨k, t, hk⟩ := b6 h
            exact ⟨0, k + 1, v, t, by omega, List.getElem?_cons_zero,
              by rw [List.getElem?_cons_succ]; exact hk⟩
      | Process cla ins p1 p2 d le => cases hrep
      | ResponseStatus id ok => cases hrep
      | Start => cases hrep
      | Restart => cases hrep
      | Stop => cases hrep
      | ImplicitSelect => cases hrep
      | Select => cases hrep
      | Deselect => cases hrep

theorem run_awaiting_register (s : Private) (es : List Event) (hok : s.runOk es)
    (hw : s.watchers = [Watcher.onRegisterLocalHostAppFinished])
    (ha : s.iRegisteredApp = false)
    (hm : s.iRegisteredModeId = 0) (ht : s.iRegisteredTechsId = 0) (hr : s.iReady = false) :
    ((s.run es).iRegisteredApp = true ↔ Event.RegisterLocalHostAppFinished true ∈ es) ∧
    (∀ m, Event.RequestModeFinished (some m) ∈ es → (s.run es).iRegisteredModeId = m) ∧
    ((s.run es).iRegisteredModeId ≠ 0 →
      Event.RequestModeFinished (some (s.run es).iRegisteredModeId) ∈ es) ∧
    (∀ t, Event.RequestTechsFinished (some t) ∈ es → (s.run es).iRegisteredTechsId = t) ∧
    ((s.run es).iRegisteredTechsId ≠ 0 →
      Event.RequestTechsFinished (some (s.run es).iRegisteredTechsId) ∈ es) ∧
    ((s.run es).iReady = true →
      (s.run es).iRegisteredApp = true ∧
      ∃ (i j k m t : Nat), i < j ∧ j < k ∧
        es[i]? = some (Event.RegisterLocalHostAppFinished true) ∧
        es[j]? = some (Event.RequestModeFinished (some m)) ∧
        es[k]? = some (Event.RequestTechsFinished (some t))) := by
  induction es generalizing s with
  | nil =>
    refine ⟨?_, fun t h => absurd h (List.not_mem_nil _), fun h => absurd hm h,
      fun t h => absurd h (List.not_mem_nil _), fun h => absurd ht h, ?_⟩
    · constructor
      · intro h
        have h1 : s.iRegisteredApp = true := h
        rw [ha] at h1; cases h1
      · intro h
        exact absurd h (List.not_mem_nil _)
    · intro h
      have h1 : s.iReady = true := h
      rw [hr] at h1; cases h1
  | cons e es ih =>
    cases hrep : e.isReply with
    | false =>
      obtain ⟨f1, f2, f3, f4, f5, _⟩ := step_frame s e hrep
      obtain ⟨a1, a3, a4, a5, a6, a7⟩ :=
        ih (s.step e).1 hok.2 (f1.trans hw) (f2.trans ha) (f3.trans hm) (f4.trans ht)
          (f5.trans hr)
      refine ⟨?_, ?_, ?_, ?_, ?_, ?_⟩
      · constructor
        · intro h
          exact List.mem_cons_of_mem _ (a1.1 h)
        · intro hx
          rcases List.mem_cons.1 hx with hx | hx
          · rw [← hx] at hrep; cases hrep
          · exact a1.2 hx
      · intro t hx
        rcases List.mem_cons.1 hx with hx | hx
        · rw [← hx] at hrep; cases hrep
        · exact a3 t hx
      · intro h
        exact List.mem_cons_of_mem _ (a4 h)
      · intro t hx
        rcases List.mem_cons.1 hx with hx | hx
        · rw [← hx] at hrep; cases hrep
        · exact a5 t hx
      · intro h
        exact List.mem_cons_of_mem _ (a6 h)
      · intro h
        obtain ⟨happ, i, j, k, m, t, hij, hjk, hi, hj, hk⟩ := a7 h
        exact ⟨happ, i + 1, j + 1, k + 1, m, t, by omega, by omega,
          by rw [List.getElem?_cons_succ]; exact hi,
          by rw [List.getElem?_cons_succ]; exact hj,
          by rw [List.getElem?_cons_succ]; exact hk⟩
    | true =>
      cases e with
      | RequestModeFinished reply =>
        have hmem : Watcher.onRequestModeFinished ∈ s.watchers := hok.1.1
        rw [hw] at hmem
        simp at hmem
      | RequestTechsFinished reply =>
        have hmem : Watcher.onRequestTechsFinished ∈ s.watchers := hok.1.1
        rw [hw] at hmem
        simp at hmem
      | RegisterLocalHostAppFinished valid =>
        cases valid with
        | false =>
          obtain ⟨f1, f2, f3, f4, f5, _⟩ := step_register_false s
          have hw1 : (s.step (Event.RegisterLocalHostAppFinished false)).1.watchers = [] := by
            rw [f1, hw]; decide
          obtain ⟨g1, g2, g3, g4, g5⟩ := run_dead _ es hok.2 hw1
          have hfa : (s.run (Event.RegisterLocalHostAppFinished false :: es)).iRegisteredApp
              = false := (g1.trans f2).trans ha
          have hfm : (s.run (Event.RegisterLocalHostAppFinished false :: es)).iRegisteredModeId
              = 0 := (g2.trans f3).trans hm
          have hft : (s.run (Event.RegisterLocalHostAppFinished false :: es)).iRegisteredTechsId
              = 0 := (g3.trans f4).trans ht
          refine ⟨?_, ?_, fun h => absurd hfm h, ?_, fun h => absurd hft h, ?_⟩
          · constructor
            · intro h
              rw [hfa] at h; cases h
            · intro hx
              rcases List.mem_cons.1 hx with hx | hx
              · cases hx
              · have := g5 _ hx
                cases this
          · intro t hx
            rcases List.mem_cons.1 hx with hx | hx
            · cases hx
            · have := g5 _ hx
              cases this
          · intro t hx
            rcases List.mem_cons.1 hx with hx | hx
            · cases hx
            · have := g5 _ hx
              cases this
          · intro h
            have h1 : (s.run (Event.RegisterLocalHostAppFinished false :: es)).iReady
                = false := (g4.trans f5).trans hr
            rw [h1] at h; cases h
        | true =>
          obtain ⟨f1, f2, f3, f4, f5, _⟩ := step_register_true s
          have hw1 : (s.step (Event.RegisterLocalHostAppFinished true)).1.watchers
              = [Watcher.onRequestModeFinished] := by
            rw [f1, hw]; decide
          obtain ⟨b1, b2, b3, b4, b5, b6, b7⟩ :=
            run_awaiting_mode _ es hok.2 hw1 (f3.trans hm) (f4.trans ht) (f5.trans hr)
          have hfa : (s.run (Event.RegisterLocalHostAppFinished true :: es)).iRegisteredApp
              = true := b1.trans f2
          refine ⟨?_, ?_, ?_, ?_, ?_, ?_⟩
          · exact ⟨fun _ => List.mem_cons_self _ _, fun _ => hfa⟩
          · intro t hx
            rcases List.mem_cons.1 hx with hx | hx
            · cases hx
            · exact b3 t hx
          · intro h
            exact List.mem_cons_of_mem _ (b4 h)
          · intro t hx
            rcases List.mem_cons.1 hx with hx | hx
            · cases hx
            · exact b5 t hx
          · intro h
            exact List.mem_cons_of_mem _ (b6 h)
          · intro h
            obtain ⟨j, k, m, t, hjk, hj, hk⟩ := b7 h
            exact ⟨hfa, 0, j + 1, k + 1, m, t, by omega, by omega, List.getElem?_cons_zero,
              by rw [List.getElem?_cons_succ]; exact hj,
              by rw [List.getElem?_cons_succ]; exact hk⟩
      | Process cla ins p1 p2 d le => cases hrep
      | ResponseStatus id ok => cases hrep
      | Start => cases hrep
      | Restart => cases hrep
      | Stop => cases hrep
      | ImplicitSelect => cases hrep
      | Select => cases hrep
      | Deselect => cases hrep

theorem construct_registration (d : QByteArray) (n lastId : Nat) (registered : Bool) :
    (Private.construct d n lastId registered).1.iRegisteredApp = false ∧
    (Private.construct d n lastId registered).1.iRegisteredModeId = 0 ∧
    (Private.construct d n lastId registered).1.iRegisteredTechsId = 0 ∧
    (Private.construct d n lastId registered).1.iReady = false ∧
    ((Private.construct d n lastId registered).1.watchers
        = [Watcher.onRegisterLocalHostAppFinished] ∨
      (Private.construct d n lastId registered).1.watchers = []) := by
  unfold Private.construct
  simp only []
  split
  · exact ⟨rfl, rfl, rfl, rfl, Or.inl rfl⟩
  · exact ⟨rfl, rfl, rfl, rfl, Or.inr rfl⟩

theorem run_registration (d : QByteArray) (n lastId : Nat) (registered : Bool)
    (es : List Event) (hok : (Private.construct d n lastId registered).1.runOk es) :
    (((Private.construct d n lastId registered).1.run es).iRegisteredApp = true ↔
      Event.RegisterLocalHostAppFinished true ∈ es) ∧
    (∀ m, Event.RequestModeFinished (some m) ∈ es →
      ((Private.construct d n lastId registered).1.run es).iRegisteredModeId = m) ∧
    (((Private.construct d n lastId registered).1.run es).iRegisteredModeId ≠ 0 →
      Event.RequestModeFinished
        (some ((Private.construct d n lastId registered).1.run es).iRegisteredModeId) ∈ es) ∧
    (∀ t, Event.RequestTechsFinished (some t) ∈ es →
      ((Private.construct d n lastId registered).1.run es).iRegisteredTechsId = t) ∧
    (((Private.construct d n lastId registered).1.run es).iRegisteredTechsId ≠ 0 →
      Event.RequestTechsFinished
        (some ((Private.construct d n lastId registered).1.run es).iRegisteredTechsId) ∈ es) ∧
    (((Private.construct d n lastId registered).1.run es).iReady = true →
      ((Private.construct d n lastId registered).1.run es).iRegisteredApp = true ∧
      ∃ (i j k m t : Nat), i < j ∧ j < k ∧
        es[i]? = some (Event.RegisterLocalHostAppFinished true) ∧
        es[j]? = some (Event.RequestModeFinished (some m)) ∧
        es[k]? = some (Event.RequestTechsFinished (some t))) := by
  obtain ⟨ha, hm, ht, hr, hw | hw⟩ := construct_registration d n lastId registered
  · exact run_awaiting_register _ es hok hw ha hm ht hr
  · obtain ⟨g1, g2, g3, g4, g5⟩ := run_dead _ es hok hw
    refine ⟨?_, ?_, ?_, ?_, ?_, ?_⟩
    · constructor
      · intro h
        rw [g1, ha] at h; cases h
      · intro hx
        have := g5 _ hx
        cases this
    · intro t hx
      have := g5 _ hx
      cases this
    · intro h
      exact absurd (g2.trans hm) h
    · intro t hx
      have := g5 _ hx
      cases this
    · intro h
      exact absurd (g3.trans ht) h
    · intro h
      rw [g4, hr] at h; cases h

/-! ## The registration handshake -/

theorem run_append (s : Private) (es : List Event) (e : Event) :
    s.run (es ++ [e]) = ((s.run es).step e).1 := by
  induction es generalizing s with
  | nil => rfl
  | cons x es ih => exact ih (s.step x).1

theorem runOk_append (s : Private) (es : List Event) (e : Event) (h : s.runOk es)
    (he : e.Ok (s.run es)) : s.runOk (es ++ [e]) := by
  induction es generalizing s with
  | nil => exact ⟨he, trivial⟩
  | cons x es ih => exact ⟨h.1, ih (s.step x).1 h.2 he⟩

theorem Reachable.exists_run {s : Private} (h : Reachable s) :
    ∃ (d : QByteArray) (n lastId : Nat) (registered : Bool) (es : List Event),
      (Private.construct d n lastId registered).1.runOk es ∧
      s = (Private.construct d n lastId registered).1.run es := by
  induction h with
  | construct d n lastId registered _ _ _ _ => exact ⟨d, n, lastId, registered, [], trivial, rfl⟩
  | step s e _ he ih =>
    obtain ⟨d, n, lastId, registered, es, hok, hs⟩ := ih
    refine ⟨d, n, lastId, registered, es ++ [e], ?_, ?_⟩
    · exact runOk_append _ es e hok (hs ▸ he)
    · rw [run_append, ← hs]

theorem step_call_mode_only (s : Private) (e : Event) (a b : Nat)
    (h : DBusCall.RequestMode a b ∈ (s.step e).2.calls) :
    e = Event.RegisterLocalHostAppFinished true ∧ a = 0x08 ∧ b = 0x02 := by
  cases hrep : e.isReply with
  | false =>
    rw [(step_frame s e hrep).2.2.2.2.2] at h
    exact absurd h (List.not_mem_nil _)
  | true =>
    cases e with
    | RegisterLocalHostAppFinished valid =>
      cases valid with
      | true =>
        rw [(step_register_true s).2.2.2.2.2] at h
        have h1 := List.mem_singleton.1 h
        injection h1 with h2 h3
        exact ⟨rfl, h2, h3⟩
      | false =>
        rw [(step_register_false s).2.2.2.2.2] at h
        exact absurd h (List.not_mem_nil _)
    | RequestModeFinished reply =>
      cases reply with
      | none =>
        rw [(step_mode_none s).2.2.2.2.2] at h
        exact absurd h (List.not_mem_nil _)
      | some v =>
        rw [(step_mode_some s v).2.2.2.2.2] at h
        have h1 := List.mem_singleton.1 h
        cases h1
    | RequestTechsFinished reply =>
      cases reply with
      | none =>
        rw [(step_techs_none s).2.2.2.2.2] at h
        exact absurd h (List.not_mem_nil _)
      | some v =>
        rw [(step_techs_some s v).2.2.2.2.2.1] at h
        exact absurd h (List.not_mem_nil _)
    | Process cla ins p1 p2 d le => cases hrep
    | ResponseStatus id ok => cases hrep
    | Start => cases hrep
    | Restart => cases hrep
    | Stop => cases hrep
    | ImplicitSelect => cases hrep
    | Select => cases hrep
    | Deselect => cases hrep

theorem step_call_techs_only (s : Private) (e : Event) (a b : Nat)
    (h : DBusCall.RequestTechs a b ∈ (s.step e).2.calls) :
    (∃ v, e = Event.RequestModeFinished (some v)) ∧ a = 0x01 ∧ b = 0xFFFFFFFE := by
  cases hrep : e.isReply with
  | false =>
    rw [(step_frame s e hrep).2.2.2.2.2] at h
    exact absurd h (List.not_mem_nil _)
  | true =>
    cases e with
    | RegisterLocalHostAppFinished valid =>
      cases valid with
      | true =>
        rw [(step_register_true s).2.2.2.2.2] at h
        have h1 := List.mem_singleton.1 h
        cases h1
      | false =>
        rw [(step_register_false s).2.2.2.2.2] at h
        exact absurd h (List.not_mem_nil _)
    | RequestModeFinished reply =>
      cases reply with
      | none =>
        rw [(step_mode_none s).2.2.2.2.2] at h
        exact absurd h (List.not_mem_nil _)
      | some v =>
        rw [(step_mode_some s v).2.2.2.2.2] at h
        have h1 := List.mem_singleton.1 h
        injection h1 with h2 h3
        exact ⟨⟨v, rfl⟩, h2, h3⟩
    | RequestTechsFinished reply =>
      cases reply with
      | none =>
        rw [(step_techs_none s).2.2.2.2.2] at h
        exact absurd h (List.not_mem_nil _)
      | some v =>
        rw [(step_techs_some s v).2.2.2.2.2.1] at h
        exact absurd h (List.not_mem_nil _)
    | Process cla ins p1 p2 d le => cases hrep
    | ResponseStatus id ok => cases hrep
    | Start => cases hrep
    | Restart => cases hrep
    | Stop => cases hrep
    | ImplicitSelect => cases hrep
    | Select => cases hrep
    | Deselect => cases hrep

theorem step_ready_only (s : Private) (e : Event) (h0 : s.iReady = false)
    (h : (s.step e).1.iReady = true) : ∃ v, e = Event.RequestTechsFinished (some v) := by
  cases hrep : e.isReply with
  | false =>
    rw [(step_frame s e hrep).2.2.2.2.1, h0] at h
    cases h
  | true =>
    cases e with
    | RegisterLocalHostAppFinished valid =>
      cases valid with
      | true =>
        rw [(step_register_true s).2.2.2.2.1, h0] at h
        cases h
      | false =>
        rw [(step_register_false s).2.2.2.2.1, h0] at h
        cases h
    | RequestModeFinished reply =>
      cases reply with
      | none =>
        rw [(step_mode_none s).2.2.2.2.1, h0] at h
        cases h
      | some v =>
        rw [(step_mode_some s v).2.2.2.2.1, h0] at h
        cases h
    | RequestTechsFinished reply =>
      cases reply with
      | none =>
        rw [(step_techs_none s).2.2.2.2.1, h0] at h
        cases h
      | some v => exact ⟨v, rfl⟩
    | Process cla ins p1 p2 d le => cases hrep
    | ResponseStatus id ok => cases hrep
    | Start => cases hrep
    | Restart => cases hrep
    | Stop => cases hrep
    | ImplicitSelect => cases hrep
    | Select => cases hrep
    | Deselect => cases hrep

theorem step_failed_reply (s : Private) (e : Event)
    (he : e = Event.RegisterLocalHostAppFinished false ∨ e = Event.RequestModeFinished none ∨
      e = Event.RequestTechsFinished none) :
    (s.step e).2.calls = [] ∧ (s.step e).2.signals = [] ∧
    (s.step e).1.iRegisteredApp = s.iRegisteredApp ∧
    (s.step e).1.iRegisteredModeId = s.iRegisteredModeId ∧
    (s.step e).1.iRegisteredTechsId = s.iRegisteredTechsId ∧
    (s.step e).1.iReady = s.iReady := by
  rcases he with he | he | he <;> subst he <;> exact ⟨rfl, rfl, rfl, rfl, rfl, rfl⟩

theorem exampleRegistered_runOk :
    exampleApp.runOk [Event.RegisterLocalHostAppFinished true, Event.RequestModeFinished (some 7),
      Event.RequestTechsFinished (some 9)] := by
  refine ⟨?_, ⟨?_, ?_⟩, ⟨?_, ?_⟩, trivial⟩
  · show Watcher.onRegisterLocalHostAppFinished ∈ exampleApp.watchers
    decide
  · show Watcher.onRequestModeFinished ∈
      (exampleApp.step (Event.RegisterLocalHostAppFinished true)).1.watchers
    decide
  · intro v hv
    cases hv
    unfold UINT_RANGE
    omega
  · show Watcher.onRequestTechsFinished ∈
      ((exampleApp.step (Event.RegisterLocalHostAppFinished true)).1.step
        (Event.RequestModeFinished (some 7))).1.watchers
    decide
  · intro v hv
    cases hv
    unfold UINT_RANGE
    omega

/-- C23: the registration handshake as a step machine over the replies
`RegisterLocalHostAppFinished ok`, `RequestModeFinished reply` and
`RequestTechsFinished reply`. In every state, an event makes the engine issue
`RequestMode(0x08, 0x02)` only if it is a successful register reply, and
`RequestTechs(0x01, 0xFFFFFFFE)` only if it is a successful mode reply, and
`ready` turns true only on a successful techs reply; the successful replies do
issue the next call (the last one sets `ready` and emits `readyChanged`). A
failed reply issues no call, emits no signal and changes none of
`registeredApp`, the two ids and `ready`. Hence in every reachable state
`ready` implies that the application is registered, and every run from the
construction that ends with `ready` holds a successful register reply, then a
successful mode reply, then a successful techs reply; the run of
`exampleRegistered` is such a run. -/
theorem C23_registration_handshake :
    (∀ (s : Private) (e : Event) (a b : Nat),
      DBusCall.RequestMode a b ∈ (s.step e).2.calls →
        e = Event.RegisterLocalHostAppFinished true ∧ a = 0x08 ∧ b = 0x02) ∧
    (∀ (s : Private) (e : Event) (a b : Nat),
      DBusCall.RequestTechs a b ∈ (s.step e).2.calls →
        (∃ v, e = Event.RequestModeFinished (some v)) ∧ a = 0x01 ∧ b = 0xFFFFFFFE) ∧
    (∀ (s : Private) (e : Event), isReady s = false → isReady (s.step e).1 = true →
      ∃ v, e = Event.RequestTechsFinished (some v)) ∧
    (∀ s : Private,
      (s.step (Event.RegisterLocalHostAppFinished true)).2.calls
        = [DBusCall.RequestMode 0x08 0x02] ∧
      (s.step (Event.RegisterLocalHostAppFinished true)).1.iRegisteredApp = true) ∧
    (∀ (s : Private) (v : Nat),
      (s.step (Event.RequestModeFinished (some v))).2.calls
        = [DBusCall.RequestTechs 0x01 0xFFFFFFFE] ∧
      (s.step (Event.RequestModeFinished (some v))).1.iRegisteredModeId = v) ∧
    (∀ (s : Private) (v : Nat),
      (s.step (Event.RequestTechsFinished (some v))).2.calls = [] ∧
      (s.step (Event.RequestTechsFinished (some v))).2.signals = [Signal.readyChanged] ∧
      (s.step (Event.RequestTechsFinished (some v))).1.iRegisteredTechsId = v ∧
      isReady (s.step (Event.RequestTechsFinished (some v))).1 = true) ∧
    (∀ (s : Private) (e : Event),
      (e = Event.RegisterLocalHostAppFinished false ∨ e = Event.RequestModeFinished none ∨
        e = Event.RequestTechsFinished none) →
      (s.step e).2.calls = [] ∧ (s.step e).2.signals = [] ∧
      (s.step e).1.iRegisteredApp = s.iRegisteredApp ∧
      (s.step e).1.iRegisteredModeId = s.iRegisteredModeId ∧
      (s.step e).1.iRegisteredTechsId = s.iRegisteredTechsId ∧
      isReady (s.step e).1 = isReady s) ∧
    (∀ s : Private, Reachable s → isReady s = true → s.iRegisteredApp = true) ∧
    (∀ (d : QByteArray) (n lastId : Nat) (registered : Bool) (es : List Event),
      (Private.construct d n lastId registered).1.runOk es →
      isReady ((Private.construct d n lastId registered).1.run es) = true →
      ∃ (i j k m t : Nat), i < j ∧ j < k ∧
        es[i]? = some (Event.RegisterLocalHostAppFinished true) ∧
        es[j]? = some (Event.RequestModeFinished (some m)) ∧
        es[k]? = some (Event.RequestTechsFinished (some t))) ∧
    (exampleApp.runOk [Event.RegisterLocalHostAppFinished true,
        Event.RequestModeFinished (some 7), Event.RequestTechsFinished (some 9)] ∧
      isReady exampleRegistered = true ∧ exampleRegistered.iRegisteredApp = true) := by
  refine ⟨step_call_mode_only, step_call_techs_only, step_ready_only,
    fun s => ⟨rfl, rfl⟩, fun s v => ⟨rfl, rfl⟩, fun s v => ⟨rfl, rfl, rfl, rfl⟩,
    step_failed_reply, ?_, ?_, exampleRegistered_runOk, ?_, ?_⟩
  · intro s hs hr
    obtain ⟨d, n, lastId, registered, es, hok, rfl⟩ := hs.exists_run
    exact ((run_registration d n lastId registered es hok).2.2.2.2.2 hr).1
  · intro d n lastId registered es hok hr
    exact ((run_registration d n lastId registered es hok).2.2.2.2.2 hr).2
  · decide
  · decide

/-! ## Teardown -/

theorem destruct_cases (s : Private) :
    s.destruct =
      (if s.iRegisteredTechsId ≠ 0 then [DBusCall.ReleaseTechs s.iRegisteredTechsId] else []) ++
      ((if s.iRegisteredModeId ≠ 0 then [DBusCall.ReleaseMode s.iRegisteredModeId] else []) ++
      (if s.iRegisteredApp = true then [DBusCall.UnregisterLocalHostApp APP_PATH] else [])) := by
  unfold Private.destruct
  rw [List.append_assoc]

theorem destruct_mem_techs (s : Private) (t : Nat) :
    DBusCall.ReleaseTechs t ∈ s.destruct ↔ s.iRegisteredTechsId ≠ 0 ∧ t = s.iRegisteredTechsId := by
  rw [destruct_cases]
  by_cases h1 : s.iRegisteredTechsId ≠ 0 <;> by_cases h2 : s.iRegisteredModeId ≠ 0 <;>
    by_cases h3 : s.iRegisteredApp = true <;> simp [h1, h2, h3]

theorem destruct_mem_mode (s : Private) (m : Nat) :
    DBusCall.ReleaseMode m ∈ s.destruct ↔ s.iRegisteredModeId ≠ 0 ∧ m = s.iRegisteredModeId := by
  rw [destruct_cases]
  by_cases h1 : s.iRegisteredTechsId ≠ 0 <;> by_cases h2 : s.iRegisteredModeId ≠ 0 <;>
    by_cases h3 : s.iRegisteredApp = true <;> simp [h1, h2, h3]

theorem destruct_mem_unregister (s : Private) (p : String) :
    DBusCall.UnregisterLocalHostApp p ∈ s.destruct ↔ s.iRegisteredApp = true ∧ p = APP_PATH := by
  rw [destruct_cases]
  by_cases h1 : s.iRegisteredTechsId ≠ 0 <;> by_cases h2 : s.iRegisteredModeId ≠ 0 <;>
    by_cases h3 : s.iRegisteredApp = true <;> simp [h1, h2, h3]

theorem destruct_sublist (s : Private) :
    s.destruct.Sublist [DBusCall.ReleaseTechs s.iRegisteredTechsId,
      DBusCall.ReleaseMode s.iRegisteredModeId, DBusCall.UnregisterLocalHostApp APP_PATH] := by
  rw [destruct_cases]
  by_cases h1 : s.iRegisteredTechsId ≠ 0 <;> by_cases h2 : s.iRegisteredModeId ≠ 0 <;>
    by_cases h3 : s.iRegisteredApp = true <;> simp [h1, h2, h3]

theorem exampleModeIdZero_runOk :
    exampleApp.runOk [Event.RegisterLocalHostAppFinished true, Event.RequestModeFinished (some 0),
      Event.RequestTechsFinished (some 5)] := by
  refine ⟨?_, ⟨?_, ?_⟩, ⟨?_, ?_⟩, trivial⟩
  · show Watcher.onRegisterLocalHostAppFinished ∈ exampleApp.watchers
    decide
  · show Watcher.onRequestModeFinished ∈
      (exampleApp.step (Event.RegisterLocalHostAppFinished true)).1.watchers
    decide
  · intro v hv
    cases hv
    unfold UINT_RANGE
    omega
  · show Watcher.onRequestTechsFinished ∈
      ((exampleApp.step (Event.RegisterLocalHostAppFinished true)).1.step
        (Event.RequestModeFinished (some 0))).1.watchers
    decide
  · intro v hv
    cases hv
    unfold UINT_RANGE
    omega

/-- C24, the claim as written fails: in the run of `exampleModeIdZero` the
three calls of the handshake are answered successfully and the daemon grants
the mode with the correlation id 0. The engine is ready and registered, and
its destructor issues `ReleaseTechs(5)` and
`UnregisterLocalHostApp("/ndefshare")` only: the granted mode is not
released. -/
theorem C24_granted_mode_with_id_zero_not_released :
    exampleApp.runOk [Event.RegisterLocalHostAppFinished true,
      Event.RequestModeFinished (some 0), Event.RequestTechsFinished (some 5)] ∧
    exampleModeIdZero = exampleApp.run [Event.RegisterLocalHostAppFinished true,
      Event.RequestModeFinished (some 0), Event.RequestTechsFinished (some 5)] ∧
    isReady exampleModeIdZero = true ∧
    exampleModeIdZero.destruct =
      [DBusCall.ReleaseTechs 5, DBusCall.UnregisterLocalHostApp "/ndefshare"] ∧
    DBusCall.ReleaseMode 0 ∉ exampleModeIdZero.destruct := by
  refine ⟨exampleModeIdZero_runOk, rfl, ?_, ?_, ?_⟩
  · decide
  · decide
  · decide

/-- C24, amended: for every state of the engine the destructor issues
`ReleaseTechs(techsId)` if the recorded technology id is not 0, then
`ReleaseMode(modeId)` if the recorded mode id is not 0, then
`UnregisterLocalHostApp("/ndefshare")` if the application is registered, in
this order and nothing else. In every run from the construction the recorded
ids are those of the successful replies, so the destructor issues
`ReleaseTechs(t)` exactly when the run holds a successful techs reply with
the id `t` and `t` is not 0, `ReleaseMode(m)` exactly when the run holds a
successful mode reply with the id `m` and `m` is not 0, and
`UnregisterLocalHostApp(p)` exactly when `p` is `"/ndefshare"` and the run
holds a successful register reply; a grant with the id 0 is not released. -/
theorem C24_teardown_releases_nonzero_ids :
    (∀ s : Private,
      s.destruct.Sublist [DBusCall.ReleaseTechs s.iRegisteredTechsId,
        DBusCall.ReleaseMode s.iRegisteredModeId, DBusCall.UnregisterLocalHostApp "/ndefshare"] ∧
      (DBusCall.ReleaseTechs s.iRegisteredTechsId ∈ s.destruct ↔ s.iRegisteredTechsId ≠ 0) ∧
      (DBusCall.ReleaseMode s.iRegisteredModeId ∈ s.destruct ↔ s.iRegisteredModeId ≠ 0) ∧
      (DBusCall.UnregisterLocalHostApp "/ndefshare" ∈ s.destruct ↔ s.iRegisteredApp = true)) ∧
    (∀ (d : QByteArray) (n lastId : Nat) (registered : Bool) (es : List Event),
      (Private.construct d n lastId registered).1.runOk es →
      (∀ t, DBusCall.ReleaseTechs t ∈ ((Private.construct d n lastId registered).1.run es).destruct
        ↔ (t ≠ 0 ∧ Event.RequestTechsFinished (some t) ∈ es)) ∧
      (∀ m, DBusCall.ReleaseMode m ∈ ((Private.construct d n lastId registered).1.run es).destruct
        ↔ (m ≠ 0 ∧ Event.RequestModeFinished (some m) ∈ es)) ∧
      (∀ p, DBusCall.UnregisterLocalHostApp p ∈
          ((Private.construct d n lastId registered).1.run es).destruct
        ↔ (p = "/ndefshare" ∧ Event.RegisterLocalHostAppFinished true ∈ es))) ∧
    (exampleApp.runOk [Event.RegisterLocalHostAppFinished true,
        Event.RequestModeFinished (some 7), Event.RequestTechsFinished (some 9)] ∧
      exampleRegistered.destruct = [DBusCall.ReleaseTechs 9, DBusCall.ReleaseMode 7,
        DBusCall.UnregisterLocalHostApp "/ndefshare"]) := by
  refine ⟨?_, ?_, exampleRegistered_runOk, ?_⟩
  · intro s
    refine ⟨destruct_sublist s, ?_, ?_, ?_⟩
    · rw [destruct_mem_techs]
      exact ⟨fun h => h.1, fun h => ⟨h, rfl⟩⟩
    · rw [destruct_mem_mode]
      exact ⟨fun h => h.1, fun h => ⟨h, rfl⟩⟩
    · show DBusCall.UnregisterLocalHostApp APP_PATH ∈ s.destruct ↔ _
      rw [destruct_mem_unregister]
      exact ⟨fun h => h.1, fun h => ⟨h, rfl⟩⟩
  · intro d n lastId registered es hok
    obtain ⟨r1, r2, r3, r4, r5, _⟩ := run_registration d n lastId registered es hok
    refine ⟨?_, ?_, ?_⟩
    · intro t
      rw [destruct_mem_techs]
      constructor
      · rintro ⟨h1, h2⟩
        rw [h2]
        exact ⟨h1, r5 h1⟩
      · rintro ⟨h1, h2⟩
        have h3 := r4 t h2
        rw [h3]
        exact ⟨h1, rfl⟩
    · intro m
      rw [destruct_mem_mode]
      constructor
      · rintro ⟨h1, h2⟩
        rw [h2]
        exact ⟨h1, r3 h1⟩
      · rintro ⟨h1, h2⟩
        have h3 := r2 m h2
        rw [h3]
        exact ⟨h1, rfl⟩
    · intro p
      rw [destruct_mem_unregister]
      constructor
      · rintro ⟨h1, h2⟩
        exact ⟨h2, r1.1 h1⟩
      · rintro ⟨h1, h2⟩
        exact ⟨r1.2 h2, h1⟩
  · decide

end NdefApp
